import Mathlib

/-!
The mini-clang identifier table and file manager.

A shallow embedding of `include/clang/Basic/IdentifierTable.h` and
`include/clang/Basic/FileManager.h`:

* `IdentifierInfo` is the bit-packed metadata record together with its accessors and mutators;
* `Session` is an `IdentifierTable` (hash table slots, the records placed in its bump
  allocator, the optional external lookup) together with the memory and the state of the
  external identifier source;
* `Session.get` and `Session.CreateIdentifierInfo` are the two interning entry points;
* `FileEntry` and `DirectoryEntry` are the records of the file manager; `FileManager` is its
  state, with `getDirectory` and `getFile` following the specification, since the header
  only declares them;
* `Session.AddKeywords` registers a keyword list, following the specification.

Pointers are modelled as indices: an `IdentifierInfo *` is a `Ref` (a record of the table's
allocator or a record owned by an external source), a `StringMapEntry *` is the index of the
slot in creation order. Slots are never removed and records are never freed, so indices are
stable for the whole session, like the addresses they stand for.

A failed `assert` is an error result. The calls made to the external lookup are recorded in
`Session.Queries`, so that "the external lookup is not queried" is the statement that this
list is unchanged; the filesystem probes of the file manager are recorded in
`FileManager.Probes` in the same way.
-/

namespace Clang

/-! ## The metadata record -/

/-- A `void *`: an address, `0` being the null pointer. -/
abbrev VoidPtr := Nat

/-- The record kept for each identifier. `TokenID` is an 8-bit field and `BuiltinID` a 10-bit
field, `Entry` is the pointer to the hash-table slot holding the spelling (`none` is null). -/
structure IdentifierInfo where
  TokenID : Nat
  BuiltinID : Nat
  HasMacro : Bool
  IsExtension : Bool
  IsPoisoned : Bool
  NeedsHandleIdentifier : Bool
  FETokenInfo : VoidPtr
  Entry : Option Nat
deriving DecidableEq

namespace IdentifierInfo

/-- Modelled from the spec: the body of the constructor `IdentifierInfo::IdentifierInfo()` is
not part of the header; the spec says a fresh record has all flags zeroed and keeps the
generic plain-identifier token kind (the value `tok::identifier` of the absent
`TokenKinds.h`, taken as a parameter), no builtin ID, no front-end data and no slot yet. -/
def ctor (tok_identifier : Nat) : IdentifierInfo :=
  { TokenID := tok_identifier % 2 ^ 8
    BuiltinID := 0
    HasMacro := false
    IsExtension := false
    IsPoisoned := false
    NeedsHandleIdentifier := false
    FETokenInfo := 0
    Entry := none }

def hasMacroDefinition (I : IdentifierInfo) : Bool := I.HasMacro

def isExtensionToken (I : IdentifierInfo) : Bool := I.IsExtension

def isPoisoned (I : IdentifierInfo) : Bool := I.IsPoisoned

def isHandleIdentifierCase (I : IdentifierInfo) : Bool := I.NeedsHandleIdentifier

def getTokenID (I : IdentifierInfo) : Nat := I.TokenID

def getBuiltinID (I : IdentifierInfo) : Nat := I.BuiltinID

def getFETokenInfo (I : IdentifierInfo) : VoidPtr := I.FETokenInfo

def RecomputeNeedsHandleIdentifier (I : IdentifierInfo) : IdentifierInfo :=
  { I with NeedsHandleIdentifier := (I.isPoisoned || I.hasMacroDefinition || I.isExtensionToken) }

def setHasMacroDefinition (I : IdentifierInfo) (Val : Bool) : IdentifierInfo :=
  if I.HasMacro = Val then I
  else
    let I1 := { I with HasMacro := Val }
    if Val then { I1 with NeedsHandleIdentifier := true }
    else I1.RecomputeNeedsHandleIdentifier

/-- The assignment to the bit-field `unsigned TokenID : 8` keeps the low 8 bits. -/
def setTokenID (I : IdentifierInfo) (ID : Nat) : IdentifierInfo :=
  { I with TokenID := ID % 2 ^ 8 }

/-- The assignment to the bit-field `unsigned BuiltinID : 10` keeps the low 10 bits. -/
def setBuiltinID (I : IdentifierInfo) (ID : Nat) : IdentifierInfo :=
  { I with BuiltinID := ID % 2 ^ 10 }

def setIsExtensionToken (I : IdentifierInfo) (Val : Bool) : IdentifierInfo :=
  let I1 := { I with IsExtension := Val }
  if Val then { I1 with NeedsHandleIdentifier := true }
  else I1.RecomputeNeedsHandleIdentifier

def setIsPoisoned (I : IdentifierInfo) (Value : Bool) : IdentifierInfo :=
  let I1 := { I with IsPoisoned := Value }
  if Value then { I1 with NeedsHandleIdentifier := true }
  else I1.RecomputeNeedsHandleIdentifier

def setFETokenInfo (I : IdentifierInfo) (T : VoidPtr) : IdentifierInfo :=
  { I with FETokenInfo := T }

/-- The derived-flag invariant of a record. -/
def DerivedFlagOk (I : IdentifierInfo) : Prop :=
  I.isHandleIdentifierCase = (I.isPoisoned || I.hasMacroDefinition || I.isExtensionToken)

instance (I : IdentifierInfo) : Decidable I.DerivedFlagOk := by
  unfold DerivedFlagOk; infer_instance

/-- A record as the constructor leaves its four boolean bits. -/
def FlagsClear (I : IdentifierInfo) : Prop :=
  I.HasMacro = false ∧ I.IsExtension = false ∧ I.IsPoisoned = false ∧
    I.NeedsHandleIdentifier = false

instance (I : IdentifierInfo) : Decidable I.FlagsClear := by
  unfold FlagsClear; infer_instance

end IdentifierInfo

/-- One call of a public mutator of `IdentifierInfo`, with its argument. -/
inductive Mutator where
  | setHasMacroDefinition (Val : Bool)
  | setIsExtensionToken (Val : Bool)
  | setIsPoisoned (Value : Bool)
  | setTokenID (ID : Nat)
  | setBuiltinID (ID : Nat)
  | setFETokenInfo (T : VoidPtr)
deriving DecidableEq

/-- The effect of one mutator call on a record. -/
def Mutator.apply (I : IdentifierInfo) : Mutator → IdentifierInfo
  | .setHasMacroDefinition v => I.setHasMacroDefinition v
  | .setIsExtensionToken v => I.setIsExtensionToken v
  | .setIsPoisoned v => I.setIsPoisoned v
  | .setTokenID n => I.setTokenID n
  | .setBuiltinID n => I.setBuiltinID n
  | .setFETokenInfo p => I.setFETokenInfo p

/-- The record after a finite sequence of mutator calls, first call first. -/
def applyMutators (I : IdentifierInfo) (ms : List Mutator) : IdentifierInfo :=
  ms.foldl Mutator.apply I

/-! ## The identifier table -/

/-- A byte of a spelling. -/
abbrev Byte := Fin 256

/-- An identifier spelling: the bytes between `NameStart` and `NameEnd`. -/
abbrev Spelling := List Byte

/-- An `IdentifierInfo *` that is not null. A record lives either in the table's
`BumpPtrAllocator` (the `i`-th record placed there) or in memory owned by an external
identifier source (the `i`-th record of that memory). -/
inductive Ref where
  | arena (i : Nat)
  | external (i : Nat)
deriving DecidableEq

/-- A slot `llvm::StringMapEntry<IdentifierInfo *>`: the key bytes and the value pointer
(`none` is the null pointer a slot is created with). -/
structure StringMapEntry where
  Key : Spelling
  Value : Option Ref
deriving DecidableEq

/-- The abstract class `IdentifierInfoLookup`: an object with a state of its own, whose `get`
answers with a record pointer or null and may change that state. No implementation is part
of the sources, so the answers are arbitrary; the object is taken not to call back into the
table while it answers. -/
structure IdentifierInfoLookup (σ : Type) where
  get : σ → Spelling → Option Ref × σ

/-- Everything a call on an `IdentifierTable` reads or writes.

* `HashTable`: the slots of the `StringMap`, in creation order;
* `Allocator`: the records placed in the table's allocator, in allocation order;
* `ExternalLookup`: the external lookup, `none` when the pointer is null;
* `tok_identifier`: the constant `tok::identifier` of the absent `TokenKinds.h`;
* `External`: the state of the external identifier source;
* `ExternalRecords`: the records that live outside the table's allocator;
* `Queries`: the spellings passed to `ExternalLookup->get` so far, oldest first (a probe
  count kept by the model, not a field of the class). -/
structure Session (σ : Type) where
  HashTable : List StringMapEntry
  Allocator : List IdentifierInfo
  ExternalLookup : Option (IdentifierInfoLookup σ)
  tok_identifier : Nat
  External : σ
  ExternalRecords : List IdentifierInfo
  Queries : List Spelling

namespace StringMap

/-- The position of the slot whose key is `Name`, if there is one. -/
def findSlot : List StringMapEntry → Spelling → Option Nat
  | [], _ => none
  | e :: H, Name => if e.Key = Name then some 0 else (findSlot H Name).map (· + 1)

/-- The call `StringMap::GetOrCreateValue`: the slot for `Name`, created with a null value at the end
of the table when there is none. Returns the slot and the table. -/
def GetOrCreateValue (H : List StringMapEntry) (Name : Spelling) : Nat × List StringMapEntry :=
  match findSlot H Name with
  | some i => (i, H)
  | none => (H.length, H ++ [{ Key := Name, Value := none }])

/-- The call `Entry.getValue()` for the slot at position `i`. -/
def getValue (H : List StringMapEntry) (i : Nat) : Option Ref :=
  match H[i]? with
  | some e => e.Value
  | none => none

/-- The call `Entry.setValue(II)` for the slot at position `i`. -/
def setValue : List StringMapEntry → Nat → Ref → List StringMapEntry
  | [], _, _ => []
  | e :: H, 0, II => { e with Value := some II } :: H
  | e :: H, i + 1, II => e :: setValue H i II

/-- The record pointer stored under `Name`: `none` when there is no slot or the slot holds
null. -/
def lookup (H : List StringMapEntry) (Name : Spelling) : Option Ref :=
  match findSlot H Name with
  | some i => getValue H i
  | none => none

end StringMap

namespace IdentifierInfo

/-- The accessor `getName()`: the key bytes of the slot `Entry` points to, `none` (the null pointer) for a
record without a slot. A slot pointer that is not null points to a slot of the table. -/
def getName (I : IdentifierInfo) (HashTable : List StringMapEntry) : Option Spelling :=
  match I.Entry with
  | some e => (HashTable[e]?).map (·.Key)
  | none => none

/-- The accessor `getLength()`: the key length of the slot `Entry` points to, `0` for a record without a
slot. -/
def getLength (I : IdentifierInfo) (HashTable : List StringMapEntry) : Nat :=
  match I.Entry with
  | some e => ((HashTable[e]?).map (·.Key.length)).getD 0
  | none => 0

end IdentifierInfo

namespace Session

variable {σ : Type}

/-- The accessor `size()`: the number of slots of the hash table. -/
def size (w : Session σ) : Nat := w.HashTable.length

/-- The record a pointer points to. -/
def deref (w : Session σ) : Ref → Option IdentifierInfo
  | .arena i => w.Allocator[i]?
  | .external i => w.ExternalRecords[i]?

/-- The record bound to a spelling, if any. -/
def find (w : Session σ) (Name : Spelling) : Option Ref :=
  StringMap.lookup w.HashTable Name

/-- The common tail of `get` and `CreateIdentifierInfo` ("Lookups failed, make a new
IdentifierInfo"): allocate a record, construct it, store it in the slot `Entry` and point the
record back to that slot. -/
def makeNewIdentifierInfo (w : Session σ) (Entry : Nat) : Ref × Session σ :=
  let II := Ref.arena w.Allocator.length
  (II, { w with
    Allocator := w.Allocator ++ [{ IdentifierInfo.ctor w.tok_identifier with Entry := some Entry }]
    HashTable := StringMap.setValue w.HashTable Entry II })

/-- The lookup `IdentifierTable::get(NameStart, NameEnd)`. -/
def get (w : Session σ) (Name : Spelling) : Ref × Session σ :=
  let slot := StringMap.GetOrCreateValue w.HashTable Name
  let w1 := { w with HashTable := slot.2 }
  match StringMap.getValue slot.2 slot.1 with
  | some II => (II, w1)
  | none =>
    match w.ExternalLookup with
    | some L =>
      let answer := L.get w.External Name
      let w2 := { w1 with External := answer.2, Queries := w.Queries ++ [Name] }
      match answer.1 with
      | some II => (II, { w2 with HashTable := StringMap.setValue slot.2 slot.1 II })
      | none => w2.makeNewIdentifierInfo slot.1
    | none => w1.makeNewIdentifierInfo slot.1

/-- The lower-level `IdentifierTable::CreateIdentifierInfo(NameStart, NameEnd)`. A failure of
`assert(!II && "IdentifierInfo already exists")` is the error result, which carries the
session as it is when the assertion fires. -/
def CreateIdentifierInfo (w : Session σ) (Name : Spelling) :
    Except (Session σ) (Ref × Session σ) :=
  let slot := StringMap.GetOrCreateValue w.HashTable Name
  let w1 := { w with HashTable := slot.2 }
  match StringMap.getValue slot.2 slot.1 with
  | some _ => .error w1
  | none => .ok (w1.makeNewIdentifierInfo slot.1)

/-- Every slot holds a pointer to an existing record: no null value and no dangling
pointer. -/
def Valid (w : Session σ) : Prop :=
  ∀ e ∈ w.HashTable, (e.Value.bind w.deref).isSome = true

instance (w : Session σ) : Decidable w.Valid := by
  unfold Valid; infer_instance

/-- The slot at position `i` with entry `e` is consistent with the back-reference of the
record it holds: the record exists and its `Entry` is this slot. A null slot is
consistent. -/
def slotBackRefOk (w : Session σ) (i : Nat) (e : StringMapEntry) : Bool :=
  match e.Value with
  | some r =>
    match w.deref r with
    | some I => I.Entry == some i
    | none => false
  | none => true

/-- Every bound record points back to the slot it is bound in. -/
def BackRefsOk (w : Session σ) : Prop :=
  ∀ p ∈ w.HashTable.enum, w.slotBackRefOk p.1 p.2 = true

instance (w : Session σ) : Decidable w.BackRefsOk := by
  unfold BackRefsOk; infer_instance

end Session

/-- A call of one of the two interning entry points. -/
inductive Call where
  | get (Name : Spelling)
  | CreateIdentifierInfo (Name : Spelling)
deriving DecidableEq

namespace Session

variable {σ : Type}

/-- One call on the table. -/
def call (w : Session σ) : Call → Except (Session σ) (Ref × Session σ)
  | .get Name => .ok (w.get Name)
  | .CreateIdentifierInfo Name => w.CreateIdentifierInfo Name

/-- A sequence of calls, first call first; it stops at the first failed assertion. -/
def run (w : Session σ) : List Call → Except (Session σ) (Session σ)
  | [] => .ok w
  | c :: cs =>
    match w.call c with
    | .ok res => res.2.run cs
    | .error e => .error e

/-- The session a sequence of calls ends in: after the last call, or where an assertion
fired. -/
def outcome (w : Session σ) (cs : List Call) : Session σ :=
  match w.run cs with
  | .ok w2 => w2
  | .error e => e

end Session

/-! ### Sessions used as concrete inputs -/

/-- The spelling `foo`. -/
def foo : Spelling := [102, 111, 111]

/-- The spelling `bar`. -/
def bar : Spelling := [98, 97, 114]

/-- A table with no slot and no external lookup. The value chosen for `tok_identifier` plays
no role in any statement. -/
def emptySession : Session Unit :=
  { HashTable := []
    Allocator := []
    ExternalLookup := none
    tok_identifier := 4
    External := ()
    ExternalRecords := []
    Queries := [] }

/-- A record owned by an external source and bound to no slot of the table: its `Entry` is
null. -/
def externalRecord : IdentifierInfo :=
  { TokenID := 4
    BuiltinID := 0
    HasMacro := false
    IsExtension := false
    IsPoisoned := false
    NeedsHandleIdentifier := false
    FETokenInfo := 0
    Entry := none }

/-- An external source that returns the record `externalRecord` for the spelling `foo` and
null for every other spelling. Its state counts the queries it has received. -/
def fooSource : IdentifierInfoLookup Nat :=
  { get := fun n Name => (if Name = foo then some (Ref.external 0) else none, n + 1) }

/-- An empty table with `fooSource` configured as external lookup. -/
def fooSession : Session Nat :=
  { HashTable := []
    Allocator := []
    ExternalLookup := some fooSource
    tok_identifier := 4
    External := 0
    ExternalRecords := [externalRecord]
    Queries := [] }

/-! ## The file manager records -/

/-- A path string: the bytes between `FileStart` and `FileEnd`. -/
abbrev Path := List Byte

/-- The class `DirectoryEntry`: `Name` is a `const char *`, null after the default
constructor. -/
structure DirectoryEntry where
  Name : Option Path
deriving DecidableEq

def DirectoryEntry.getName (D : DirectoryEntry) : Option Path := D.Name

/-- The class `FileEntry`. `Dir` is the pointer to the directory entry (the position of the
directory in the record store, `none` when null); `Size`, `ModTime`, `Device`, `Inode` and
`FileMode` hold the values of the integer types `off_t`, `time_t`, `dev_t`, `ino_t` and
`mode_t`. -/
structure FileEntry where
  Name : Option Path
  Size : Int
  ModTime : Int
  Dir : Option Nat
  UID : Nat
  Device : Int
  Inode : Int
  FileMode : Int
deriving DecidableEq

namespace FileEntry

def getName (E : FileEntry) : Option Path := E.Name

def getSize (E : FileEntry) : Int := E.Size

def getUID (E : FileEntry) : Nat := E.UID

def getInode (E : FileEntry) : Int := E.Inode

def getDevice (E : FileEntry) : Int := E.Device

def getModificationTime (E : FileEntry) : Int := E.ModTime

def getFileMode (E : FileEntry) : Int := E.FileMode

def getDir (E : FileEntry) : Option Nat := E.Dir

/-- The comparison `operator<`. -/
def lt (E RHS : FileEntry) : Bool :=
  decide (E.Device < RHS.Device) || (decide (E.Device = RHS.Device) && decide (E.Inode < RHS.Inode))

end FileEntry

/-- Two file entries used as concrete inputs: same identity, every other field different. -/
def entryA : FileEntry :=
  { Name := some [97], Size := 10, ModTime := 1, Dir := some 0, UID := 0, Device := 3,
    Inode := 7, FileMode := 420 }

/-- The entry `entryA` under another name and with other metadata. -/
def entryA2 : FileEntry :=
  { Name := some [98], Size := 99, ModTime := 2, Dir := some 1, UID := 5, Device := 3,
    Inode := 7, FileMode := 384 }

/-- An entry on the device of `entryA` with a larger inode. -/
def entryB : FileEntry :=
  { Name := some [99], Size := 0, ModTime := 0, Dir := none, UID := 1, Device := 3,
    Inode := 8, FileMode := 0 }

/-- An entry on a larger device with a smaller inode. -/
def entryC : FileEntry :=
  { Name := none, Size := 0, ModTime := 0, Dir := none, UID := 2, Device := 4,
    Inode := 1, FileMode := 0 }

namespace Session

variable {σ : Type}

/-- Distinct spellings are bound to distinct records. -/
def Injective (w : Session σ) : Prop :=
  ∀ s s2 r, w.find s = some r → w.find s2 = some r → s = s2

/-- The slot-wise form of `Injective`: two slots holding the same record carry the same
key. -/
def DistinctRecords (w : Session σ) : Prop :=
  ∀ e ∈ w.HashTable, ∀ e2 ∈ w.HashTable,
    e.Value.isSome = true → e.Value = e2.Value → e.Key = e2.Key

instance (w : Session σ) : Decidable w.DistinctRecords := by
  unfold DistinctRecords; infer_instance

end Session

/-- The spelling `Foo`, which differs from `foo` in letter case only. -/
def fooUpper : Spelling := [70, 111, 111]

/-- The spelling `fo`, a proper prefix of `foo`. -/
def fo : Spelling := [102, 111]

/-! ## The file manager

`FileManager.h` declares `getDirectory` and `getFile` and the fields of the class; the bodies
are not part of the sources. The operations below follow section 4.1 of the specification.
A reference to a `DirectoryEntry` or a `FileEntry` is its position in the record store, which
only grows. -/

/-- What a filesystem probe reports for a path that exists. -/
structure StatResult where
  Device : Int
  Inode : Int
  Size : Int
  ModTime : Int
  Mode : Int
  IsDirectory : Bool
deriving DecidableEq

/-- The filesystem query interface as it answers during one call: metadata for a path, or
`none` for "not found / error". Different calls may see different filesystems. -/
abbrev FileSystem := Path → Option StatResult

/-- A filesystem probe made by the file manager, recorded by the model as a probe count. -/
inductive Probe where
  | directory (p : Path)
  | file (p : Path)
deriving DecidableEq

/-- A map kept as a list of bindings, newest first: the value bound to a key. -/
def mapFind {α β : Type} [DecidableEq α] : List (α × β) → α → Option β
  | [], _ => none
  | kv :: m, a => if kv.1 = a then some kv.2 else mapFind m a

/-- The state of a `FileManager`.

* `UniqueDirs`, `UniqueFiles`: the identity indexes, from `(device, inode)` to the canonical
  record;
* `DirEntries`, `FileEntries`: the path caches, from the literal path to the resolved record
  or to the "does not exist" marker `none`;
* `Dirs`, `Files`: the canonical record store, in order of allocation;
* `NextFileUID` and the four statistics counters, as declared in the class;
* `Probes`: the filesystem probes made so far, oldest first (kept by the model). -/
structure FileManager where
  UniqueDirs : List ((Int × Int) × Nat)
  UniqueFiles : List ((Int × Int) × Nat)
  DirEntries : List (Path × Option Nat)
  FileEntries : List (Path × Option Nat)
  Dirs : List DirectoryEntry
  Files : List FileEntry
  NextFileUID : Nat
  NumDirLookups : Nat
  NumFileLookups : Nat
  NumDirCacheMisses : Nat
  NumFileCacheMisses : Nat
  Probes : List Probe
deriving DecidableEq

namespace FileManager

/-- Modelled from the spec: the body of the constructor `FileManager::FileManager()` is not
part of the sources; a new file manager has empty caches, indexes and record store, and its
counters, the UID counter included, start at zero. -/
def ctor : FileManager :=
  { UniqueDirs := [], UniqueFiles := [], DirEntries := [], FileEntries := [], Dirs := [],
    Files := [], NextFileUID := 0, NumDirLookups := 0, NumFileLookups := 0,
    NumDirCacheMisses := 0, NumFileCacheMisses := 0, Probes := [] }

/-- Modelled from the spec: the probe for directory metadata, which fails when the path does
not exist or is not a directory. -/
def probeDirectory (fs : FileSystem) (p : Path) : Option StatResult :=
  match fs p with
  | some st => if st.IsDirectory then some st else none
  | none => none

/-- Modelled from the spec: the probe for file metadata, which fails when the path does not
exist or is a directory. -/
def probeFile (fs : FileSystem) (p : Path) : Option StatResult :=
  match fs p with
  | some st => if st.IsDirectory then none else some st
  | none => none

/-- Modelled from the spec: step (3) of `getDirectory`, the identity index of directories:
reuse the canonical `DirectoryEntry` of the identity, or allocate one whose name is this
literal path and register it. -/
def uniqueDirectory (fm : FileManager) (p : Path) (st : StatResult) : Nat × FileManager :=
  match mapFind fm.UniqueDirs (st.Device, st.Inode) with
  | some d => (d, fm)
  | none =>
    (fm.Dirs.length, { fm with
      Dirs := fm.Dirs ++ [{ Name := some p }]
      UniqueDirs := ((st.Device, st.Inode), fm.Dirs.length) :: fm.UniqueDirs })

/-- Modelled from the spec: the body of `FileManager::getDirectory` is not part of the
sources. (1) A path found in the path cache is answered from the cache, positive or negative,
without a probe. (2) On a miss the filesystem is probed; a failed probe is cached as a
negative entry and answered absent. (3) Otherwise the identity index gives the canonical
record, which is cached under the literal path. -/
def getDirectory (fs : FileSystem) (fm : FileManager) (p : Path) : Option Nat × FileManager :=
  let fm1 := { fm with NumDirLookups := fm.NumDirLookups + 1 }
  match mapFind fm.DirEntries p with
  | some cached => (cached, fm1)
  | none =>
    let fm2 := { fm1 with
      NumDirCacheMisses := fm.NumDirCacheMisses + 1
      Probes := fm.Probes ++ [Probe.directory p] }
    match probeDirectory fs p with
    | none => (none, { fm2 with DirEntries := (p, none) :: fm2.DirEntries })
    | some st =>
      let u := fm2.uniqueDirectory p st
      (some u.1, { u.2 with DirEntries := (p, some u.1) :: u.2.DirEntries })

/-- Modelled from the spec: the identity index of files: reuse the canonical `FileEntry` of
the identity, or allocate one with this literal path as name, the probed metadata, the
resolved directory and the next UID (the counter is post-incremented), and register it. The
counter is the `unsigned NextFileUID` of the class; the spec calls it monotonically
increasing and never reused, so it does not wrap around here. -/
def uniqueFile (fm : FileManager) (p : Path) (d : Nat) (st : StatResult) : Nat × FileManager :=
  match mapFind fm.UniqueFiles (st.Device, st.Inode) with
  | some f => (f, fm)
  | none =>
    (fm.Files.length, { fm with
      Files := fm.Files ++ [
        { Name := some p
          Size := st.Size
          ModTime := st.ModTime
          Dir := some d
          UID := fm.NextFileUID
          Device := st.Device
          Inode := st.Inode
          FileMode := st.Mode }]
      NextFileUID := fm.NextFileUID + 1
      UniqueFiles := ((st.Device, st.Inode), fm.Files.length) :: fm.UniqueFiles })

/-- Modelled from the spec: the body of `FileManager::getFile` is not part of the sources.
Same shape as `getDirectory`: the path cache first; on a miss the parent directory is
resolved through `getDirectory` (`dirOf` splits off the directory part of a path); if that
fails, the file is absent and is not probed; otherwise the file is probed, a failed probe is
cached as a negative entry, and a successful one goes through the identity index and is
cached under the literal path. Every absent answer is cached. -/
def getFile (dirOf : Path → Path) (fs : FileSystem) (fm : FileManager) (p : Path) :
    Option Nat × FileManager :=
  let fm1 := { fm with NumFileLookups := fm.NumFileLookups + 1 }
  match mapFind fm.FileEntries p with
  | some cached => (cached, fm1)
  | none =>
    let fm2 := { fm1 with NumFileCacheMisses := fm.NumFileCacheMisses + 1 }
    let dir := getDirectory fs fm2 (dirOf p)
    match dir.1 with
    | none => (none, { dir.2 with FileEntries := (p, none) :: dir.2.FileEntries })
    | some d =>
      let fm3 := { dir.2 with Probes := dir.2.Probes ++ [Probe.file p] }
      match probeFile fs p with
      | none => (none, { fm3 with FileEntries := (p, none) :: fm3.FileEntries })
      | some st =>
        let u := fm3.uniqueFile p d st
        (some u.1, { u.2 with FileEntries := (p, some u.1) :: u.2.FileEntries })

end FileManager

/-- A call of one of the two resolution entry points, with the filesystem it sees. -/
inductive FileCall where
  | getDirectory (fs : FileSystem) (p : Path)
  | getFile (fs : FileSystem) (p : Path)

namespace FileManager

/-- The file manager after one call. -/
def call (dirOf : Path → Path) (fm : FileManager) : FileCall → FileManager
  | .getDirectory fs p => (fm.getDirectory fs p).2
  | .getFile fs p => (fm.getFile dirOf fs p).2

/-- The file manager after a sequence of calls, first call first. -/
def run (dirOf : Path → Path) (fm : FileManager) (cs : List FileCall) : FileManager :=
  cs.foldl (call dirOf) fm

/-- The identity index, the record store and the UID counter of files are consistent: every
indexed identity points to a record with that identity, every record is indexed under its
identity, UIDs increase strictly along the store and stay below the counter. -/
structure FileStoreOk (fm : FileManager) : Prop where
  index_sound : ∀ kf ∈ fm.UniqueFiles, ∃ e, fm.Files[kf.2]? = some e ∧ (e.Device, e.Inode) = kf.1
  index_complete : ∀ f e, fm.Files[f]? = some e →
    mapFind fm.UniqueFiles (e.Device, e.Inode) = some f
  uid_increasing : (fm.Files.map (·.UID)).Pairwise (· < ·)
  uid_below : ∀ e ∈ fm.Files, e.UID < fm.NextFileUID

/-- The path cache of files is consistent: a cached record exists, and the parent directory
of a path cached as a file is cached as a directory. -/
structure FileCacheOk (dirOf : Path → Path) (fm : FileManager) : Prop where
  cached_valid : ∀ pe ∈ fm.FileEntries, ∀ f, pe.2 = some f → f < fm.Files.length
  parent_cached : ∀ pe ∈ fm.FileEntries, ∀ f, pe.2 = some f →
    ∃ d, mapFind fm.DirEntries (dirOf pe.1) = some (some d)

/-- The invariant of the file side of a file manager. -/
def WF (dirOf : Path → Path) (fm : FileManager) : Prop :=
  fm.FileStoreOk ∧ fm.FileCacheOk dirOf

end FileManager

/-! ### Paths and filesystems used as concrete inputs -/

/-- A splitter for the directory part of a path: the bytes before the last `/`, and `.` for
a path without `/`. -/
def parentOf (p : Path) : Path :=
  match p.reverse.dropWhile (fun b => decide (b ≠ 47)) with
  | [] => [46]
  | _ :: r => r.reverse

/-- The path `..`. -/
def pathUp : Path := [46, 46]

/-- The path `.`. -/
def pathDot : Path := [46]

/-- The path `../CMakeLists.txt`. -/
def pathCMake : Path := [46, 46, 47, 67, 77, 97, 107, 101, 76, 105, 115, 116, 115, 46, 116, 120, 116]

/-- The path `../link.txt`, a second name of the file `../CMakeLists.txt`. -/
def pathLink : Path := [46, 46, 47, 108, 105, 110, 107, 46, 116, 120, 116]

/-- The path `../other.c`. -/
def pathOther : Path := [46, 46, 47, 111, 116, 104, 101, 114, 46, 99]

/-- The path `missing.c`. -/
def pathMissing : Path := [109, 105, 115, 115, 105, 110, 103, 46, 99]

/-- The path `nodir/a.c`, whose directory part does not exist. -/
def pathNoDir : Path := [110, 111, 100, 105, 114, 47, 97, 46, 99]

/-- A filesystem with the directories `.` and `..`, the file `../CMakeLists.txt` with the
second name `../link.txt`, and the file `../other.c`. -/
def diskA : FileSystem := fun p =>
  if p = pathDot then
    some { Device := 1, Inode := 3, Size := 96, ModTime := 5, Mode := 16877, IsDirectory := true }
  else if p = pathUp then
    some { Device := 1, Inode := 2, Size := 96, ModTime := 5, Mode := 16877, IsDirectory := true }
  else if p = pathCMake ∨ p = pathLink then
    some { Device := 1, Inode := 10, Size := 700, ModTime := 9, Mode := 33188,
           IsDirectory := false }
  else if p = pathOther then
    some { Device := 1, Inode := 11, Size := 20, ModTime := 9, Mode := 33188,
           IsDirectory := false }
  else none

/-- The filesystem `diskA` after `missing.c` has been created and `../CMakeLists.txt`
removed. -/
def diskB : FileSystem := fun p =>
  if p = pathMissing then
    some { Device := 1, Inode := 12, Size := 1, ModTime := 20, Mode := 33188,
           IsDirectory := false }
  else if p = pathCMake then none
  else diskA p

/-! ## Keyword registration -/

/-- The class `LangOptions`: the one-bit option fields as booleans (the field `Bool` of the
class is `BoolKeywords` here), the three-bit `SymbolVisibility`, the main file name and the
instantiation depth. -/
structure LangOptions where
  Trigraphs : Bool
  BCPLComment : Bool
  BoolKeywords : Bool
  DollarIdents : Bool
  AsmPreprocessor : Bool
  GNUMode : Bool
  ImplicitInt : Bool
  Digraphs : Bool
  HexFloats : Bool
  C99 : Bool
  Microsoft : Bool
  NoBuiltin : Bool
  EmitAllDecls : Bool
  Optimize : Bool
  OptimizeSize : Bool
  Static : Bool
  GNUInline : Bool
  NoInline : Bool
  SymbolVisibility : Nat
  MainFileName : Option Path
  InstantiationDepth : Nat

/-- The constructor `LangOptions()`. -/
def LangOptions.ctor : LangOptions :=
  { Trigraphs := false, BCPLComment := false, BoolKeywords := false, DollarIdents := false,
    AsmPreprocessor := false, GNUMode := false, ImplicitInt := false, Digraphs := false,
    HexFloats := false, C99 := false, Microsoft := false, NoBuiltin := false,
    EmitAllDecls := false, Optimize := false, OptimizeSize := false, Static := false,
    GNUInline := false, NoInline := false, SymbolVisibility := 0, MainFileName := none,
    InstantiationDepth := 99 }

/-- Modelled from the spec: one entry of the fixed, language-defined set of keywords, which
comes from the absent `TokenKinds.def`: the spelling, the reserved token kind, and whether
the keyword is active under a configuration. -/
structure Keyword where
  Name : Spelling
  TokenKind : Nat
  Enabled : LangOptions → Bool

/-- The list with the element at position `i`, if any, replaced by its image under `f`. -/
def updateAt {α : Type} : List α → Nat → (α → α) → List α
  | [], _, _ => []
  | x :: l, 0, f => f x :: l
  | x :: l, i + 1, f => x :: updateAt l i f

namespace Session

variable {σ : Type}

/-- The call `II->setTokenID(ID)` through a record pointer. -/
def setTokenID (w : Session σ) (II : Ref) (ID : Nat) : Session σ :=
  match II with
  | .arena i => { w with Allocator := updateAt w.Allocator i (fun I => I.setTokenID ID) }
  | .external i =>
    { w with ExternalRecords := updateAt w.ExternalRecords i (fun I => I.setTokenID ID) }

/-- Modelled from the spec: the registration of one keyword by `AddKeywords`. An active
keyword is interned through `get` and the `tokenId` of its record is set to the reserved
token kind; an inactive keyword is not registered, so that its identifier keeps the generic
token kind. -/
def AddKeyword (LangOpts : LangOptions) (w : Session σ) (kw : Keyword) : Session σ :=
  if kw.Enabled LangOpts then (w.get kw.Name).2.setTokenID (w.get kw.Name).1 kw.TokenKind
  else w

/-- Modelled from the spec: the body of `IdentifierTable::AddKeywords` is not part of the
sources; every keyword of the language-defined list is registered in turn according to the
configuration. -/
def AddKeywords (Keywords : List Keyword) (w : Session σ) (LangOpts : LangOptions) :
    Session σ :=
  Keywords.foldl (AddKeyword LangOpts) w

/-- The session after interning a list of spellings in turn. -/
def getAll (w : Session σ) (Names : List Spelling) : Session σ :=
  Names.foldl (fun w1 Name => (w1.get Name).2) w

/-- The session after a list of `setTokenID` calls, first call first. -/
def setAll (w : Session σ) (ws : List (Ref × Nat)) : Session σ :=
  ws.foldl (fun w1 a => w1.setTokenID a.1 a.2) w

/-- The `setTokenID` calls a keyword list makes on a session in which the keywords are
bound: for each keyword the record bound to its spelling and the token kind. -/
def keywordWrites (w : Session σ) (ks : List Keyword) : List (Ref × Nat) :=
  ks.filterMap (fun kw => (w.find kw.Name).map (fun II => (II, kw.TokenKind)))

end Session

/-- The spelling `if`. -/
def kwIf : Spelling := [105, 102]

/-- The spelling `bool`. -/
def kwBool : Spelling := [98, 111, 111, 108]

/-- A keyword list used as concrete input: `if` always active, `bool` active with the
`Bool` option, `foo` registered under two token kinds in a row. -/
def sampleKeywords : List Keyword :=
  [ { Name := kwIf, TokenKind := 10, Enabled := fun _ => true },
    { Name := kwBool, TokenKind := 11, Enabled := fun o => o.BoolKeywords },
    { Name := foo, TokenKind := 12, Enabled := fun _ => true },
    { Name := foo, TokenKind := 13, Enabled := fun _ => true } ]

/-! ## The literal test `isStr` -/

/-- The library function `memcmp` on the first `n` bytes of two buffers: zero when they
agree, negative or positive according to the first byte that differs. In `isStr` the lengths
have been compared before, so no byte past the end of a buffer is read; there a buffer that
ends first compares smaller. -/
def memcmp : List Byte → List Byte → Nat → Int
  | _, _, 0 => 0
  | a :: as, b :: bs, n + 1 => if a = b then memcmp as bs n else if a < b then -1 else 1
  | [], [], _ + 1 => 0
  | [], _ :: _, _ + 1 => -1
  | _ :: _, [], _ + 1 => 1

/-- The test `isStr(Str)`: `Str` is the character array of a string literal, terminating NUL
included, and `StrLen` is its length. A null `getName()` stands for an empty buffer, of which
`memcmp` reads nothing since `getLength()` is then `0`. -/
def IdentifierInfo.isStr (I : IdentifierInfo) (HashTable : List StringMapEntry)
    (Str : List Byte) : Bool :=
  decide (I.getLength HashTable = Str.length - 1) &&
    decide (memcmp ((I.getName HashTable).getD []) Str (Str.length - 1) = 0)

/-- The spelling `fooo`, a proper extension of `foo`. -/
def fooo : Spelling := [102, 111, 111, 111]

/-- An external source that answers null for every spelling on its first query and, from the
second query on, returns the record `externalRecord` for the spelling `foo`. Its state
counts the queries it has received. -/
def lateSource : IdentifierInfoLookup Nat :=
  { get := fun n Name =>
      (if n = 0 then none else if Name = foo then some (Ref.external 0) else none, n + 1) }

/-- An empty table with `lateSource` configured as external lookup. -/
def lateSession : Session Nat :=
  { HashTable := []
    Allocator := []
    ExternalLookup := some lateSource
    tok_identifier := 4
    External := 0
    ExternalRecords := [externalRecord]
    Queries := [] }

/-- An external source that answers every query for `foo` with the second record of the
table's own allocator, whether that record exists yet or not. -/
def selfSource : IdentifierInfoLookup Nat :=
  { get := fun n Name => (if Name = foo then some (Ref.arena 1) else none, n + 1) }

/-- A table holding one record, bound to `bar`, with `selfSource` as external lookup. -/
def selfSession : Session Nat :=
  { HashTable := [{ Key := bar, Value := some (Ref.arena 0) }]
    Allocator := [{ IdentifierInfo.ctor 4 with Entry := some 0 }]
    ExternalLookup := some selfSource
    tok_identifier := 4
    External := 0
    ExternalRecords := []
    Queries := [] }

/-- The setter `IdentifierTable::setExternalIdentifierLookup(IILookup)`: it replaces the
external lookup, null standing for none, and touches nothing else. -/
def Session.setExternalIdentifierLookup {σ : Type} (w : Session σ)
    (IILookup : Option (IdentifierInfoLookup σ)) : Session σ :=
  { w with ExternalLookup := IILookup }

/-- An external source that answers every query with the one record `externalRecord`. -/
def sharedSource : IdentifierInfoLookup Nat :=
  { get := fun n _ => (some (Ref.external 0), n + 1) }

/-- An empty table with `sharedSource` configured as external lookup. -/
def sharedSession : Session Nat :=
  { HashTable := []
    Allocator := []
    ExternalLookup := some sharedSource
    tok_identifier := 4
    External := 0
    ExternalRecords := [externalRecord]
    Queries := [] }

/-- The table after `get("foo")` and `get("bar")` under `sharedSource` and a following
`setExternalIdentifierLookup(nullptr)`: no external lookup is configured any more, and both
spellings are bound to the external record. -/
def sharedNoLookup : Session Nat :=
  ((sharedSession.get foo).2.get bar).2.setExternalIdentifierLookup none

/-- The record behind the pointer `II` exists, its `getName()` is the spelling `Name` and its
`getLength()` is the byte length of `Name`. -/
def Session.NamedAs {σ : Type} (w : Session σ) (II : Ref) (Name : Spelling) : Prop :=
  ∃ I, w.deref II = some I ∧ I.getName w.HashTable = some Name ∧
    I.getLength w.HashTable = Name.length

/-! ## Records: the derived flag -/

section RecordLemmas

open IdentifierInfo

theorem flagsClear_derivedFlagOk {I : IdentifierInfo} (h : I.FlagsClear) : I.DerivedFlagOk := by
  obtain ⟨h1, h2, h3, h4⟩ := h
  simp [DerivedFlagOk, isHandleIdentifierCase, isPoisoned, hasMacroDefinition,
    isExtensionToken, h1, h2, h3, h4]

theorem Mutator.apply_derivedFlagOk (I : IdentifierInfo) (m : Mutator) (h : I.DerivedFlagOk) :
    (m.apply I).DerivedFlagOk := by
  obtain ⟨t, b, hm, ie, ip, nh, fe, en⟩ := I
  cases m with
  | setHasMacroDefinition v =>
    cases v <;> cases hm <;> cases ie <;> cases ip <;> cases nh <;>
      simp_all [Mutator.apply, DerivedFlagOk, IdentifierInfo.setHasMacroDefinition,
        RecomputeNeedsHandleIdentifier, isHandleIdentifierCase, isPoisoned,
        hasMacroDefinition, isExtensionToken]
  | setIsExtensionToken v =>
    cases v <;> cases hm <;> cases ie <;> cases ip <;> cases nh <;>
      simp_all [Mutator.apply, DerivedFlagOk, IdentifierInfo.setIsExtensionToken,
        RecomputeNeedsHandleIdentifier, isHandleIdentifierCase, isPoisoned,
        hasMacroDefinition, isExtensionToken]
  | setIsPoisoned v =>
    cases v <;> cases hm <;> cases ie <;> cases ip <;> cases nh <;>
      simp_all [Mutator.apply, DerivedFlagOk, IdentifierInfo.setIsPoisoned,
        RecomputeNeedsHandleIdentifier, isHandleIdentifierCase, isPoisoned,
        hasMacroDefinition, isExtensionToken]
  | setTokenID n =>
    simpa [Mutator.apply, DerivedFlagOk, IdentifierInfo.setTokenID, isHandleIdentifierCase,
      isPoisoned, hasMacroDefinition, isExtensionToken] using h
  | setBuiltinID n =>
    simpa [Mutator.apply, DerivedFlagOk, IdentifierInfo.setBuiltinID, isHandleIdentifierCase,
      isPoisoned, hasMacroDefinition, isExtensionToken] using h
  | setFETokenInfo p =>
    simpa [Mutator.apply, DerivedFlagOk, IdentifierInfo.setFETokenInfo, isHandleIdentifierCase,
      isPoisoned, hasMacroDefinition, isExtensionToken] using h

theorem applyMutators_derivedFlagOk (ms : List Mutator) :
    ∀ I : IdentifierInfo, I.DerivedFlagOk → (applyMutators I ms).DerivedFlagOk := by
  induction ms with
  | nil => intro I h; simpa [applyMutators] using h
  | cons m ms ih =>
    intro I h
    have := ih (m.apply I) (Mutator.apply_derivedFlagOk I m h)
    simpa [applyMutators] using this

/-- A setter called with the current value of its flag changes nothing once the derived flag
is consistent. -/
theorem redundant_setter_of_derivedFlagOk (I : IdentifierInfo) (h : I.DerivedFlagOk) :
    I.setHasMacroDefinition I.hasMacroDefinition = I ∧
    I.setIsExtensionToken I.isExtensionToken = I ∧
    I.setIsPoisoned I.isPoisoned = I := by
  obtain ⟨t, b, hm, ie, ip, nh, fe, en⟩ := I
  cases hm <;> cases ie <;> cases ip <;> cases nh <;>
    simp_all [DerivedFlagOk, IdentifierInfo.setHasMacroDefinition,
      IdentifierInfo.setIsExtensionToken, IdentifierInfo.setIsPoisoned,
      RecomputeNeedsHandleIdentifier, isHandleIdentifierCase, isPoisoned,
      hasMacroDefinition, isExtensionToken]

end RecordLemmas

/-! ## Hash table slots -/

namespace StringMap

theorem findSlot_lt {H : List StringMapEntry} {Name : Spelling} {i : Nat}
    (h : findSlot H Name = some i) : i < H.length := by
  induction H generalizing i with
  | nil => simp [findSlot] at h
  | cons e H ih =>
    unfold findSlot at h
    split at h
    · cases h; simp
    · cases hf : findSlot H Name with
      | none => simp [hf] at h
      | some j =>
        simp [hf] at h
        subst h
        have := ih hf
        simp only [List.length_cons]; omega

theorem findSlot_key {H : List StringMapEntry} {Name : Spelling} {i : Nat}
    (h : findSlot H Name = some i) : ∃ e, H[i]? = some e ∧ e.Key = Name := by
  induction H generalizing i with
  | nil => simp [findSlot] at h
  | cons e H ih =>
    unfold findSlot at h
    split at h
    · next hk => cases h; exact ⟨e, by simp, hk⟩
    · cases hf : findSlot H Name with
      | none => simp [hf] at h
      | some j =>
        simp [hf] at h
        subst h
        obtain ⟨e', he', hk'⟩ := ih hf
        exact ⟨e', by simpa using he', hk'⟩

theorem length_setValue (H : List StringMapEntry) (i : Nat) (II : Ref) :
    (setValue H i II).length = H.length := by
  induction H generalizing i with
  | nil => simp [setValue]
  | cons e H ih => cases i <;> simp [setValue, ih]

theorem findSlot_setValue (H : List StringMapEntry) (i : Nat) (II : Ref) (Name : Spelling) :
    findSlot (setValue H i II) Name = findSlot H Name := by
  induction H generalizing i with
  | nil => simp [setValue]
  | cons e H ih => cases i <;> simp [setValue, findSlot, ih]

theorem getValue_setValue_self {H : List StringMapEntry} {i : Nat} (II : Ref)
    (h : i < H.length) : getValue (setValue H i II) i = some II := by
  induction H generalizing i with
  | nil => simp at h
  | cons e H ih =>
    cases i with
    | zero => simp [setValue, getValue]
    | succ i =>
      have := @ih i (by simpa using h)
      simpa [setValue, getValue] using this

theorem getValue_setValue_ne (H : List StringMapEntry) {i j : Nat} (II : Ref) (h : j ≠ i) :
    getValue (setValue H i II) j = getValue H j := by
  induction H generalizing i j with
  | nil => simp [setValue]
  | cons e H ih =>
    cases i with
    | zero =>
      cases j with
      | zero => exact absurd rfl h
      | succ j => simp [setValue, getValue]
    | succ i =>
      cases j with
      | zero => simp [setValue, getValue]
      | succ j =>
        have := @ih i j (by omega)
        simpa [setValue, getValue] using this

theorem getElem?_setValue_self {H : List StringMapEntry} {i : Nat} {e : StringMapEntry} (II : Ref)
    (h : H[i]? = some e) : (setValue H i II)[i]? = some { e with Value := some II } := by
  induction H generalizing i with
  | nil => simp at h
  | cons e' H ih =>
    cases i with
    | zero => simp at h; subst h; simp [setValue]
    | succ i =>
      have := @ih i (by simpa using h)
      simpa [setValue] using this

theorem getElem?_setValue_ne (H : List StringMapEntry) {i j : Nat} (II : Ref) (h : j ≠ i) :
    (setValue H i II)[j]? = H[j]? := by
  induction H generalizing i j with
  | nil => simp [setValue]
  | cons e H ih =>
    cases i with
    | zero =>
      cases j with
      | zero => exact absurd rfl h
      | succ j => simp [setValue]
    | succ i =>
      cases j with
      | zero => simp [setValue]
      | succ j =>
        have := @ih i j (by omega)
        simpa [setValue] using this

theorem findSlot_append (H : List StringMapEntry) (e : StringMapEntry) (Name : Spelling) :
    findSlot (H ++ [e]) Name =
      match findSlot H Name with
      | some i => some i
      | none => if e.Key = Name then some H.length else none := by
  induction H with
  | nil => simp [findSlot]
  | cons e' H ih =>
    by_cases hk : e'.Key = Name
    · simp [findSlot, hk]
    · cases hf : findSlot H Name with
      | some i => simp [findSlot, hk, ih, hf]
      | none => by_cases he : e.Key = Name <;> simp [findSlot, hk, ih, hf, he]

theorem getValue_append_lt {H : List StringMapEntry} (e : StringMapEntry) {i : Nat}
    (h : i < H.length) : getValue (H ++ [e]) i = getValue H i := by
  simp [getValue, List.getElem?_append_left h]

theorem getValue_append_length (H : List StringMapEntry) (e : StringMapEntry) :
    getValue (H ++ [e]) H.length = e.Value := by
  simp [getValue]

/-- The slot handed out by `GetOrCreateValue` exists and carries the requested key. -/
theorem GetOrCreateValue_slot (H : List StringMapEntry) (Name : Spelling) :
    ∃ e, (GetOrCreateValue H Name).2[(GetOrCreateValue H Name).1]? = some e ∧ e.Key = Name ∧
      e.Value = lookup H Name ∧ findSlot (GetOrCreateValue H Name).2 Name
        = some (GetOrCreateValue H Name).1 := by
  unfold GetOrCreateValue lookup
  cases hf : findSlot H Name with
  | some i =>
    obtain ⟨e, he, hk⟩ := findSlot_key hf
    exact ⟨e, by simpa using he, hk, by simp [getValue, he], by simpa using hf⟩
  | none =>
    refine ⟨{ Key := Name, Value := none }, by simp, rfl, rfl, ?_⟩
    simp [findSlot_append, hf]

theorem GetOrCreateValue_of_findSlot {H : List StringMapEntry} {Name : Spelling} {i : Nat}
    (h : findSlot H Name = some i) : GetOrCreateValue H Name = (i, H) := by
  simp [GetOrCreateValue, h]

theorem GetOrCreateValue_getValue (H : List StringMapEntry) (Name : Spelling) :
    getValue (GetOrCreateValue H Name).2 (GetOrCreateValue H Name).1 = lookup H Name := by
  obtain ⟨e, he, -, hv, -⟩ := GetOrCreateValue_slot H Name
  simp [getValue, he, hv]

theorem GetOrCreateValue_lt (H : List StringMapEntry) (Name : Spelling) :
    (GetOrCreateValue H Name).1 < (GetOrCreateValue H Name).2.length := by
  obtain ⟨e, he, -⟩ := GetOrCreateValue_slot H Name
  exact (List.getElem?_eq_some_iff.mp he).1

theorem lookup_GetOrCreateValue (H : List StringMapEntry) (Name Other : Spelling) :
    lookup (GetOrCreateValue H Name).2 Other = lookup H Other := by
  unfold GetOrCreateValue
  cases hf : findSlot H Name with
  | some i => rfl
  | none =>
    simp only [lookup, findSlot_append]
    cases hg : findSlot H Other with
    | some j => simp [getValue_append_lt _ (findSlot_lt hg)]
    | none =>
      by_cases hk : Name = Other
      · simp [hk, getValue_append_length]
      · simp [hk]

/-- Storing a record in a slot binds the key of that slot and no other key. -/
theorem lookup_setValue {H : List StringMapEntry} {Name : Spelling} {i : Nat} (II : Ref)
    (h : findSlot H Name = some i) (Other : Spelling) :
    lookup (setValue H i II) Other = if Other = Name then some II else lookup H Other := by
  simp only [lookup, findSlot_setValue]
  by_cases hk : Other = Name
  · subst hk
    simp [h, getValue_setValue_self II (findSlot_lt h)]
  · simp only [hk, if_false]
    cases hg : findSlot H Other with
    | none => rfl
    | some j =>
      have hne : j ≠ i := by
        rintro rfl
        obtain ⟨e, he, hke⟩ := findSlot_key h
        obtain ⟨e', he', hke'⟩ := findSlot_key hg
        rw [he] at he'
        cases he'
        exact hk (hke'.symm.trans hke)
      simp [getValue_setValue_ne H II hne]

/-- The effect on the bindings of `GetOrCreateValue` followed by `setValue`. -/
theorem lookup_bindSlot (H : List StringMapEntry) (Name : Spelling) (II : Ref)
    (Other : Spelling) :
    lookup (setValue (GetOrCreateValue H Name).2 (GetOrCreateValue H Name).1 II) Other =
      if Other = Name then some II else lookup H Other := by
  obtain ⟨e, -, -, -, hf⟩ := GetOrCreateValue_slot H Name
  rw [lookup_setValue II hf Other, lookup_GetOrCreateValue]

theorem GetOrCreateValue_of_lookup {H : List StringMapEntry} {Name : Spelling} {II : Ref}
    (h : lookup H Name = some II) : (GetOrCreateValue H Name).2 = H := by
  unfold lookup at h
  cases hf : findSlot H Name with
  | some i => simp [GetOrCreateValue, hf]
  | none => simp [hf] at h

end StringMap

/-! ## The two entry points, path by path -/

namespace Session

variable {σ : Type}

/-- Cache hit: the bound record is returned and nothing changes. -/
theorem get_of_find {w : Session σ} {Name : Spelling} {II : Ref} (h : w.find Name = some II) :
    w.get Name = (II, w) := by
  have h1 := StringMap.GetOrCreateValue_getValue w.HashTable Name
  have h2 := StringMap.GetOrCreateValue_of_lookup h
  unfold find at h
  rw [h, h2] at h1
  simp only [get, h2, h1]

/-- Miss with an external lookup that answers with a record. -/
theorem get_of_external_hit {w : Session σ} {Name : Spelling} {L : IdentifierInfoLookup σ}
    {II : Ref} (h : w.find Name = none) (hL : w.ExternalLookup = some L)
    (hA : (L.get w.External Name).1 = some II) :
    w.get Name = (II, { w with
      HashTable := StringMap.setValue (StringMap.GetOrCreateValue w.HashTable Name).2
        (StringMap.GetOrCreateValue w.HashTable Name).1 II
      External := (L.get w.External Name).2
      Queries := w.Queries ++ [Name] }) := by
  have h1 := StringMap.GetOrCreateValue_getValue w.HashTable Name
  unfold find at h
  rw [h] at h1
  simp only [get, h1, hL, hA]

/-- Miss with an external lookup that answers null. -/
theorem get_of_external_miss {w : Session σ} {Name : Spelling} {L : IdentifierInfoLookup σ}
    (h : w.find Name = none) (hL : w.ExternalLookup = some L)
    (hA : (L.get w.External Name).1 = none) :
    w.get Name = (Ref.arena w.Allocator.length, { w with
      HashTable := StringMap.setValue (StringMap.GetOrCreateValue w.HashTable Name).2
        (StringMap.GetOrCreateValue w.HashTable Name).1 (Ref.arena w.Allocator.length)
      Allocator := w.Allocator ++ [{ IdentifierInfo.ctor w.tok_identifier with
        Entry := some (StringMap.GetOrCreateValue w.HashTable Name).1 }]
      External := (L.get w.External Name).2
      Queries := w.Queries ++ [Name] }) := by
  have h1 := StringMap.GetOrCreateValue_getValue w.HashTable Name
  unfold find at h
  rw [h] at h1
  simp only [get, h1, hL, hA, makeNewIdentifierInfo]

/-- Miss without an external lookup. -/
theorem get_of_no_external {w : Session σ} {Name : Spelling}
    (h : w.find Name = none) (hL : w.ExternalLookup = none) :
    w.get Name = (Ref.arena w.Allocator.length, { w with
      HashTable := StringMap.setValue (StringMap.GetOrCreateValue w.HashTable Name).2
        (StringMap.GetOrCreateValue w.HashTable Name).1 (Ref.arena w.Allocator.length)
      Allocator := w.Allocator ++ [{ IdentifierInfo.ctor w.tok_identifier with
        Entry := some (StringMap.GetOrCreateValue w.HashTable Name).1 }] }) := by
  have h1 := StringMap.GetOrCreateValue_getValue w.HashTable Name
  unfold find at h
  rw [h] at h1
  simp only [get, h1, hL, makeNewIdentifierInfo]

/-- The assertion of `CreateIdentifierInfo` fires on a bound spelling, with the table as it
was. -/
theorem CreateIdentifierInfo_of_find {w : Session σ} {Name : Spelling} {II : Ref}
    (h : w.find Name = some II) : w.CreateIdentifierInfo Name = .error w := by
  have h1 := StringMap.GetOrCreateValue_getValue w.HashTable Name
  have h2 := StringMap.GetOrCreateValue_of_lookup h
  unfold find at h
  rw [h, h2] at h1
  simp only [CreateIdentifierInfo, h2, h1]

/-- On a spelling that is not bound `CreateIdentifierInfo` allocates. -/
theorem CreateIdentifierInfo_of_not_find {w : Session σ} {Name : Spelling}
    (h : w.find Name = none) :
    w.CreateIdentifierInfo Name = .ok (Ref.arena w.Allocator.length, { w with
      HashTable := StringMap.setValue (StringMap.GetOrCreateValue w.HashTable Name).2
        (StringMap.GetOrCreateValue w.HashTable Name).1 (Ref.arena w.Allocator.length)
      Allocator := w.Allocator ++ [{ IdentifierInfo.ctor w.tok_identifier with
        Entry := some (StringMap.GetOrCreateValue w.HashTable Name).1 }] }) := by
  have h1 := StringMap.GetOrCreateValue_getValue w.HashTable Name
  unfold find at h
  rw [h] at h1
  simp only [CreateIdentifierInfo, h1, makeNewIdentifierInfo]

/-- After `get`, the spelling is bound to the returned record and every other binding is as
before. -/
theorem find_get (w : Session σ) (Name Other : Spelling) :
    (w.get Name).2.find Other = if Other = Name then some (w.get Name).1 else w.find Other := by
  cases h : w.find Name with
  | some II =>
    rw [get_of_find h]
    by_cases hk : Other = Name
    · simp [hk, h]
    · simp [hk]
  | none =>
    cases hL : w.ExternalLookup with
    | none =>
      rw [get_of_no_external h hL]
      exact StringMap.lookup_bindSlot _ _ _ _
    | some L =>
      cases hA : (L.get w.External Name).1 with
      | some II =>
        rw [get_of_external_hit h hL hA]
        exact StringMap.lookup_bindSlot _ _ _ _
      | none =>
        rw [get_of_external_miss h hL hA]
        exact StringMap.lookup_bindSlot _ _ _ _

/-- After a successful `CreateIdentifierInfo`, the spelling is bound to the returned record
and every other binding is as before. -/
theorem find_CreateIdentifierInfo {w : Session σ} {Name : Spelling} {res : Ref × Session σ}
    (h : w.CreateIdentifierInfo Name = .ok res) (Other : Spelling) :
    res.2.find Other = if Other = Name then some res.1 else w.find Other := by
  cases hf : w.find Name with
  | some r => rw [CreateIdentifierInfo_of_find hf] at h; cases h
  | none =>
    rw [CreateIdentifierInfo_of_not_find hf] at h
    cases h
    exact StringMap.lookup_bindSlot _ _ _ _

/-- A binding survives every call that returns. -/
theorem find_call {w : Session σ} {c : Call} {res : Ref × Session σ} {Name : Spelling}
    {II : Ref} (hc : w.call c = .ok res) (h : w.find Name = some II) :
    res.2.find Name = some II := by
  cases c with
  | get Other =>
    simp only [call, Except.ok.injEq] at hc
    subst hc
    rw [find_get w Other Name]
    by_cases hk : Name = Other
    · subst hk
      rw [get_of_find h]
      simp
    · simp [hk, h]
  | CreateIdentifierInfo Other =>
    simp only [call] at hc
    rw [find_CreateIdentifierInfo hc Name]
    by_cases hk : Name = Other
    · subst hk
      rw [CreateIdentifierInfo_of_find h] at hc
      cases hc
    · simp [hk, h]

/-- A binding survives every sequence of calls that runs to its end. -/
theorem find_run {cs : List Call} {w w2 : Session σ} {Name : Spelling} {II : Ref}
    (hrun : w.run cs = .ok w2) (h : w.find Name = some II) : w2.find Name = some II := by
  induction cs generalizing w with
  | nil =>
    simp only [run, Except.ok.injEq] at hrun
    subst hrun
    exact h
  | cons c cs ih =>
    simp only [run] at hrun
    cases hc : w.call c with
    | error e => rw [hc] at hrun; cases hrun
    | ok res =>
      rw [hc] at hrun
      exact ih hrun (find_call hc h)

end Session

/-! ## Validity of the stored pointers and the back-references -/

namespace StringMap

theorem lookup_mem {H : List StringMapEntry} {Name : Spelling} {II : Ref}
    (h : lookup H Name = some II) : ∃ e ∈ H, e.Value = some II := by
  unfold lookup at h
  cases hf : findSlot H Name with
  | none => simp [hf] at h
  | some i =>
    obtain ⟨e, he, -⟩ := findSlot_key hf
    simp only [hf, getValue, he] at h
    exact ⟨e, List.getElem?_mem he, h⟩

theorem lookup_eq_of_findSlot {H : List StringMapEntry} {Name : Spelling} {i : Nat}
    (h : findSlot H Name = some i) :
    ∃ e, H[i]? = some e ∧ e.Key = Name ∧ lookup H Name = e.Value := by
  obtain ⟨e, he, hk⟩ := findSlot_key h
  exact ⟨e, he, hk, by simp [lookup, h, getValue, he]⟩

theorem setValue_append_length (H : List StringMapEntry) (e : StringMapEntry) (II : Ref) :
    setValue (H ++ [e]) H.length II = H ++ [{ e with Value := some II }] := by
  induction H with
  | nil => simp [setValue]
  | cons e' H ih => simp [setValue, ih]

/-- The slot a record is stored in through `GetOrCreateValue` and `setValue` carries the
requested key. -/
theorem bindSlot_getElem? (H : List StringMapEntry) (Name : Spelling) (II : Ref) :
    ∃ e, (setValue (GetOrCreateValue H Name).2 (GetOrCreateValue H Name).1 II)[
        (GetOrCreateValue H Name).1]? = some e ∧ e.Key = Name ∧ e.Value = some II := by
  obtain ⟨e, he, hk, -, -⟩ := GetOrCreateValue_slot H Name
  exact ⟨_, getElem?_setValue_self II he, hk, rfl⟩

end StringMap

namespace Session

variable {σ : Type}

theorem deref_isSome_of_find {w : Session σ} (hv : w.Valid) {Name : Spelling} {II : Ref}
    (h : w.find Name = some II) : (w.deref II).isSome = true := by
  obtain ⟨e, hmem, hval⟩ := StringMap.lookup_mem h
  have := hv e hmem
  simpa [hval] using this

theorem findSlot_eq_none_of_find {w : Session σ} (hv : w.Valid) {Name : Spelling}
    (h : w.find Name = none) : StringMap.findSlot w.HashTable Name = none := by
  cases hf : StringMap.findSlot w.HashTable Name with
  | none => rfl
  | some i =>
    obtain ⟨e, he, -, hl⟩ := StringMap.lookup_eq_of_findSlot hf
    have := hv e (List.getElem?_mem he)
    unfold find at h
    rw [h] at hl
    simp [← hl] at this

theorem deref_arena_length (w : Session σ) : w.deref (Ref.arena w.Allocator.length) = none := by
  simp [deref]

/-- The fresh-allocation path of `get`, with or without an external lookup. -/
theorem get_of_fresh {w : Session σ} {Name : Spelling} (h : w.find Name = none)
    (hext : ∀ L, w.ExternalLookup = some L → (L.get w.External Name).1 = none) :
    (w.get Name).1 = Ref.arena w.Allocator.length ∧
    (w.get Name).2.HashTable = StringMap.setValue (StringMap.GetOrCreateValue w.HashTable Name).2
        (StringMap.GetOrCreateValue w.HashTable Name).1 (Ref.arena w.Allocator.length) ∧
    (w.get Name).2.Allocator = w.Allocator ++ [{ IdentifierInfo.ctor w.tok_identifier with
        Entry := some (StringMap.GetOrCreateValue w.HashTable Name).1 }] ∧
    (w.get Name).2.ExternalRecords = w.ExternalRecords := by
  cases hL : w.ExternalLookup with
  | none => rw [get_of_no_external h hL]; exact ⟨rfl, rfl, rfl, rfl⟩
  | some L => rw [get_of_external_miss h hL (hext L hL)]; exact ⟨rfl, rfl, rfl, rfl⟩

/-- The name and length read through the back-reference of a record stored by
`makeNewIdentifierInfo` in the slot obtained for `Name`. -/
theorem getName_bindSlot (H : List StringMapEntry) (Name : Spelling) (II : Ref)
    (I : IdentifierInfo) (hI : I.Entry = some (StringMap.GetOrCreateValue H Name).1) :
    I.getName (StringMap.setValue (StringMap.GetOrCreateValue H Name).2
        (StringMap.GetOrCreateValue H Name).1 II) = some Name ∧
    I.getLength (StringMap.setValue (StringMap.GetOrCreateValue H Name).2
        (StringMap.GetOrCreateValue H Name).1 II) = Name.length := by
  obtain ⟨e, he, hk, -⟩ := StringMap.bindSlot_getElem? H Name II
  simp [IdentifierInfo.getName, IdentifierInfo.getLength, hI, he, hk]

end Session

namespace Session

variable {σ : Type}

theorem backRefsOk_iff (w : Session σ) :
    w.BackRefsOk ↔ ∀ i e, w.HashTable[i]? = some e → w.slotBackRefOk i e = true := by
  constructor
  · intro h i e he
    exact h (i, e) (List.mk_mem_enum_iff_getElem?.mpr he)
  · rintro h ⟨i, e⟩ hp
    exact h i e (List.mk_mem_enum_iff_getElem?.mp hp)

/-- A slot other than the one handed out by `GetOrCreateValue` is a slot of the table as it
was. -/
theorem getElem?_GetOrCreateValue_ne {H : List StringMapEntry} {Name : Spelling} {i : Nat}
    {e : StringMapEntry} (hne : i ≠ (StringMap.GetOrCreateValue H Name).1)
    (he : (StringMap.GetOrCreateValue H Name).2[i]? = some e) : H[i]? = some e := by
  unfold StringMap.GetOrCreateValue at hne he
  cases hf : StringMap.findSlot H Name with
  | some j => simpa [hf] using he
  | none =>
    simp only [hf] at hne he
    have hlt := (List.getElem?_eq_some_iff.mp he).1
    have hlt2 : i < H.length := by
      simp only [List.length_append, List.length_singleton] at hlt
      omega
    rwa [List.getElem?_append_left hlt2] at he

/-- Allocating a record and storing it in the slot obtained for `Name` keeps every bound
record pointing back to its slot. -/
theorem backRefsOk_bind {w w1 : Session σ} {Name : Spelling} {I : IdentifierInfo}
    (h : w.BackRefsOk)
    (hH : w1.HashTable = StringMap.setValue (StringMap.GetOrCreateValue w.HashTable Name).2
        (StringMap.GetOrCreateValue w.HashTable Name).1 (Ref.arena w.Allocator.length))
    (hA : w1.Allocator = w.Allocator ++ [I])
    (hI : I.Entry = some (StringMap.GetOrCreateValue w.HashTable Name).1)
    (hX : w1.ExternalRecords = w.ExternalRecords) : w1.BackRefsOk := by
  rw [backRefsOk_iff] at h ⊢
  intro i e he
  rw [hH] at he
  by_cases hi : i = (StringMap.GetOrCreateValue w.HashTable Name).1
  · subst hi
    obtain ⟨e0, he0, -⟩ := StringMap.GetOrCreateValue_slot w.HashTable Name
    rw [StringMap.getElem?_setValue_self _ he0] at he
    cases he
    simp [slotBackRefOk, deref, hA, hI]
  · rw [StringMap.getElem?_setValue_ne _ _ hi] at he
    have hold := h i e (getElem?_GetOrCreateValue_ne hi he)
    unfold slotBackRefOk at hold ⊢
    cases hv : e.Value with
    | none => rfl
    | some r =>
      simp only [hv] at hold ⊢
      cases r with
      | arena k =>
        cases hd : w.Allocator[k]? with
        | none => simp [deref, hd] at hold
        | some J =>
          have hk : k < w.Allocator.length := (List.getElem?_eq_some_iff.mp hd).1
          simp only [deref, hd] at hold
          simp only [deref, hA, List.getElem?_append_left hk, hd]
          exact hold
      | external k =>
        simp only [deref] at hold
        simp only [deref, hX]
        exact hold

theorem backRefsOk_get {w : Session σ} {Name : Spelling} (h : w.BackRefsOk)
    (hpath : ∀ L, w.find Name = none → w.ExternalLookup = some L →
      (L.get w.External Name).1 = none) : (w.get Name).2.BackRefsOk := by
  cases hf : w.find Name with
  | some II => rw [get_of_find hf]; exact h
  | none =>
    obtain ⟨-, h2, h3, h4⟩ := get_of_fresh hf (fun L hL => hpath L hf hL)
    exact backRefsOk_bind h h2 h3 rfl h4

theorem backRefsOk_CreateIdentifierInfo {w : Session σ} {Name : Spelling}
    {res : Ref × Session σ} (h : w.BackRefsOk) (hc : w.CreateIdentifierInfo Name = .ok res) :
    res.2.BackRefsOk := by
  cases hf : w.find Name with
  | some r => rw [CreateIdentifierInfo_of_find hf] at hc; cases hc
  | none =>
    rw [CreateIdentifierInfo_of_not_find hf] at hc
    cases hc
    exact backRefsOk_bind h rfl rfl rfl rfl

theorem externalLookup_get (w : Session σ) (Name : Spelling) :
    (w.get Name).2.ExternalLookup = w.ExternalLookup := by
  simp only [get, makeNewIdentifierInfo]
  split
  · rfl
  · split
    · split <;> rfl
    · rfl

/-- On a table without external lookup, every sequence of calls that returns keeps every
bound record pointing back to its slot. -/
theorem backRefsOk_run {cs : List Call} {w w2 : Session σ} (h : w.BackRefsOk)
    (hL : w.ExternalLookup = none) (hrun : w.run cs = .ok w2) :
    w2.BackRefsOk ∧ w2.ExternalLookup = none := by
  induction cs generalizing w with
  | nil =>
    simp only [run, Except.ok.injEq] at hrun
    subst hrun
    exact ⟨h, hL⟩
  | cons c cs ih =>
    simp only [run] at hrun
    cases hc : w.call c with
    | error e => rw [hc] at hrun; cases hrun
    | ok res =>
      rw [hc] at hrun
      cases c with
      | get Name =>
        simp only [call, Except.ok.injEq] at hc
        subst hc
        exact ih (backRefsOk_get h (fun L _ hL2 => by rw [hL] at hL2; cases hL2))
          ((externalLookup_get w Name).trans hL) hrun
      | CreateIdentifierInfo Name =>
        simp only [call] at hc
        refine ih (backRefsOk_CreateIdentifierInfo h hc) ?_ hrun
        cases hf : w.find Name with
        | some r => rw [CreateIdentifierInfo_of_find hf] at hc; cases hc
        | none =>
          rw [CreateIdentifierInfo_of_not_find hf] at hc
          cases hc
          exact hL

end Session

namespace Session

variable {σ : Type}

/-- Storing a pointer to an existing record in the slot obtained for `Name`, in a memory
where every record that existed still exists, keeps every slot pointing to an existing
record. -/
theorem valid_bind {w w1 : Session σ} {Name : Spelling} {II : Ref} (h : w.Valid)
    (hH : w1.HashTable = StringMap.setValue (StringMap.GetOrCreateValue w.HashTable Name).2
        (StringMap.GetOrCreateValue w.HashTable Name).1 II)
    (hII : (w1.deref II).isSome = true)
    (hmono : ∀ r, (w.deref r).isSome = true → (w1.deref r).isSome = true) : w1.Valid := by
  intro e hmem
  obtain ⟨i, he⟩ := List.mem_iff_getElem?.mp hmem
  rw [hH] at he
  by_cases hi : i = (StringMap.GetOrCreateValue w.HashTable Name).1
  · subst hi
    obtain ⟨e0, he0, -⟩ := StringMap.GetOrCreateValue_slot w.HashTable Name
    rw [StringMap.getElem?_setValue_self _ he0] at he
    cases he
    simpa using hII
  · rw [StringMap.getElem?_setValue_ne _ _ hi] at he
    have hold := h e (List.getElem?_mem (getElem?_GetOrCreateValue_ne hi he))
    cases hv : e.Value with
    | none => simp [hv] at hold
    | some r =>
      simp only [hv, Option.some_bind] at hold ⊢
      exact hmono r hold

theorem deref_isSome_append {w w1 : Session σ} {I : IdentifierInfo}
    (hA : w1.Allocator = w.Allocator ++ [I]) (hX : w1.ExternalRecords = w.ExternalRecords)
    (r : Ref) (h : (w.deref r).isSome = true) : (w1.deref r).isSome = true := by
  cases r with
  | arena k =>
    simp only [deref] at h ⊢
    cases hd : w.Allocator[k]? with
    | none => simp [hd] at h
    | some J =>
      have hk : k < w.Allocator.length := (List.getElem?_eq_some_iff.mp hd).1
      simp [hA, List.getElem?_append_left hk, hd]
  | external k =>
    simp only [deref] at h ⊢
    rw [hX]
    exact h

/-- The validity of the stored pointers is kept by `get`, provided the external lookup
answers with pointers to existing records. -/
theorem valid_get {w : Session σ} {Name : Spelling} (h : w.Valid)
    (hanswer : ∀ L II, w.ExternalLookup = some L → (L.get w.External Name).1 = some II →
      (w.deref II).isSome = true) : (w.get Name).2.Valid := by
  cases hf : w.find Name with
  | some II => rw [get_of_find hf]; exact h
  | none =>
    cases hL : w.ExternalLookup with
    | none =>
      rw [get_of_no_external hf hL]
      exact valid_bind h rfl (by simp [deref]) (deref_isSome_append rfl rfl)
    | some L =>
      cases hA : (L.get w.External Name).1 with
      | some II =>
        rw [get_of_external_hit hf hL hA]
        exact valid_bind h rfl (hanswer L II hL hA) (fun r hr => hr)
      | none =>
        rw [get_of_external_miss hf hL hA]
        exact valid_bind h rfl (by simp [deref]) (deref_isSome_append rfl rfl)

/-- The validity of the stored pointers is kept by a successful `CreateIdentifierInfo`. -/
theorem valid_CreateIdentifierInfo {w : Session σ} {Name : Spelling} {res : Ref × Session σ}
    (h : w.Valid) (hc : w.CreateIdentifierInfo Name = .ok res) : res.2.Valid := by
  cases hf : w.find Name with
  | some r => rw [CreateIdentifierInfo_of_find hf] at hc; cases hc
  | none =>
    rw [CreateIdentifierInfo_of_not_find hf] at hc
    cases hc
    exact valid_bind h rfl (by simp [deref]) (deref_isSome_append rfl rfl)

end Session

namespace Session

variable {σ : Type}

/-- No call changes the external lookup pointer or the records owned by external sources. -/
theorem call_frame {w : Session σ} {c : Call} {res : Ref × Session σ}
    (hc : w.call c = .ok res) :
    res.2.ExternalLookup = w.ExternalLookup ∧ res.2.ExternalRecords = w.ExternalRecords := by
  cases c with
  | get Name =>
    simp only [call, Except.ok.injEq] at hc
    subst hc
    refine ⟨externalLookup_get w Name, ?_⟩
    simp only [get, makeNewIdentifierInfo]
    split
    · rfl
    · split
      · split <;> rfl
      · rfl
  | CreateIdentifierInfo Name =>
    simp only [call] at hc
    cases hf : w.find Name with
    | some r => rw [CreateIdentifierInfo_of_find hf] at hc; cases hc
    | none =>
      rw [CreateIdentifierInfo_of_not_find hf] at hc
      cases hc
      exact ⟨rfl, rfl⟩

/-- Starting from a table whose slots hold pointers to existing records, with an external
lookup (if any) that only answers with records of the external memory, every sequence of
calls that returns ends in such a table. -/
theorem valid_run {cs : List Call} {w w2 : Session σ} (h : w.Valid)
    (hanswer : ∀ L, w.ExternalLookup = some L → ∀ x Name II, (L.get x Name).1 = some II →
      ∃ k, II = Ref.external k ∧ k < w.ExternalRecords.length)
    (hrun : w.run cs = .ok w2) : w2.Valid := by
  induction cs generalizing w with
  | nil =>
    simp only [run, Except.ok.injEq] at hrun
    subst hrun
    exact h
  | cons c cs ih =>
    simp only [run] at hrun
    cases hc : w.call c with
    | error e => rw [hc] at hrun; cases hrun
    | ok res =>
      rw [hc] at hrun
      obtain ⟨hL, hX⟩ := call_frame hc
      refine ih ?_ (by rw [hL, hX]; exact hanswer) hrun
      cases c with
      | get Name =>
        simp only [call, Except.ok.injEq] at hc
        subst hc
        refine valid_get h ?_
        intro L II hL2 hA
        obtain ⟨k, rfl, hk⟩ := hanswer L hL2 _ _ _ hA
        simp [deref, hk]
      | CreateIdentifierInfo Name =>
        simp only [call] at hc
        exact valid_CreateIdentifierInfo h hc

end Session

/-! ## Claims about the record -/

/-- C1: every record reached from a freshly created one (all four boolean bits false) by any
finite sequence of calls to the six public mutators, with arbitrary arguments, satisfies
`isHandleIdentifierCase() == (isPoisoned() || hasMacroDefinition() || isExtensionToken())`. -/
theorem derived_flag_invariant (I0 : IdentifierInfo) (ms : List Mutator)
    (hfresh : I0.FlagsClear) :
    (applyMutators I0 ms).isHandleIdentifierCase =
      ((applyMutators I0 ms).isPoisoned || (applyMutators I0 ms).hasMacroDefinition ||
        (applyMutators I0 ms).isExtensionToken) :=
  applyMutators_derivedFlagOk ms I0 (flagsClear_derivedFlagOk hfresh)

/-- Witness of C1 on a constructed record and a sequence using all six mutators. -/
theorem derived_flag_invariant_witness :
    (IdentifierInfo.ctor 4).FlagsClear ∧
    (applyMutators (IdentifierInfo.ctor 4)
        [.setIsPoisoned true, .setHasMacroDefinition true, .setTokenID 300, .setIsPoisoned false,
          .setBuiltinID 2000, .setIsExtensionToken false, .setFETokenInfo 7,
          .setHasMacroDefinition false]).isHandleIdentifierCase =
      ((applyMutators (IdentifierInfo.ctor 4)
        [.setIsPoisoned true, .setHasMacroDefinition true, .setTokenID 300, .setIsPoisoned false,
          .setBuiltinID 2000, .setIsExtensionToken false, .setFETokenInfo 7,
          .setHasMacroDefinition false]).isPoisoned ||
        (applyMutators (IdentifierInfo.ctor 4)
        [.setIsPoisoned true, .setHasMacroDefinition true, .setTokenID 300, .setIsPoisoned false,
          .setBuiltinID 2000, .setIsExtensionToken false, .setFETokenInfo 7,
          .setHasMacroDefinition false]).hasMacroDefinition ||
        (applyMutators (IdentifierInfo.ctor 4)
        [.setIsPoisoned true, .setHasMacroDefinition true, .setTokenID 300, .setIsPoisoned false,
          .setBuiltinID 2000, .setIsExtensionToken false, .setFETokenInfo 7,
          .setHasMacroDefinition false]).isExtensionToken) :=
  ⟨by decide, derived_flag_invariant _ _ (by decide)⟩

/-- C9: on a record satisfying the derived-flag invariant, after each of the three flag
setters is called with `v`, its flag reads `v` and `isHandleIdentifierCase()` is `v` or-ed
with the values of the other two flags. -/
theorem flag_mutator_postcondition (I : IdentifierInfo) (v : Bool) (h : I.DerivedFlagOk) :
    ((I.setHasMacroDefinition v).hasMacroDefinition = v ∧
      (I.setHasMacroDefinition v).isHandleIdentifierCase =
        (v || I.isExtensionToken || I.isPoisoned)) ∧
    ((I.setIsExtensionToken v).isExtensionToken = v ∧
      (I.setIsExtensionToken v).isHandleIdentifierCase =
        (v || I.hasMacroDefinition || I.isPoisoned)) ∧
    ((I.setIsPoisoned v).isPoisoned = v ∧
      (I.setIsPoisoned v).isHandleIdentifierCase =
        (v || I.hasMacroDefinition || I.isExtensionToken)) := by
  obtain ⟨t, b, hm, ie, ip, nh, fe, en⟩ := I
  cases v <;> cases hm <;> cases ie <;> cases ip <;> cases nh <;>
    simp_all [IdentifierInfo.DerivedFlagOk, IdentifierInfo.setHasMacroDefinition,
      IdentifierInfo.setIsExtensionToken, IdentifierInfo.setIsPoisoned,
      IdentifierInfo.RecomputeNeedsHandleIdentifier, IdentifierInfo.isHandleIdentifierCase,
      IdentifierInfo.isPoisoned, IdentifierInfo.hasMacroDefinition,
      IdentifierInfo.isExtensionToken]

/-- Witness of C9: from all-false, `setHasMacroDefinition(true)` makes the derived flag true,
then `setHasMacroDefinition(false)` makes it false; clearing one of two set flags leaves it
true. -/
theorem flag_mutator_postcondition_witness :
    (IdentifierInfo.ctor 4).DerivedFlagOk ∧
    ((IdentifierInfo.ctor 4).setHasMacroDefinition true).DerivedFlagOk ∧
    ((IdentifierInfo.ctor 4).setHasMacroDefinition true).isHandleIdentifierCase = true ∧
    (((IdentifierInfo.ctor 4).setHasMacroDefinition true).setHasMacroDefinition
      false).isHandleIdentifierCase = false ∧
    ((((IdentifierInfo.ctor 4).setHasMacroDefinition true).setIsPoisoned true).setIsPoisoned
      false).isHandleIdentifierCase = true :=
  ⟨by decide, by decide,
    (flag_mutator_postcondition (IdentifierInfo.ctor 4) true (by decide)).1.2.trans (by decide),
    (flag_mutator_postcondition ((IdentifierInfo.ctor 4).setHasMacroDefinition true) false
      (by decide)).1.2.trans (by decide),
    (flag_mutator_postcondition
      (((IdentifierInfo.ctor 4).setHasMacroDefinition true).setIsPoisoned true) false
      (by decide)).2.2.2.trans (by decide)⟩

/-- C10: on every record reached from a fresh record through the public mutators, each of
the three flag setters called with the current value of its flag returns the record with
every field unchanged. -/
theorem redundant_flag_setter_noop (I0 : IdentifierInfo) (ms : List Mutator)
    (hfresh : I0.FlagsClear) :
    (applyMutators I0 ms).setHasMacroDefinition (applyMutators I0 ms).hasMacroDefinition
      = applyMutators I0 ms ∧
    (applyMutators I0 ms).setIsExtensionToken (applyMutators I0 ms).isExtensionToken
      = applyMutators I0 ms ∧
    (applyMutators I0 ms).setIsPoisoned (applyMutators I0 ms).isPoisoned
      = applyMutators I0 ms :=
  redundant_setter_of_derivedFlagOk _
    (applyMutators_derivedFlagOk ms I0 (flagsClear_derivedFlagOk hfresh))

/-- Witness of C10 on a record with the extension and poisoned flags set. -/
theorem redundant_flag_setter_noop_witness :
    (IdentifierInfo.ctor 4).FlagsClear ∧
    (applyMutators (IdentifierInfo.ctor 4)
        [.setIsExtensionToken true, .setBuiltinID 5, .setIsPoisoned true]).setIsExtensionToken
        (applyMutators (IdentifierInfo.ctor 4)
          [.setIsExtensionToken true, .setBuiltinID 5, .setIsPoisoned true]).isExtensionToken
      = applyMutators (IdentifierInfo.ctor 4)
          [.setIsExtensionToken true, .setBuiltinID 5, .setIsPoisoned true] :=
  ⟨by decide, (redundant_flag_setter_noop _ _ (by decide)).2.1⟩

/-! ## Claims about the table -/

/-- C2: whatever the table and whichever path the first `get(s)` takes, after any finite
sequence of further `get` and `CreateIdentifierInfo` calls that returns, `get(s)` returns the
same record pointer as the first `get(s)`. -/
theorem get_reference_stable {σ : Type} (w : Session σ) (Name : Spelling) (cs : List Call)
    (w2 : Session σ) (hrun : (w.get Name).2.run cs = .ok w2) :
    (w2.get Name).1 = (w.get Name).1 := by
  have h1 : (w.get Name).2.find Name = some (w.get Name).1 := by
    simpa using Session.find_get w Name Name
  rw [Session.get_of_find (Session.find_run hrun h1)]

/-- Witness of C2: the first `get` takes the external-hit path, two other spellings are
interned in between. -/
theorem get_reference_stable_witness :
    (fooSession.get foo).2.run [.get bar, .CreateIdentifierInfo [1]]
      = .ok ((fooSession.get foo).2.outcome [.get bar, .CreateIdentifierInfo [1]]) ∧
    (((fooSession.get foo).2.outcome [.get bar, .CreateIdentifierInfo [1]]).get foo).1
      = (fooSession.get foo).1 :=
  ⟨rfl, get_reference_stable fooSession foo [.get bar, .CreateIdentifierInfo [1]] _ rfl⟩

/-- C5: when `s` is bound to `r`, `get(s)` returns `r` and the whole session is unchanged: no
query of the external lookup, no allocation, every slot and every record as before. -/
theorem get_cache_hit {σ : Type} (w : Session σ) (Name : Spelling) (II : Ref)
    (hbound : w.find Name = some II) :
    (w.get Name).1 = II ∧ (w.get Name).2 = w ∧
    (w.get Name).2.Queries = w.Queries ∧ (w.get Name).2.Allocator = w.Allocator ∧
    (w.get Name).2.size = w.size ∧ ∀ Other, (w.get Name).2.find Other = w.find Other := by
  rw [Session.get_of_find hbound]
  simp

/-- Witness of C5 on a table with an external lookup in which `bar` is bound. -/
theorem get_cache_hit_witness :
    (fooSession.get bar).2.find bar = some (Ref.arena 0) ∧
    (((fooSession.get bar).2.get bar).1 = Ref.arena 0 ∧
      ((fooSession.get bar).2.get bar).2 = (fooSession.get bar).2 ∧
      ((fooSession.get bar).2.get bar).2.Queries = (fooSession.get bar).2.Queries ∧
      ((fooSession.get bar).2.get bar).2.Allocator = (fooSession.get bar).2.Allocator ∧
      ((fooSession.get bar).2.get bar).2.size = (fooSession.get bar).2.size ∧
      ∀ Other, ((fooSession.get bar).2.get bar).2.find Other
        = (fooSession.get bar).2.find Other) :=
  ⟨by decide, get_cache_hit (fooSession.get bar).2 bar (Ref.arena 0) (by decide)⟩

/-- C6: when `s` is not bound and the configured external lookup answers with a record `r`,
`get(s)` returns `r`, allocates nothing, queries the external lookup once and binds `s` to
`r`; after any further calls that return, `get(s)` returns `r` and leaves the session,
its list of external queries included, unchanged. -/
theorem get_external_hit_cached {σ : Type} (w : Session σ) (Name : Spelling)
    (L : IdentifierInfoLookup σ) (II : Ref) (hunbound : w.find Name = none)
    (hL : w.ExternalLookup = some L) (hA : (L.get w.External Name).1 = some II) :
    (w.get Name).1 = II ∧ (w.get Name).2.Allocator = w.Allocator ∧
    (w.get Name).2.Queries = w.Queries ++ [Name] ∧
    (w.get Name).2.find Name = some II ∧
    ∀ (cs : List Call) (w2 : Session σ), (w.get Name).2.run cs = .ok w2 →
      (w2.get Name).1 = II ∧ (w2.get Name).2 = w2 ∧ (w2.get Name).2.Queries = w2.Queries := by
  have hfind : (w.get Name).2.find Name = some II := by
    have := Session.find_get w Name Name
    rw [Session.get_of_external_hit hunbound hL hA] at this ⊢
    simpa using this
  refine ⟨?_, ?_, ?_, hfind, ?_⟩
  · rw [Session.get_of_external_hit hunbound hL hA]
  · rw [Session.get_of_external_hit hunbound hL hA]
  · rw [Session.get_of_external_hit hunbound hL hA]
  · intro cs w2 hrun
    rw [Session.get_of_find (Session.find_run hrun hfind)]
    simp

/-- Witness of C6: `fooSource` answers for `foo`; the later `get(foo)` comes after two other
calls. -/
theorem get_external_hit_cached_witness :
    fooSession.find foo = none ∧ fooSession.ExternalLookup = some fooSource ∧
    (fooSource.get fooSession.External foo).1 = some (Ref.external 0) ∧
    (fooSession.get foo).1 = Ref.external 0 ∧
    (fooSession.get foo).2.Allocator = [] ∧
    (fooSession.get foo).2.Queries = [foo] ∧
    (((fooSession.get foo).2.outcome [.get bar, .get foo]).get foo).1 = Ref.external 0 ∧
    (((fooSession.get foo).2.outcome [.get bar, .get foo]).get foo).2.Queries = [foo, bar] :=
  ⟨by decide, rfl, by decide,
    (get_external_hit_cached fooSession foo fooSource (Ref.external 0) (by decide) rfl
      (by decide)).1,
    by decide, by decide,
    ((get_external_hit_cached fooSession foo fooSource (Ref.external 0) (by decide) rfl
      (by decide)).2.2.2.2 [.get bar, .get foo] _ rfl).1,
    by decide⟩

/-- C3, as stated, fails on the external-hit path: `fooSource` answers `get(foo)` with a
record of its own whose `Entry` is null, `get` returns that record without binding its
back-reference, so `getName()` is the null pointer and `getLength()` is 0, not `foo` and 3. -/
theorem get_name_external_counterexample :
    (fooSession.get foo).1 = Ref.external 0 ∧
    (fooSession.get foo).2.deref (Ref.external 0) = some externalRecord ∧
    externalRecord.getName (fooSession.get foo).2.HashTable = none ∧
    externalRecord.getName (fooSession.get foo).2.HashTable ≠ some foo ∧
    externalRecord.getLength (fooSession.get foo).2.HashTable = 0 ∧
    externalRecord.getLength (fooSession.get foo).2.HashTable ≠ foo.length := by
  decide

/-- C4: on a table whose slots all hold pointers to existing records, when `s` is not bound
and no external lookup is configured or the external lookup answers null for `s`, `get(s)`
returns the record newly placed in the allocator: it did not exist before, it differs from
every record bound in the table, its four boolean bits are false, its `Entry` is the new slot,
which carries the key `s` and the pointer to the record, and `size()` grows by exactly one. -/
theorem get_fresh_allocation {σ : Type} (w : Session σ) (Name : Spelling) (hvalid : w.Valid)
    (hunbound : w.find Name = none)
    (hext : ∀ L, w.ExternalLookup = some L → (L.get w.External Name).1 = none) :
    (w.get Name).1 = Ref.arena w.Allocator.length ∧
    w.deref (w.get Name).1 = none ∧
    (∀ Other II, w.find Other = some II → II ≠ (w.get Name).1) ∧
    (∃ I, (w.get Name).2.deref (w.get Name).1 = some I ∧
      I.hasMacroDefinition = false ∧ I.isExtensionToken = false ∧ I.isPoisoned = false ∧
      I.isHandleIdentifierCase = false ∧ I.Entry = some w.size ∧
      (w.get Name).2.HashTable[w.size]? = some { Key := Name, Value := some (w.get Name).1 }) ∧
    (w.get Name).2.size = w.size + 1 := by
  have hslot := Session.findSlot_eq_none_of_find hvalid hunbound
  have hg : StringMap.GetOrCreateValue w.HashTable Name
      = (w.HashTable.length, w.HashTable ++ [{ Key := Name, Value := none }]) := by
    simp [StringMap.GetOrCreateValue, hslot]
  have hfresh : ∀ Other II, w.find Other = some II → II ≠ Ref.arena w.Allocator.length := by
    intro Other II hf heq
    have := Session.deref_isSome_of_find hvalid hf
    rw [heq, Session.deref_arena_length] at this
    simp at this
  obtain ⟨h1, h2, h3, -⟩ := Session.get_of_fresh hunbound hext
  rw [hg, StringMap.setValue_append_length] at h2
  rw [hg] at h3
  refine ⟨h1, by rw [h1]; exact Session.deref_arena_length w, by rw [h1]; exact hfresh, ?_, ?_⟩
  · refine ⟨{ IdentifierInfo.ctor w.tok_identifier with Entry := some w.HashTable.length }, ?_,
      rfl, rfl, rfl, rfl, rfl, ?_⟩
    · simp [h1, Session.deref, h3]
    · simp [h1, h2, Session.size]
  · simp [h2, Session.size]

/-- Witness of C4: `bar` on a table where `foo` is bound to an external record and the
external lookup answers null for `bar`. -/
theorem get_fresh_allocation_witness :
    (fooSession.get foo).2.Valid ∧ (fooSession.get foo).2.find bar = none ∧
    ((fooSession.get foo).2.get bar).1 = Ref.arena 0 ∧
    ((fooSession.get foo).2.get bar).2.size = 2 :=
  ⟨by decide, by decide,
    (get_fresh_allocation (fooSession.get foo).2 bar (by decide) (by decide)
      (by intro L hL; cases hL; decide)).1,
    (get_fresh_allocation (fooSession.get foo).2 bar (by decide) (by decide)
      (by intro L hL; cases hL; decide)).2.2.2.2⟩

/-- C7: `CreateIdentifierInfo(s)` fails its assertion if and only if `s` is bound to a
record; a failure leaves the session, hence the binding of `s`, as it was; when `s` is not
bound the call returns a record that did not exist before, placed in the allocator by the
call and bound to `s`, and that differs from every bound record when no slot holds a
dangling pointer. -/
theorem CreateIdentifierInfo_precondition {σ : Type} (w : Session σ) (Name : Spelling) :
    ((∃ e, w.CreateIdentifierInfo Name = .error e) ↔ ∃ II, w.find Name = some II) ∧
    (∀ e, w.CreateIdentifierInfo Name = .error e → e = w ∧ e.find Name = w.find Name) ∧
    (w.find Name = none → ∃ II w1, w.CreateIdentifierInfo Name = .ok (II, w1) ∧
      II = Ref.arena w.Allocator.length ∧ w.deref II = none ∧ (w1.deref II).isSome = true ∧
      w1.find Name = some II ∧ (w.Valid → ∀ Other r, w.find Other = some r → r ≠ II)) := by
  refine ⟨⟨?_, ?_⟩, ?_, ?_⟩
  · rintro ⟨e, he⟩
    cases hf : w.find Name with
    | some II => exact ⟨II, rfl⟩
    | none => rw [Session.CreateIdentifierInfo_of_not_find hf] at he; cases he
  · rintro ⟨II, hf⟩
    exact ⟨w, Session.CreateIdentifierInfo_of_find hf⟩
  · intro e he
    cases hf : w.find Name with
    | some II =>
      rw [Session.CreateIdentifierInfo_of_find hf] at he
      cases he
      exact ⟨rfl, hf⟩
    | none => rw [Session.CreateIdentifierInfo_of_not_find hf] at he; cases he
  · intro hf
    refine ⟨_, _, Session.CreateIdentifierInfo_of_not_find hf, rfl,
      Session.deref_arena_length w, by simp [Session.deref], ?_, ?_⟩
    · have := Session.find_CreateIdentifierInfo
        (Session.CreateIdentifierInfo_of_not_find hf) Name
      simpa using this
    · intro hv Other r hr heq
      have := Session.deref_isSome_of_find hv hr
      rw [heq, Session.deref_arena_length] at this
      simp at this

/-- Witness of C7: after `get(foo)` the creation of `foo` fails and keeps the binding, the
creation of `bar` succeeds. -/
theorem CreateIdentifierInfo_precondition_witness :
    (emptySession.get foo).2.find foo = some (Ref.arena 0) ∧
    (emptySession.get foo).2.find bar = none ∧
    (∃ e, (emptySession.get foo).2.CreateIdentifierInfo foo = .error e) ∧
    (∃ II w1, (emptySession.get foo).2.CreateIdentifierInfo bar = .ok (II, w1) ∧
      II = Ref.arena (emptySession.get foo).2.Allocator.length ∧
      (emptySession.get foo).2.deref II = none ∧ (w1.deref II).isSome = true ∧
      w1.find bar = some II ∧
      ((emptySession.get foo).2.Valid →
        ∀ Other r, (emptySession.get foo).2.find Other = some r → r ≠ II)) :=
  ⟨by decide, by decide,
    (CreateIdentifierInfo_precondition (emptySession.get foo).2 foo).1.mpr
      ⟨Ref.arena 0, by decide⟩,
    (CreateIdentifierInfo_precondition (emptySession.get foo).2 bar).2.2 (by decide)⟩

/-- C8: on every table, with or without an external lookup, `CreateIdentifierInfo(s)` for a
spelling that is not bound returns without querying the external lookup; the record it
returns did not exist before, has name `s` and length `|s|`; after any further calls that
return, `get(s)` returns that record and leaves the session, its list of external queries
included, unchanged. -/
theorem CreateIdentifierInfo_bypasses_external {σ : Type} (w : Session σ) (Name : Spelling)
    (hunbound : w.find Name = none) :
    ∃ II w1, w.CreateIdentifierInfo Name = .ok (II, w1) ∧
      w1.Queries = w.Queries ∧ w1.External = w.External ∧ w.deref II = none ∧
      (∃ I, w1.deref II = some I ∧ I.getName w1.HashTable = some Name ∧
        I.getLength w1.HashTable = Name.length) ∧
      ∀ (cs : List Call) (w2 : Session σ), w1.run cs = .ok w2 →
        (w2.get Name).1 = II ∧ (w2.get Name).2 = w2 ∧ (w2.get Name).2.Queries = w2.Queries := by
  refine ⟨_, _, Session.CreateIdentifierInfo_of_not_find hunbound, rfl, rfl,
    Session.deref_arena_length w, ?_, ?_⟩
  · refine ⟨{ IdentifierInfo.ctor w.tok_identifier with
      Entry := some (StringMap.GetOrCreateValue w.HashTable Name).1 }, by simp [Session.deref], ?_⟩
    exact Session.getName_bindSlot _ _ _ _ rfl
  · intro cs w2 hrun
    have hfind := Session.find_CreateIdentifierInfo
      (Session.CreateIdentifierInfo_of_not_find hunbound) Name
    simp only [if_true] at hfind
    rw [Session.get_of_find (Session.find_run hrun hfind)]
    simp

/-- Witness of C8: `fooSource` would answer for `foo`, yet the record created for `foo` is
the table's own and the source is never queried, also by the later `get(foo)`. -/
theorem CreateIdentifierInfo_bypasses_external_witness :
    fooSession.find foo = none ∧
    (fooSource.get fooSession.External foo).1 = some (Ref.external 0) ∧
    (∃ II w1, fooSession.CreateIdentifierInfo foo = .ok (II, w1) ∧
      w1.Queries = fooSession.Queries ∧ w1.External = fooSession.External ∧
      fooSession.deref II = none ∧
      (∃ I, w1.deref II = some I ∧ I.getName w1.HashTable = some foo ∧
        I.getLength w1.HashTable = foo.length) ∧
      ∀ (cs : List Call) (w2 : Session Nat), w1.run cs = .ok w2 →
        (w2.get foo).1 = II ∧ (w2.get foo).2 = w2 ∧ (w2.get foo).2.Queries = w2.Queries) ∧
    (fooSession.outcome [.CreateIdentifierInfo foo, .get foo]).Queries = [] ∧
    (fooSession.outcome [.CreateIdentifierInfo foo, .get foo]).find foo = some (Ref.arena 0) :=
  ⟨by decide, by decide, CreateIdentifierInfo_bypasses_external fooSession foo (by decide),
    by decide, by decide⟩

/-! ## More claims about the record -/

/-- C11: on every record state whatsoever, also with a stale `NeedsHandleIdentifier`, each of
the three flag setters applied twice in a row with the same value yields exactly the record
obtained by applying it once. -/
theorem flag_setter_idempotent (I : IdentifierInfo) (v : Bool) :
    (I.setHasMacroDefinition v).setHasMacroDefinition v = I.setHasMacroDefinition v ∧
    (I.setIsExtensionToken v).setIsExtensionToken v = I.setIsExtensionToken v ∧
    (I.setIsPoisoned v).setIsPoisoned v = I.setIsPoisoned v := by
  obtain ⟨t, b, hm, ie, ip, nh, fe, en⟩ := I
  cases v <;> cases hm <;> cases ie <;> cases ip <;> cases nh <;>
    simp [IdentifierInfo.setHasMacroDefinition, IdentifierInfo.setIsExtensionToken,
      IdentifierInfo.setIsPoisoned, IdentifierInfo.RecomputeNeedsHandleIdentifier,
      IdentifierInfo.isPoisoned, IdentifierInfo.hasMacroDefinition,
      IdentifierInfo.isExtensionToken]

/-- C13: `getBuiltinID()` after `setBuiltinID(ID)` is `ID mod 2^10`; it is `ID` itself
exactly when `ID < 1024`, so 0, 1 and every builtin ID from 2 to 1023 round-trip. -/
theorem builtinID_bit_width (I : IdentifierInfo) (ID : Nat) :
    (I.setBuiltinID ID).getBuiltinID = ID % 2 ^ 10 ∧
    ((I.setBuiltinID ID).getBuiltinID = ID ↔ ID < 1024) := by
  refine ⟨rfl, ?_⟩
  simp only [IdentifierInfo.setBuiltinID, IdentifierInfo.getBuiltinID]
  constructor
  · intro h
    have := Nat.mod_lt ID (show 0 < 2 ^ 10 by norm_num)
    omega
  · intro h
    exact Nat.mod_eq_of_lt (by norm_num; omega)

/-- Witness of C13: 0, 1, 2 and 1023 round-trip, 1024 and 2000 do not. -/
theorem builtinID_bit_width_witness :
    ((IdentifierInfo.ctor 4).setBuiltinID 0).getBuiltinID = 0 ∧
    ((IdentifierInfo.ctor 4).setBuiltinID 1).getBuiltinID = 1 ∧
    ((IdentifierInfo.ctor 4).setBuiltinID 2).getBuiltinID = 2 ∧
    ((IdentifierInfo.ctor 4).setBuiltinID 1023).getBuiltinID = 1023 ∧
    ((IdentifierInfo.ctor 4).setBuiltinID 1024).getBuiltinID = 0 ∧
    ((IdentifierInfo.ctor 4).setBuiltinID 2000).getBuiltinID = 2000 % 2 ^ 10 :=
  ⟨(builtinID_bit_width _ 0).2.mpr (by decide), (builtinID_bit_width _ 1).2.mpr (by decide),
    (builtinID_bit_width _ 2).2.mpr (by decide), (builtinID_bit_width _ 1023).2.mpr (by decide),
    by decide, (builtinID_bit_width _ 2000).1⟩

/-! ## Claims about the file entry -/

/-- C14: `operator<` on `FileEntry` is the lexicographic order on `(Device, Inode)`; it is
irreflexive, asymmetric and transitive, and two entries are incomparable if and only if they
have the same `(Device, Inode)`, whatever their other fields. -/
theorem fileEntry_lt_lexicographic (a b c : FileEntry) :
    (a.lt b = true ↔ a.Device < b.Device ∨ (a.Device = b.Device ∧ a.Inode < b.Inode)) ∧
    a.lt a = false ∧
    (a.lt b = true → b.lt a = false) ∧
    (a.lt b = true → b.lt c = true → a.lt c = true) ∧
    ((a.lt b = false ∧ b.lt a = false) ↔ (a.Device = b.Device ∧ a.Inode = b.Inode)) := by
  simp only [FileEntry.lt, Bool.or_eq_true, Bool.and_eq_true, decide_eq_true_eq,
    Bool.or_eq_false_iff, Bool.and_eq_false_imp, decide_eq_false_iff_not]
  refine ⟨trivial, ?_, ?_, ?_, ?_⟩
  · omega
  · omega
  · omega
  · constructor
    · rintro ⟨⟨h1, h2⟩, h3, h4⟩
      have hd : a.Device = b.Device := by omega
      have := h2 hd
      have := h4 hd.symm
      exact ⟨hd, by omega⟩
    · rintro ⟨h1, h2⟩
      refine ⟨⟨by omega, fun _ => by omega⟩, by omega, fun _ => by omega⟩

/-- Witness of C14: `entryA` and `entryA2` share the identity and differ in every other
field, `entryB` has a larger inode, `entryC` a larger device and a smaller inode. -/
theorem fileEntry_lt_lexicographic_witness :
    entryA.lt entryB = true ∧ entryB.lt entryC = true ∧ entryA.lt entryC = true ∧
    entryB.lt entryA = false ∧
    (entryA.lt entryA2 = false ∧ entryA2.lt entryA = false) ∧ entryA ≠ entryA2 :=
  ⟨by decide, by decide,
    (fileEntry_lt_lexicographic entryA entryB entryC).2.2.2.1 (by decide) (by decide),
    (fileEntry_lt_lexicographic entryA entryB entryC).2.2.1 (by decide),
    (fileEntry_lt_lexicographic entryA entryA2 entryC).2.2.2.2.mpr ⟨by decide, by decide⟩,
    by decide⟩

/-! ## Distinct spellings, distinct records -/

namespace Session

variable {σ : Type}

theorem find_mem {w : Session σ} {Name : Spelling} {II : Ref} (h : w.find Name = some II) :
    ∃ e ∈ w.HashTable, e.Key = Name ∧ e.Value = some II := by
  unfold find StringMap.lookup at h
  cases hf : StringMap.findSlot w.HashTable Name with
  | none => simp [hf] at h
  | some i =>
    obtain ⟨e, he, hk, hl⟩ := StringMap.lookup_eq_of_findSlot hf
    simp only [hf] at h
    have hv : e.Value = some II := by
      simpa [StringMap.getValue, he] using h
    exact ⟨e, List.getElem?_mem he, hk, hv⟩

theorem injective_of_distinctRecords {w : Session σ} (h : w.DistinctRecords) : w.Injective := by
  intro s s2 r hs hs2
  obtain ⟨e, he, hk, hv⟩ := find_mem hs
  obtain ⟨e2, he2, hk2, hv2⟩ := find_mem hs2
  have := h e he e2 he2 (by simp [hv]) (hv.trans hv2.symm)
  rw [hk, hk2] at this
  exact this

/-- A record that becomes bound to `Name` while fresh for the table keeps the bindings
injective. -/
theorem injective_bind {w w1 : Session σ} {Name : Spelling} {II : Ref} (hinj : w.Injective)
    (hfind : ∀ Other, w1.find Other = if Other = Name then some II else w.find Other)
    (hnew : ∀ Other, w.find Other = some II → Other = Name) : w1.Injective := by
  intro a b r ha hb
  rw [hfind] at ha hb
  by_cases hka : a = Name
  · by_cases hkb : b = Name
    · rw [hka, hkb]
    · simp only [hka, hkb, if_true, if_false] at ha hb
      cases ha
      exact hka.trans (hnew b hb).symm
  · by_cases hkb : b = Name
    · simp only [hka, hkb, if_true, if_false] at ha hb
      cases hb
      exact (hnew a ha).trans hkb.symm
    · simp only [hka, hkb, if_false] at ha hb
      exact hinj a b r ha hb

/-- Without external lookup, `get` keeps the bindings injective. -/
theorem injective_get {w : Session σ} {Name : Spelling} (hv : w.Valid) (hinj : w.Injective)
    (hL : w.ExternalLookup = none) : (w.get Name).2.Injective := by
  refine injective_bind hinj (find_get w Name) ?_
  intro Other ho
  cases hf : w.find Name with
  | some r =>
    rw [get_of_find hf] at ho
    exact hinj _ _ _ ho hf
  | none =>
    rw [get_of_no_external hf hL] at ho
    have := deref_isSome_of_find hv ho
    rw [deref_arena_length] at this
    simp at this

/-- A successful `CreateIdentifierInfo` keeps the bindings injective. -/
theorem injective_CreateIdentifierInfo {w : Session σ} {Name : Spelling}
    {res : Ref × Session σ} (hv : w.Valid) (hinj : w.Injective)
    (hc : w.CreateIdentifierInfo Name = .ok res) : res.2.Injective := by
  refine injective_bind hinj (find_CreateIdentifierInfo hc) ?_
  intro Other ho
  cases hf : w.find Name with
  | some r => rw [CreateIdentifierInfo_of_find hf] at hc; cases hc
  | none =>
    rw [CreateIdentifierInfo_of_not_find hf] at hc
    cases hc
    have := deref_isSome_of_find hv ho
    rw [deref_arena_length] at this
    simp at this

/-- On a table without external lookup, validity and injectivity of the bindings are kept by
every sequence of calls that returns. -/
theorem injective_run {cs : List Call} {w w2 : Session σ} (hv : w.Valid) (hinj : w.Injective)
    (hL : w.ExternalLookup = none) (hrun : w.run cs = .ok w2) :
    w2.Valid ∧ w2.Injective ∧ w2.ExternalLookup = none := by
  induction cs generalizing w with
  | nil =>
    simp only [run, Except.ok.injEq] at hrun
    subst hrun
    exact ⟨hv, hinj, hL⟩
  | cons c cs ih =>
    simp only [run] at hrun
    cases hc : w.call c with
    | error e => rw [hc] at hrun; cases hrun
    | ok res =>
      rw [hc] at hrun
      obtain ⟨hL2, -⟩ := call_frame hc
      cases c with
      | get Name =>
        simp only [call, Except.ok.injEq] at hc
        subst hc
        exact ih (valid_get hv (fun L II h _ => by rw [hL] at h; cases h))
          (injective_get hv hinj hL) (hL2.trans hL) hrun
      | CreateIdentifierInfo Name =>
        simp only [call] at hc
        exact ih (valid_CreateIdentifierInfo hv hc) (injective_CreateIdentifierInfo hv hinj hc)
          (hL2.trans hL) hrun

end Session

/-- On a table without external lookup whose slots hold pointers to existing records and
whose distinct spellings are bound to distinct records, `get` returns different records for
different spellings. -/
theorem get_keying_of_injective {σ : Type} (w : Session σ) (s1 s2 : Spelling)
    (hL : w.ExternalLookup = none) (hv : w.Valid) (hinj : w.Injective) :
    (s1 ≠ s2 → (w.get s1).1 ≠ ((w.get s1).2.get s2).1) ∧
    ((w.get s1).1 = ((w.get s1).2.get s2).1 ↔ s1 = s2) ∧
    ((w.get s1).1 = ((w.get s1).2.get s2).1 ↔
      (s1.length = s2.length ∧ ∀ i : Nat, s1[i]? = s2[i]?)) := by
  have hfind : (w.get s1).2.find s1 = some (w.get s1).1 := by
    simpa using Session.find_get w s1 s1
  have hv1 : (w.get s1).2.Valid :=
    Session.valid_get hv (fun L II h _ => by rw [hL] at h; cases h)
  have hinj1 : (w.get s1).2.Injective := Session.injective_get hv hinj hL
  have hL1 : (w.get s1).2.ExternalLookup = none := (Session.externalLookup_get w s1).trans hL
  have hne : s1 ≠ s2 → (w.get s1).1 ≠ ((w.get s1).2.get s2).1 := by
    intro hs heq
    cases hf : (w.get s1).2.find s2 with
    | some r =>
      rw [Session.get_of_find hf] at heq
      simp only at heq
      rw [← heq] at hf
      exact hs (hinj1 _ _ _ hfind hf)
    | none =>
      rw [Session.get_of_no_external hf hL1] at heq
      simp only at heq
      have := Session.deref_isSome_of_find hv1 hfind
      rw [heq, Session.deref_arena_length] at this
      simp at this
  have heq : s1 = s2 → (w.get s1).1 = ((w.get s1).2.get s2).1 := by
    rintro rfl
    rw [Session.get_of_find hfind]
  have hiff : (w.get s1).1 = ((w.get s1).2.get s2).1 ↔ s1 = s2 :=
    ⟨fun h => by_contra fun hs => hne hs h, heq⟩
  refine ⟨hne, hiff, hiff.trans ⟨?_, ?_⟩⟩
  · rintro rfl
    exact ⟨rfl, fun _ => rfl⟩
  · rintro ⟨-, h⟩
    exact List.ext_getElem? h


/-! ## The file manager: the two resolution paths -/

theorem mapFind_cons {α β : Type} [DecidableEq α] (kv : α × β) (m : List (α × β)) (a : α) :
    mapFind (kv :: m) a = if kv.1 = a then some kv.2 else mapFind m a := rfl

theorem mapFind_mem {α β : Type} [DecidableEq α] {m : List (α × β)} {a : α} {v : β}
    (h : mapFind m a = some v) : (a, v) ∈ m := by
  induction m with
  | nil => simp [mapFind] at h
  | cons kv m ih =>
    rw [mapFind_cons] at h
    split at h
    · next hk =>
      cases h
      subst hk
      simp
    · exact List.mem_cons_of_mem _ (ih h)

namespace FileManager

/-- The answer of `getDirectory` on a cached path. -/
theorem getDirectory_hit {fs : FileSystem} {fm : FileManager} {p : Path} {a : Option Nat}
    (h : mapFind fm.DirEntries p = some a) :
    fm.getDirectory fs p = (a, { fm with NumDirLookups := fm.NumDirLookups + 1 }) := by
  simp only [getDirectory, h]

/-- The call `getDirectory` touches nothing on the file side. -/
theorem getDirectory_files (fs : FileSystem) (fm : FileManager) (p : Path) :
    (fm.getDirectory fs p).2.UniqueFiles = fm.UniqueFiles ∧
    (fm.getDirectory fs p).2.FileEntries = fm.FileEntries ∧
    (fm.getDirectory fs p).2.Files = fm.Files ∧
    (fm.getDirectory fs p).2.NextFileUID = fm.NextFileUID := by
  simp only [getDirectory, uniqueDirectory]
  split
  · exact ⟨rfl, rfl, rfl, rfl⟩
  · split
    · exact ⟨rfl, rfl, rfl, rfl⟩
    · split <;> exact ⟨rfl, rfl, rfl, rfl⟩

/-- On a miss, `getDirectory` probes the directory once and caches its answer under the
literal path. -/
theorem getDirectory_miss {fs : FileSystem} {fm : FileManager} {p : Path}
    (h : mapFind fm.DirEntries p = none) :
    (fm.getDirectory fs p).2.DirEntries = (p, (fm.getDirectory fs p).1) :: fm.DirEntries ∧
    (fm.getDirectory fs p).2.Probes = fm.Probes ++ [Probe.directory p] := by
  simp only [getDirectory, uniqueDirectory, h]
  split
  · exact ⟨rfl, rfl⟩
  · split <;> exact ⟨rfl, rfl⟩

/-- The record store of directories after `getDirectory`: unchanged, or extended by one
record named by the literal path, which is the answer. -/
theorem getDirectory_dirs (fs : FileSystem) (fm : FileManager) (p : Path) :
    (fm.getDirectory fs p).2.Dirs = fm.Dirs ∨
    ((fm.getDirectory fs p).1 = some fm.Dirs.length ∧
      (fm.getDirectory fs p).2.Dirs = fm.Dirs ++ [{ Name := some p }]) := by
  simp only [getDirectory, uniqueDirectory]
  split
  · exact Or.inl rfl
  · split
    · exact Or.inl rfl
    · split
      · exact Or.inl rfl
      · exact Or.inr ⟨rfl, rfl⟩

/-- The statistics counters of the file side play no role in `getDirectory`. -/
theorem getDirectory_bump (fs : FileSystem) (fm : FileManager) (p : Path) (a b : Nat) :
    getDirectory fs { fm with NumFileLookups := a, NumFileCacheMisses := b } p =
      ((fm.getDirectory fs p).1,
        { (fm.getDirectory fs p).2 with NumFileLookups := a, NumFileCacheMisses := b }) := by
  simp only [getDirectory, uniqueDirectory]
  split
  · rfl
  · split
    · rfl
    · split <;> rfl

/-- The path cache of directories after `getDirectory`. -/
theorem mapFind_getDirectory (fs : FileSystem) (fm : FileManager) (p q : Path) :
    mapFind (fm.getDirectory fs p).2.DirEntries q =
      if q = p then some (fm.getDirectory fs p).1 else mapFind fm.DirEntries q := by
  cases h : mapFind fm.DirEntries p with
  | some a =>
    rw [getDirectory_hit h]
    by_cases hq : q = p
    · simp [hq, h]
    · simp [hq]
  | none =>
    rw [(getDirectory_miss h).1, mapFind_cons]
    by_cases hq : q = p
    · simp [hq]
    · have : ¬ p = q := fun e => hq e.symm
      simp [hq, this]

/-- The probes made by `getDirectory`: none on a cached path, one directory probe
otherwise. -/
theorem getDirectory_probes (fs : FileSystem) (fm : FileManager) (p : Path) :
    (fm.getDirectory fs p).2.Probes = fm.Probes ∨
    (fm.getDirectory fs p).2.Probes = fm.Probes ++ [Probe.directory p] := by
  cases h : mapFind fm.DirEntries p with
  | some a => rw [getDirectory_hit h]; exact Or.inl rfl
  | none => exact Or.inr (getDirectory_miss h).2

/-- The answer of `getFile` on a cached path. -/
theorem getFile_hit {dirOf : Path → Path} {fs : FileSystem} {fm : FileManager} {p : Path}
    {a : Option Nat} (h : mapFind fm.FileEntries p = some a) :
    fm.getFile dirOf fs p = (a, { fm with NumFileLookups := fm.NumFileLookups + 1 }) := by
  simp only [getFile, h]

/-- On a miss, `getFile` leaves the directory side as `getDirectory` on the directory part
leaves it and caches its answer under the literal path. -/
theorem getFile_miss {dirOf : Path → Path} {fs : FileSystem} {fm : FileManager} {p : Path}
    (h : mapFind fm.FileEntries p = none) :
    (fm.getFile dirOf fs p).2.FileEntries = (p, (fm.getFile dirOf fs p).1) :: fm.FileEntries ∧
    (fm.getFile dirOf fs p).2.DirEntries = (fm.getDirectory fs (dirOf p)).2.DirEntries ∧
    (fm.getFile dirOf fs p).2.Dirs = (fm.getDirectory fs (dirOf p)).2.Dirs ∧
    (fm.getFile dirOf fs p).2.UniqueDirs = (fm.getDirectory fs (dirOf p)).2.UniqueDirs := by
  obtain ⟨-, h2, -, -⟩ := getDirectory_files fs fm (dirOf p)
  simp only [getFile, h, getDirectory_bump, uniqueFile]
  split
  · exact ⟨by simp [h2], rfl, rfl, rfl⟩
  · split
    · exact ⟨by simp [h2], rfl, rfl, rfl⟩
    · split <;> exact ⟨by simp [h2], rfl, rfl, rfl⟩

/-- The four outcomes of `getFile` on a path that is not cached, on the file side: the
parent directory does not resolve; the probe of the file fails; the identity is already
indexed; a record is allocated. -/
theorem getFile_miss_cases {dirOf : Path → Path} {fs : FileSystem} {fm : FileManager}
    {p : Path} (h : mapFind fm.FileEntries p = none) :
    ((fm.getDirectory fs (dirOf p)).1 = none ∧ (fm.getFile dirOf fs p).1 = none ∧
      (fm.getFile dirOf fs p).2.Files = fm.Files ∧
      (fm.getFile dirOf fs p).2.UniqueFiles = fm.UniqueFiles ∧
      (fm.getFile dirOf fs p).2.NextFileUID = fm.NextFileUID ∧
      (fm.getFile dirOf fs p).2.Probes = (fm.getDirectory fs (dirOf p)).2.Probes) ∨
    ((∃ d, (fm.getDirectory fs (dirOf p)).1 = some d) ∧ probeFile fs p = none ∧
      (fm.getFile dirOf fs p).1 = none ∧
      (fm.getFile dirOf fs p).2.Files = fm.Files ∧
      (fm.getFile dirOf fs p).2.UniqueFiles = fm.UniqueFiles ∧
      (fm.getFile dirOf fs p).2.NextFileUID = fm.NextFileUID ∧
      (fm.getFile dirOf fs p).2.Probes
        = (fm.getDirectory fs (dirOf p)).2.Probes ++ [Probe.file p]) ∨
    (∃ d st f, (fm.getDirectory fs (dirOf p)).1 = some d ∧ probeFile fs p = some st ∧
      mapFind fm.UniqueFiles (st.Device, st.Inode) = some f ∧
      (fm.getFile dirOf fs p).1 = some f ∧
      (fm.getFile dirOf fs p).2.Files = fm.Files ∧
      (fm.getFile dirOf fs p).2.UniqueFiles = fm.UniqueFiles ∧
      (fm.getFile dirOf fs p).2.NextFileUID = fm.NextFileUID ∧
      (fm.getFile dirOf fs p).2.Probes
        = (fm.getDirectory fs (dirOf p)).2.Probes ++ [Probe.file p]) ∨
    (∃ d st, (fm.getDirectory fs (dirOf p)).1 = some d ∧ probeFile fs p = some st ∧
      mapFind fm.UniqueFiles (st.Device, st.Inode) = none ∧
      (fm.getFile dirOf fs p).1 = some fm.Files.length ∧
      (fm.getFile dirOf fs p).2.Files = fm.Files ++ [
        { Name := some p
          Size := st.Size
          ModTime := st.ModTime
          Dir := some d
          UID := fm.NextFileUID
          Device := st.Device
          Inode := st.Inode
          FileMode := st.Mode }] ∧
      (fm.getFile dirOf fs p).2.UniqueFiles
        = ((st.Device, st.Inode), fm.Files.length) :: fm.UniqueFiles ∧
      (fm.getFile dirOf fs p).2.NextFileUID = fm.NextFileUID + 1 ∧
      (fm.getFile dirOf fs p).2.Probes
        = (fm.getDirectory fs (dirOf p)).2.Probes ++ [Probe.file p]) := by
  obtain ⟨h1, -, h3, h4⟩ := getDirectory_files fs fm (dirOf p)
  cases hd : (fm.getDirectory fs (dirOf p)).1 with
  | none =>
    refine Or.inl ?_
    simp [getFile, h, getDirectory_bump, hd, h1, h3, h4]
  | some d =>
    cases hp : probeFile fs p with
    | none =>
      refine Or.inr (Or.inl ?_)
      simp [getFile, h, getDirectory_bump, hd, hp, h1, h3, h4]
    | some st =>
      cases hu : mapFind fm.UniqueFiles (st.Device, st.Inode) with
      | some f =>
        refine Or.inr (Or.inr (Or.inl ⟨d, st, f, rfl, rfl, hu, ?_⟩))
        simp [getFile, h, getDirectory_bump, uniqueFile, hd, hp, hu, h1, h3, h4]
      | none =>
        refine Or.inr (Or.inr (Or.inr ⟨d, st, rfl, rfl, hu, ?_⟩))
        simp [getFile, h, getDirectory_bump, uniqueFile, hd, hp, hu, h1, h3, h4]

end FileManager

/-! ## The file manager: caches and invariants -/

namespace FileManager

/-- The path cache of files after `getFile`. -/
theorem mapFind_getFile (dirOf : Path → Path) (fs : FileSystem) (fm : FileManager)
    (p q : Path) :
    mapFind (fm.getFile dirOf fs p).2.FileEntries q =
      if q = p then some (fm.getFile dirOf fs p).1 else mapFind fm.FileEntries q := by
  cases h : mapFind fm.FileEntries p with
  | some a =>
    rw [getFile_hit h]
    by_cases hq : q = p
    · simp [hq, h]
    · simp [hq]
  | none =>
    rw [(getFile_miss h).1, mapFind_cons]
    by_cases hq : q = p
    · simp [hq]
    · have : ¬ p = q := fun e => hq e.symm
      simp [hq, this]

/-- A cached answer for a file path survives every call. -/
theorem fileEntries_call {dirOf : Path → Path} {fm : FileManager} {p : Path} {a : Option Nat}
    (c : FileCall) (h : mapFind fm.FileEntries p = some a) :
    mapFind (fm.call dirOf c).FileEntries p = some a := by
  cases c with
  | getDirectory fs q =>
    simp only [call, (getDirectory_files fs fm q).2.1]
    exact h
  | getFile fs q =>
    simp only [call, mapFind_getFile]
    by_cases hq : p = q
    · subst hq
      rw [getFile_hit h]
      simp
    · simp [hq, h]

/-- A cached answer for a directory path survives every call. -/
theorem dirEntries_call {dirOf : Path → Path} {fm : FileManager} {p : Path} {a : Option Nat}
    (c : FileCall) (h : mapFind fm.DirEntries p = some a) :
    mapFind (fm.call dirOf c).DirEntries p = some a := by
  have key : ∀ fs q, mapFind (fm.getDirectory fs q).2.DirEntries p = some a := by
    intro fs q
    rw [mapFind_getDirectory]
    by_cases hq : p = q
    · subst hq
      rw [getDirectory_hit h]
      simp
    · simp [hq, h]
  cases c with
  | getDirectory fs q => exact key fs q
  | getFile fs q =>
    simp only [call]
    cases hc : mapFind fm.FileEntries q with
    | some b => rw [getFile_hit hc]; exact h
    | none => rw [(getFile_miss hc).2.1]; exact key fs (dirOf q)

theorem fileEntries_run {dirOf : Path → Path} (cs : List FileCall) {fm : FileManager}
    {p : Path} {a : Option Nat} (h : mapFind fm.FileEntries p = some a) :
    mapFind (fm.run dirOf cs).FileEntries p = some a := by
  induction cs generalizing fm with
  | nil => exact h
  | cons c cs ih => exact ih (fileEntries_call c h)

theorem dirEntries_run {dirOf : Path → Path} (cs : List FileCall) {fm : FileManager}
    {p : Path} {a : Option Nat} (h : mapFind fm.DirEntries p = some a) :
    mapFind (fm.run dirOf cs).DirEntries p = some a := by
  induction cs generalizing fm with
  | nil => exact h
  | cons c cs ih => exact ih (dirEntries_call c h)

/-- The record store of files after `getFile`: unchanged together with the UID counter, or
extended by one record that carries the old value of the counter, which is then
incremented; in the second case the new record is the answer. -/
theorem getFile_files (dirOf : Path → Path) (fs : FileSystem) (fm : FileManager) (p : Path) :
    ((fm.getFile dirOf fs p).2.Files = fm.Files ∧
      (fm.getFile dirOf fs p).2.UniqueFiles = fm.UniqueFiles ∧
      (fm.getFile dirOf fs p).2.NextFileUID = fm.NextFileUID) ∨
    (∃ e, (fm.getFile dirOf fs p).2.Files = fm.Files ++ [e] ∧ e.UID = fm.NextFileUID ∧
      e.Name = some p ∧ e.Dir = (fm.getDirectory fs (dirOf p)).1 ∧
      mapFind fm.UniqueFiles (e.Device, e.Inode) = none ∧
      mapFind fm.FileEntries p = none ∧
      (fm.getFile dirOf fs p).2.UniqueFiles
        = ((e.Device, e.Inode), fm.Files.length) :: fm.UniqueFiles ∧
      (fm.getFile dirOf fs p).2.NextFileUID = fm.NextFileUID + 1 ∧
      (fm.getFile dirOf fs p).1 = some fm.Files.length) := by
  cases h : mapFind fm.FileEntries p with
  | some a => rw [getFile_hit h]; exact Or.inl ⟨rfl, rfl, rfl⟩
  | none =>
    rcases @getFile_miss_cases dirOf fs _ _ h with
      ⟨-, -, h1, h2, h3, -⟩ | ⟨-, -, -, h1, h2, h3, -⟩ | ⟨d, st, f, -, -, -, -, h1, h2, h3, -⟩ |
      ⟨d, st, hd, -, hu, hr, h1, h2, h3, -⟩
    · exact Or.inl ⟨h1, h2, h3⟩
    · exact Or.inl ⟨h1, h2, h3⟩
    · exact Or.inl ⟨h1, h2, h3⟩
    · exact Or.inr ⟨_, h1, rfl, rfl, hd.symm, hu, rfl, h2, h3, hr⟩

theorem fileStoreOk_of_eq {fm fm2 : FileManager} (h : fm.FileStoreOk)
    (h1 : fm2.Files = fm.Files) (h2 : fm2.UniqueFiles = fm.UniqueFiles)
    (h3 : fm2.NextFileUID = fm.NextFileUID) : fm2.FileStoreOk := by
  obtain ⟨a, b, c, d⟩ := h
  constructor
  · rw [h1, h2]; exact a
  · rw [h1, h2]; exact b
  · rw [h1]; exact c
  · rw [h1, h3]; exact d

theorem fileStoreOk_alloc {fm fm2 : FileManager} {e : FileEntry} (h : fm.FileStoreOk)
    (hu : mapFind fm.UniqueFiles (e.Device, e.Inode) = none) (hid : e.UID = fm.NextFileUID)
    (h1 : fm2.Files = fm.Files ++ [e])
    (h2 : fm2.UniqueFiles = ((e.Device, e.Inode), fm.Files.length) :: fm.UniqueFiles)
    (h3 : fm2.NextFileUID = fm.NextFileUID + 1) : fm2.FileStoreOk := by
  obtain ⟨a, b, c, d⟩ := h
  constructor
  · intro kf hkf
    rw [h2, List.mem_cons] at hkf
    rcases hkf with rfl | hkf
    · exact ⟨e, by simp [h1], rfl⟩
    · obtain ⟨e0, he0, hk⟩ := a kf hkf
      have hlt : kf.2 < fm.Files.length := (List.getElem?_eq_some_iff.mp he0).1
      exact ⟨e0, by rw [h1, List.getElem?_append_left hlt]; exact he0, hk⟩
  · intro f e0 he0
    rw [h1] at he0
    rw [h2, mapFind_cons]
    by_cases hlt : f < fm.Files.length
    · rw [List.getElem?_append_left hlt] at he0
      have hb := b f e0 he0
      have hne : ¬ (e.Device, e.Inode) = (e0.Device, e0.Inode) := by
        intro heq
        rw [heq, hb] at hu
        cases hu
      simp only [hne, if_false]
      exact hb
    · have hlen := (List.getElem?_eq_some_iff.mp he0).1
      simp only [List.length_append, List.length_singleton] at hlen
      have hf : f = fm.Files.length := by omega
      subst hf
      simp only [List.getElem?_concat_length, Option.some.injEq] at he0
      subst he0
      simp
  · rw [h1, List.map_append, List.pairwise_append]
    refine ⟨c, by simp, ?_⟩
    intro x hx y hy
    simp only [List.map_cons, List.map_nil, List.mem_singleton] at hy
    obtain ⟨e0, he0, rfl⟩ := List.mem_map.mp hx
    have := d e0 he0
    omega
  · intro e0 he0
    rw [h1, List.mem_append, List.mem_singleton] at he0
    rw [h3]
    rcases he0 with he0 | rfl
    · have := d e0 he0
      omega
    · omega

theorem fileStoreOk_call {dirOf : Path → Path} {fm : FileManager} (c : FileCall)
    (h : fm.FileStoreOk) : (fm.call dirOf c).FileStoreOk := by
  cases c with
  | getDirectory fs q =>
    obtain ⟨h1, -, h3, h4⟩ := getDirectory_files fs fm q
    exact fileStoreOk_of_eq h h3 h1 h4
  | getFile fs q =>
    rcases getFile_files dirOf fs fm q with ⟨h1, h2, h3⟩ | ⟨e, h1, hid, -, -, hu, -, h2, h3, -⟩
    · exact fileStoreOk_of_eq h h1 h2 h3
    · exact fileStoreOk_alloc h hu hid h1 h2 h3

/-- The record store of files only grows. -/
theorem files_prefix_call (dirOf : Path → Path) (fm : FileManager) (c : FileCall) :
    fm.Files <+: (fm.call dirOf c).Files := by
  cases c with
  | getDirectory fs q =>
    simp only [call, (getDirectory_files fs fm q).2.2.1]
    exact List.prefix_refl _
  | getFile fs q =>
    rcases getFile_files dirOf fs fm q with ⟨h1, -, -⟩ | ⟨e, h1, -⟩
    · simp only [call, h1]
      exact List.prefix_refl _
    · simp only [call, h1]
      exact List.prefix_append _ _

theorem files_prefix_run (dirOf : Path → Path) (cs : List FileCall) (fm : FileManager) :
    fm.Files <+: (fm.run dirOf cs).Files := by
  induction cs generalizing fm with
  | nil => exact List.prefix_refl _
  | cons c cs ih => exact (files_prefix_call dirOf fm c).trans (ih (fm.call dirOf c))

theorem getElem?_mono {α : Type} {l1 l2 : List α} (h : l1 <+: l2) {i : Nat} {a : α}
    (hi : l1[i]? = some a) : l2[i]? = some a := by
  obtain ⟨t, rfl⟩ := h
  rw [List.getElem?_append_left (List.getElem?_eq_some_iff.mp hi).1]
  exact hi

theorem fileCacheOk_call {dirOf : Path → Path} {fm : FileManager} (c : FileCall)
    (hs : fm.FileStoreOk) (h : fm.FileCacheOk dirOf) : (fm.call dirOf c).FileCacheOk dirOf := by
  obtain ⟨hv, hp⟩ := h
  have hlen : fm.Files.length ≤ (fm.call dirOf c).Files.length :=
    (files_prefix_call dirOf fm c).length_le
  have hold : ∀ pe ∈ fm.FileEntries, ∀ f, pe.2 = some f →
      ∃ d, mapFind (fm.call dirOf c).DirEntries (dirOf pe.1) = some (some d) := by
    intro pe hpe f hf
    obtain ⟨d, hd⟩ := hp pe hpe f hf
    exact ⟨d, dirEntries_call c hd⟩
  cases c with
  | getDirectory fs q =>
    constructor
    · intro pe hpe f hf
      simp only [call, (getDirectory_files fs fm q).2.1] at hpe
      exact Nat.lt_of_lt_of_le (hv pe hpe f hf) hlen
    · intro pe hpe f hf
      simp only [call, (getDirectory_files fs fm q).2.1] at hpe
      exact hold pe hpe f hf
  | getFile fs q =>
    cases hc : mapFind fm.FileEntries q with
    | some b =>
      have hE : (fm.call dirOf (FileCall.getFile fs q)).FileEntries = fm.FileEntries := by
        simp only [call, getFile_hit hc]
      constructor
      · intro pe hpe f hf
        rw [hE] at hpe
        exact Nat.lt_of_lt_of_le (hv pe hpe f hf) hlen
      · intro pe hpe f hf
        rw [hE] at hpe
        exact hold pe hpe f hf
    | none =>
      have hE : (fm.call dirOf (FileCall.getFile fs q)).FileEntries
          = (q, (fm.getFile dirOf fs q).1) :: fm.FileEntries := (getFile_miss hc).1
      have hnew : ∀ f, (fm.getFile dirOf fs q).1 = some f →
          f < (fm.getFile dirOf fs q).2.Files.length ∧
          ∃ d, mapFind (fm.getFile dirOf fs q).2.DirEntries (dirOf q) = some (some d) := by
        intro f hf
        rcases @getFile_miss_cases dirOf fs _ _ hc with
          ⟨-, hr, -⟩ | ⟨-, -, hr, -⟩ | ⟨d, st, f2, hd, -, hu, hr, h1, -⟩ |
          ⟨d, st, hd, -, -, hr, h1, -⟩
        · rw [hr] at hf; cases hf
        · rw [hr] at hf; cases hf
        · rw [hr] at hf
          cases hf
          obtain ⟨e0, he0, -⟩ := hs.index_sound _ (mapFind_mem hu)
          refine ⟨by rw [h1]; exact (List.getElem?_eq_some_iff.mp he0).1, d, ?_⟩
          rw [(getFile_miss hc).2.1, mapFind_getDirectory]
          simp [hd]
        · rw [hr] at hf
          cases hf
          refine ⟨by simp [h1], d, ?_⟩
          rw [(getFile_miss hc).2.1, mapFind_getDirectory]
          simp [hd]
      constructor
      · intro pe hpe f hf
        rw [hE, List.mem_cons] at hpe
        rcases hpe with rfl | hpe
        · exact (hnew f hf).1
        · exact Nat.lt_of_lt_of_le (hv pe hpe f hf) hlen
      · intro pe hpe f hf
        rw [hE, List.mem_cons] at hpe
        rcases hpe with rfl | hpe
        · exact (hnew f hf).2
        · exact hold pe hpe f hf

theorem wf_ctor (dirOf : Path → Path) : ctor.WF dirOf :=
  ⟨⟨by simp [ctor], by simp [ctor], by simp [ctor], by simp [ctor]⟩,
    ⟨by simp [ctor], by simp [ctor]⟩⟩

theorem wf_call {dirOf : Path → Path} {fm : FileManager} (c : FileCall) (h : fm.WF dirOf) :
    (fm.call dirOf c).WF dirOf :=
  ⟨fileStoreOk_call c h.1, fileCacheOk_call c h.1 h.2⟩

/-- The invariant holds along every sequence of calls. -/
theorem wf_run {dirOf : Path → Path} (cs : List FileCall) {fm : FileManager}
    (h : fm.WF dirOf) : (fm.run dirOf cs).WF dirOf := by
  induction cs generalizing fm with
  | nil => exact h
  | cons c cs ih => exact ih (wf_call c h)

end FileManager

namespace FileManager

theorem probeFile_eq {fs : FileSystem} {p : Path} {st : StatResult}
    (h : probeFile fs p = some st) : fs p = some st := by
  unfold probeFile at h
  cases hf : fs p with
  | none => simp [hf] at h
  | some st0 =>
    simp only [hf] at h
    split at h
    · cases h
    · exact h

/-- The record answered by `getFile` for a path it probes carries the identity the probe
reports. -/
theorem getFile_identity {dirOf : Path → Path} {fs : FileSystem} {fm : FileManager}
    {p : Path} {st : StatResult} {f : Nat} (hs : fm.FileStoreOk)
    (hnew : mapFind fm.FileEntries p = none) (hst : fs p = some st)
    (hr : (fm.getFile dirOf fs p).1 = some f) :
    ∃ e, (fm.getFile dirOf fs p).2.Files[f]? = some e ∧ e.Device = st.Device ∧
      e.Inode = st.Inode := by
  rcases @getFile_miss_cases dirOf fs _ _ hnew with
    ⟨-, hr0, -⟩ | ⟨-, -, hr0, -⟩ | ⟨d, st2, f2, -, hp, hu, hr0, h1, -⟩ |
    ⟨d, st2, -, hp, -, hr0, h1, -⟩
  · rw [hr0] at hr; cases hr
  · rw [hr0] at hr; cases hr
  · rw [hr0] at hr
    cases hr
    have := (probeFile_eq hp).symm.trans hst
    cases this
    obtain ⟨e0, he0, hk⟩ := hs.index_sound _ (mapFind_mem hu)
    simp only [Prod.mk.injEq] at hk
    exact ⟨e0, by rw [h1]; exact he0, hk.1, hk.2⟩
  · rw [hr0] at hr
    cases hr
    have := (probeFile_eq hp).symm.trans hst
    cases this
    exact ⟨_, by rw [h1]; exact List.getElem?_concat_length _ _, rfl, rfl⟩

end FileManager

/-! ## Claims about the file manager -/

/-- On a file manager satisfying its invariant, two successful probes that report the same
`(device, inode)` are answered with the same record, and the record store never holds two
records with the same `(device, inode)`. -/
theorem getFile_dedup_of_wf (dirOf : Path → Path) (fm : FileManager) (hwf : fm.WF dirOf)
    (fs1 fs2 : FileSystem) (p1 p2 : Path) (cs : List FileCall) (st1 st2 : StatResult)
    (f1 f2 : Nat) (hnew1 : mapFind fm.FileEntries p1 = none) (hst1 : fs1 p1 = some st1)
    (hr1 : (fm.getFile dirOf fs1 p1).1 = some f1)
    (hnew2 : mapFind ((fm.getFile dirOf fs1 p1).2.run dirOf cs).FileEntries p2 = none)
    (hst2 : fs2 p2 = some st2)
    (hr2 : (((fm.getFile dirOf fs1 p1).2.run dirOf cs).getFile dirOf fs2 p2).1 = some f2)
    (hid : st1.Device = st2.Device ∧ st1.Inode = st2.Inode) :
    f1 = f2 ∧
    (∃ e, (fm.getFile dirOf fs1 p1).2.Files[f1]? = some e ∧
      (((fm.getFile dirOf fs1 p1).2.run dirOf cs).getFile dirOf fs2 p2).2.Files[f2]? = some e ∧
      e.Device = st1.Device ∧ e.Inode = st1.Inode) ∧
    (∀ (g g2 : Nat) (e e2 : FileEntry),
      (((fm.getFile dirOf fs1 p1).2.run dirOf cs).getFile dirOf fs2 p2).2.Files[g]? = some e →
      (((fm.getFile dirOf fs1 p1).2.run dirOf cs).getFile dirOf fs2 p2).2.Files[g2]? = some e2 →
      e.Device = e2.Device → e.Inode = e2.Inode → g = g2) := by
  have hwf1 : (fm.getFile dirOf fs1 p1).2.WF dirOf :=
    FileManager.wf_call (FileCall.getFile fs1 p1) hwf
  have hwf2 := FileManager.wf_run cs hwf1
  have hwf3 : (((fm.getFile dirOf fs1 p1).2.run dirOf cs).getFile dirOf fs2 p2).2.WF dirOf :=
    FileManager.wf_call (FileCall.getFile fs2 p2) hwf2
  have huniq : ∀ (g g2 : Nat) (e e2 : FileEntry),
      (((fm.getFile dirOf fs1 p1).2.run dirOf cs).getFile dirOf fs2 p2).2.Files[g]? = some e →
      (((fm.getFile dirOf fs1 p1).2.run dirOf cs).getFile dirOf fs2 p2).2.Files[g2]? = some e2 →
      e.Device = e2.Device → e.Inode = e2.Inode → g = g2 := by
    intro g g2 e e2 he he2 hd hi
    have h1 := hwf3.1.index_complete g e he
    have h2 := hwf3.1.index_complete g2 e2 he2
    rw [hd, hi, h2] at h1
    cases h1
    rfl
  obtain ⟨e1, he1, hd1, hi1⟩ := FileManager.getFile_identity hwf.1 hnew1 hst1 hr1
  obtain ⟨e2, he2, hd2, hi2⟩ := FileManager.getFile_identity hwf2.1 hnew2 hst2 hr2
  have hpre := (FileManager.files_prefix_run dirOf cs (fm.getFile dirOf fs1 p1).2).trans
    (FileManager.files_prefix_call dirOf _ (FileCall.getFile fs2 p2))
  have he1' := FileManager.getElem?_mono hpre he1
  have hf : f1 = f2 := huniq f1 f2 e1 e2 he1' he2 (by rw [hd1, hd2, hid.1])
    (by rw [hi1, hi2, hid.2])
  refine ⟨hf, ⟨e1, he1, ?_, hd1, hi1⟩, huniq⟩
  rw [← hf]
  exact he1'


/-- C15: in every session of a file manager (the state `fm` reached from the constructor by
any calls), if `getFile(p1)` probes `p1` successfully and, after any further lookups,
`getFile(p2)` probes `p2` successfully with the same `(device, inode)`, both calls return the
same `FileEntry` reference: the record stored by the first call, unchanged, so `getUID()` is
the same; and the record store never holds two records with the same `(device, inode)`. -/
theorem getFile_identity_dedup (dirOf : Path → Path) (cs0 : List FileCall) (fm : FileManager)
    (hsession : fm = FileManager.ctor.run dirOf cs0)
    (fs1 fs2 : FileSystem) (p1 p2 : Path) (cs : List FileCall) (st1 st2 : StatResult)
    (f1 f2 : Nat) (hnew1 : mapFind fm.FileEntries p1 = none) (hst1 : fs1 p1 = some st1)
    (hr1 : (fm.getFile dirOf fs1 p1).1 = some f1)
    (hnew2 : mapFind ((fm.getFile dirOf fs1 p1).2.run dirOf cs).FileEntries p2 = none)
    (hst2 : fs2 p2 = some st2)
    (hr2 : (((fm.getFile dirOf fs1 p1).2.run dirOf cs).getFile dirOf fs2 p2).1 = some f2)
    (hid : st1.Device = st2.Device ∧ st1.Inode = st2.Inode) :
    f1 = f2 ∧
    (∃ e, (fm.getFile dirOf fs1 p1).2.Files[f1]? = some e ∧
      (((fm.getFile dirOf fs1 p1).2.run dirOf cs).getFile dirOf fs2 p2).2.Files[f2]? = some e ∧
      e.Device = st1.Device ∧ e.Inode = st1.Inode) ∧
    (∀ (g g2 : Nat) (e e2 : FileEntry),
      (((fm.getFile dirOf fs1 p1).2.run dirOf cs).getFile dirOf fs2 p2).2.Files[g]? = some e →
      (((fm.getFile dirOf fs1 p1).2.run dirOf cs).getFile dirOf fs2 p2).2.Files[g2]? = some e2 →
      e.Device = e2.Device → e.Inode = e2.Inode → g = g2) :=
  getFile_dedup_of_wf dirOf fm
    (hsession ▸ FileManager.wf_run cs0 (FileManager.wf_ctor dirOf)) fs1 fs2 p1 p2 cs st1 st2
    f1 f2 hnew1 hst1 hr1 hnew2 hst2 hr2 hid

/-- Witness of C15: `../CMakeLists.txt` and its second name `../link.txt`, with a lookup of
another file in between, resolve to the record 0. -/
theorem getFile_identity_dedup_witness :
    (FileManager.ctor.getFile parentOf diskA pathCMake).1 = some 0 ∧
    (((FileManager.ctor.getFile parentOf diskA pathCMake).2.run parentOf
      [FileCall.getFile diskA pathOther]).getFile parentOf diskA pathLink).1 = some 0 ∧
    pathCMake ≠ pathLink ∧ (0 : Nat) = 0 :=
  ⟨by decide, by decide, by decide,
    (getFile_identity_dedup parentOf [] FileManager.ctor rfl diskA diskA
      pathCMake pathLink [FileCall.getFile diskA pathOther]
      { Device := 1, Inode := 10, Size := 700, ModTime := 9, Mode := 33188,
        IsDirectory := false }
      { Device := 1, Inode := 10, Size := 700, ModTime := 9, Mode := 33188,
        IsDirectory := false }
      0 0 (by decide) (by decide) (by decide) (by decide) (by decide) (by decide)
      ⟨rfl, rfl⟩).1⟩

/-- On a file manager satisfying its invariant the UIDs increase strictly along the record
store after every sequence of calls, and `getFile` either leaves the store and the counter
unchanged or appends one record with the current value of the counter. -/
theorem uid_monotone_of_wf (dirOf : Path → Path) (fm : FileManager) (hwf : fm.WF dirOf)
    (cs : List FileCall) (fs : FileSystem) (p : Path) :
    ((fm.run dirOf cs).Files.map (·.getUID)).Pairwise (· < ·) ∧
    ((fm.run dirOf cs).Files.map (·.getUID)).Nodup ∧
    (((fm.getFile dirOf fs p).2.Files = fm.Files ∧
        (fm.getFile dirOf fs p).2.NextFileUID = fm.NextFileUID) ∨
      (∃ e, (fm.getFile dirOf fs p).2.Files = fm.Files ++ [e] ∧ e.getUID = fm.NextFileUID ∧
        (fm.getFile dirOf fs p).2.NextFileUID = fm.NextFileUID + 1 ∧
        (fm.getFile dirOf fs p).1 = some fm.Files.length)) ∧
    (((fm.getFile dirOf fs p).1 = none ∨
        ∃ f, (fm.getFile dirOf fs p).1 = some f ∧ f < fm.Files.length) →
      (fm.getFile dirOf fs p).2.Files = fm.Files ∧
        (fm.getFile dirOf fs p).2.NextFileUID = fm.NextFileUID) := by
  have hinc := (FileManager.wf_run cs hwf).1.uid_increasing
  refine ⟨hinc, ?_, ?_, ?_⟩
  · exact hinc.imp (fun h => Nat.ne_of_lt h)
  · rcases FileManager.getFile_files dirOf fs fm p with
      ⟨h1, -, h3⟩ | ⟨e, h1, hid, -, -, -, -, -, h3, hr⟩
    · exact Or.inl ⟨h1, h3⟩
    · exact Or.inr ⟨e, h1, hid, h3, hr⟩
  · intro hknown
    rcases FileManager.getFile_files dirOf fs fm p with
      ⟨h1, -, h3⟩ | ⟨e, h1, hid, -, -, -, -, -, h3, hr⟩
    · exact ⟨h1, h3⟩
    · rcases hknown with hn | ⟨f, hf, hlt⟩
      · rw [hr] at hn; cases hn
      · rw [hr] at hf
        cases hf
        omega


/-- C16: in every session of a file manager (the state `fm` reached from the constructor by
any calls), after every further sequence of calls the UIDs of the records increase strictly
along the record store, which is the order of first discovery, hence are pairwise distinct;
a `getFile` call either leaves the store and `NextFileUID` unchanged, or appends one record
carrying the current `NextFileUID` and increments the counter; a call that answers absent or
with a record that already existed is of the first kind. -/
theorem uid_monotone_unique (dirOf : Path → Path) (cs0 : List FileCall) (fm : FileManager)
    (hsession : fm = FileManager.ctor.run dirOf cs0)
    (cs : List FileCall) (fs : FileSystem) (p : Path) :
    ((fm.run dirOf cs).Files.map (·.getUID)).Pairwise (· < ·) ∧
    ((fm.run dirOf cs).Files.map (·.getUID)).Nodup ∧
    (((fm.getFile dirOf fs p).2.Files = fm.Files ∧
        (fm.getFile dirOf fs p).2.NextFileUID = fm.NextFileUID) ∨
      (∃ e, (fm.getFile dirOf fs p).2.Files = fm.Files ++ [e] ∧ e.getUID = fm.NextFileUID ∧
        (fm.getFile dirOf fs p).2.NextFileUID = fm.NextFileUID + 1 ∧
        (fm.getFile dirOf fs p).1 = some fm.Files.length)) ∧
    (((fm.getFile dirOf fs p).1 = none ∨
        ∃ f, (fm.getFile dirOf fs p).1 = some f ∧ f < fm.Files.length) →
      (fm.getFile dirOf fs p).2.Files = fm.Files ∧
        (fm.getFile dirOf fs p).2.NextFileUID = fm.NextFileUID) :=
  uid_monotone_of_wf dirOf fm (hsession ▸ FileManager.wf_run cs0 (FileManager.wf_ctor dirOf))
    cs fs p

/-- Witness of C16: two files, an alias of the first and a missing file give the UIDs 0 and
1 and leave the counter at 2. -/
theorem uid_monotone_unique_witness :
    ((FileManager.ctor.run parentOf [FileCall.getFile diskA pathCMake,
      FileCall.getFile diskA pathLink, FileCall.getFile diskA pathOther,
      FileCall.getFile diskA pathMissing]).Files.map (·.getUID)) = [0, 1] ∧
    (FileManager.ctor.run parentOf [FileCall.getFile diskA pathCMake,
      FileCall.getFile diskA pathLink, FileCall.getFile diskA pathOther,
      FileCall.getFile diskA pathMissing]).NextFileUID = 2 ∧
    ((FileManager.ctor.run parentOf [FileCall.getFile diskA pathCMake,
      FileCall.getFile diskA pathLink, FileCall.getFile diskA pathOther,
      FileCall.getFile diskA pathMissing]).Files.map (·.getUID)).Pairwise (· < ·) :=
  ⟨by decide, by decide,
    (uid_monotone_unique parentOf [] FileManager.ctor rfl
      [FileCall.getFile diskA pathCMake, FileCall.getFile diskA pathLink,
        FileCall.getFile diskA pathOther, FileCall.getFile diskA pathMissing] diskA pathCMake).1⟩

/-- C17: once `getFile(p)` (respectively `getDirectory(p)`) has been answered, a later call
with the same literal path, after any other calls and on any filesystem, returns the same
answer and makes no probe. -/
theorem path_cache_stable (dirOf : Path → Path) (fm : FileManager) (fs1 fs2 : FileSystem)
    (p : Path) (cs : List FileCall) :
    ((((fm.getFile dirOf fs1 p).2.run dirOf cs).getFile dirOf fs2 p).1
        = (fm.getFile dirOf fs1 p).1 ∧
      (((fm.getFile dirOf fs1 p).2.run dirOf cs).getFile dirOf fs2 p).2.Probes
        = ((fm.getFile dirOf fs1 p).2.run dirOf cs).Probes) ∧
    ((((fm.getDirectory fs1 p).2.run dirOf cs).getDirectory fs2 p).1
        = (fm.getDirectory fs1 p).1 ∧
      (((fm.getDirectory fs1 p).2.run dirOf cs).getDirectory fs2 p).2.Probes
        = ((fm.getDirectory fs1 p).2.run dirOf cs).Probes) := by
  constructor
  · have h : mapFind (fm.getFile dirOf fs1 p).2.FileEntries p = some (fm.getFile dirOf fs1 p).1 := by
      simpa using FileManager.mapFind_getFile dirOf fs1 fm p p
    rw [FileManager.getFile_hit (FileManager.fileEntries_run cs h)]
    exact ⟨rfl, rfl⟩
  · have h : mapFind (fm.getDirectory fs1 p).2.DirEntries p = some (fm.getDirectory fs1 p).1 := by
      simpa using FileManager.mapFind_getDirectory fs1 fm p p
    rw [FileManager.getDirectory_hit (FileManager.dirEntries_run cs h)]
    exact ⟨rfl, rfl⟩

/-- Witness of C17: `getFile("missing.c")` is absent; it is absent again, with the same
list of probes, after the file has appeared on the filesystem. -/
theorem path_cache_stable_witness :
    (FileManager.ctor.getFile parentOf diskA pathMissing).1 = none ∧
    diskB pathMissing ≠ none ∧
    ((FileManager.ctor.getFile parentOf diskA pathMissing).2.getFile parentOf diskB
      pathMissing).1 = none ∧
    ((FileManager.ctor.getFile parentOf diskA pathMissing).2.getFile parentOf diskB
      pathMissing).2.Probes = (FileManager.ctor.getFile parentOf diskA pathMissing).2.Probes :=
  ⟨by decide, by decide,
    ((path_cache_stable parentOf FileManager.ctor diskA diskB pathMissing []).1.1).trans
      (by decide),
    (path_cache_stable parentOf FileManager.ctor diskA diskB pathMissing []).1.2⟩

/-- C18: when `getFile(p)` allocates the record of a file not seen before, the returned
entry has `getName()` equal to `p` as passed and `getDir()` equal to the answer of
`getDirectory` for the directory part of `p`, before and after the call; when that directory
is itself first seen, its `getName()` is the directory part of `p`; a repeated `getFile(p)`
returns the same entry, with the record stores unchanged. -/
theorem getFile_first_seen_name (dirOf : Path → Path) (fm : FileManager) (fs : FileSystem)
    (p : Path) (f : Nat) (hres : (fm.getFile dirOf fs p).1 = some f)
    (hnew : (fm.getFile dirOf fs p).2.Files ≠ fm.Files) :
    ∃ e, (fm.getFile dirOf fs p).2.Files[f]? = some e ∧ e.getName = some p ∧
      e.getDir = (fm.getDirectory fs (dirOf p)).1 ∧
      (∀ fs2, ((fm.getFile dirOf fs p).2.getDirectory fs2 (dirOf p)).1 = e.getDir) ∧
      ((fm.getDirectory fs (dirOf p)).2.Dirs ≠ fm.Dirs →
        ∃ d, e.getDir = some d ∧
          (fm.getFile dirOf fs p).2.Dirs[d]? = some { Name := some (dirOf p) }) ∧
      (∀ fs2, ((fm.getFile dirOf fs p).2.getFile dirOf fs2 p).1 = some f ∧
        ((fm.getFile dirOf fs p).2.getFile dirOf fs2 p).2.Files
          = (fm.getFile dirOf fs p).2.Files ∧
        ((fm.getFile dirOf fs p).2.getFile dirOf fs2 p).2.Dirs
          = (fm.getFile dirOf fs p).2.Dirs) := by
  rcases FileManager.getFile_files dirOf fs fm p with
    ⟨h1, -, -⟩ | ⟨e, h1, -, hname, hdir, -, hmiss, -, -, hr⟩
  · exact absurd h1 hnew
  · rw [hr] at hres
    cases hres
    obtain ⟨-, hDE, hDirs, -⟩ := @FileManager.getFile_miss dirOf fs _ _ hmiss
    have hcache : mapFind (fm.getFile dirOf fs p).2.FileEntries p = some (some fm.Files.length) := by
      have := FileManager.mapFind_getFile dirOf fs fm p p
      rw [hr] at this
      simpa using this
    have hdcache : mapFind (fm.getFile dirOf fs p).2.DirEntries (dirOf p)
        = some (fm.getDirectory fs (dirOf p)).1 := by
      rw [hDE]
      simpa using FileManager.mapFind_getDirectory fs fm (dirOf p) (dirOf p)
    refine ⟨e, by rw [h1]; exact List.getElem?_concat_length _ _, hname, hdir, ?_, ?_, ?_⟩
    · intro fs2
      rw [FileManager.getDirectory_hit hdcache]
      exact hdir.symm
    · intro hfirst
      rcases FileManager.getDirectory_dirs fs fm (dirOf p) with h | ⟨hd, hD⟩
      · exact absurd h hfirst
      · refine ⟨fm.Dirs.length, hdir.trans hd, ?_⟩
        rw [hDirs, hD]
        exact List.getElem?_concat_length _ _
    · intro fs2
      rw [FileManager.getFile_hit hcache]
      exact ⟨rfl, rfl, rfl⟩

/-- Witness of C18: `getFile("../CMakeLists.txt")` has name `../CMakeLists.txt` and
directory name `..`, on the first and on the second call. -/
theorem getFile_first_seen_name_witness :
    (FileManager.ctor.getFile parentOf diskA pathCMake).1 = some 0 ∧
    (FileManager.ctor.getFile parentOf diskA pathCMake).2.Files ≠ FileManager.ctor.Files ∧
    ((FileManager.ctor.getFile parentOf diskA pathCMake).2.Files[0]?).map (·.getName)
      = some (some pathCMake) ∧
    ((FileManager.ctor.getFile parentOf diskA pathCMake).2.Files[0]?).map (·.getDir)
      = some (some 0) ∧
    ((FileManager.ctor.getFile parentOf diskA pathCMake).2.Dirs[0]?).map (·.getName)
      = some (some pathUp) ∧
    ((FileManager.ctor.getFile parentOf diskA pathCMake).2.getFile parentOf diskA pathCMake).1
      = some 0 ∧
    (∃ e, (FileManager.ctor.getFile parentOf diskA pathCMake).2.Files[0]? = some e ∧
      e.getName = some pathCMake) :=
  ⟨by decide, by decide, by decide, by decide, by decide, by decide,
    (getFile_first_seen_name parentOf FileManager.ctor diskA pathCMake 0 (by decide)
      (by decide)).imp (fun _ h => ⟨h.1, h.2.1⟩)⟩

/-- On a file manager satisfying its invariant, `getFile` answers absent without probing
the file when the directory part does not resolve. -/
theorem getFile_parent_failure_of_wf (dirOf : Path → Path) (fm : FileManager) (hwf : fm.WF dirOf)
    (fs : FileSystem) (p : Path) (hparent : (fm.getDirectory fs (dirOf p)).1 = none) :
    (fm.getFile dirOf fs p).1 = none ∧
    ((fm.getFile dirOf fs p).2.Probes = fm.Probes ∨
      (fm.getFile dirOf fs p).2.Probes = fm.Probes ++ [Probe.directory (dirOf p)]) ∧
    (fm.getFile dirOf fs p).2.Files = fm.Files ∧
    (fm.getFile dirOf fs p).2.UniqueFiles = fm.UniqueFiles ∧
    (fm.getFile dirOf fs p).2.NextFileUID = fm.NextFileUID := by
  cases hc : mapFind fm.FileEntries p with
  | some a =>
    rw [FileManager.getFile_hit hc]
    cases a with
    | none => exact ⟨rfl, Or.inl rfl, rfl, rfl, rfl⟩
    | some f =>
      obtain ⟨d, hd⟩ := hwf.2.parent_cached _ (mapFind_mem hc) f rfl
      rw [FileManager.getDirectory_hit hd] at hparent
      cases hparent
  | none =>
    rcases @FileManager.getFile_miss_cases dirOf fs _ _ hc with
      ⟨-, hr, h1, h2, h3, h4⟩ | ⟨⟨d, hd⟩, -⟩ | ⟨d, st, f, hd, -⟩ | ⟨d, st, hd, -⟩
    · refine ⟨hr, ?_, h1, h2, h3⟩
      rw [h4]
      exact FileManager.getDirectory_probes fs fm (dirOf p)
    · rw [hd] at hparent; cases hparent
    · rw [hd] at hparent; cases hparent
    · rw [hd] at hparent; cases hparent


/-- C19: in every session of a file manager (the state `fm` reached from the constructor by
any calls), when `getDirectory` on the directory part of `p` answers absent, `getFile(p)`
answers absent, makes no probe of the file (at most the directory probe of `getDirectory`),
allocates no `FileEntry` and assigns no UID. -/
theorem getFile_parent_failure (dirOf : Path → Path) (cs0 : List FileCall) (fm : FileManager)
    (hsession : fm = FileManager.ctor.run dirOf cs0)
    (fs : FileSystem) (p : Path) (hparent : (fm.getDirectory fs (dirOf p)).1 = none) :
    (fm.getFile dirOf fs p).1 = none ∧
    ((fm.getFile dirOf fs p).2.Probes = fm.Probes ∨
      (fm.getFile dirOf fs p).2.Probes = fm.Probes ++ [Probe.directory (dirOf p)]) ∧
    (fm.getFile dirOf fs p).2.Files = fm.Files ∧
    (fm.getFile dirOf fs p).2.UniqueFiles = fm.UniqueFiles ∧
    (fm.getFile dirOf fs p).2.NextFileUID = fm.NextFileUID :=
  getFile_parent_failure_of_wf dirOf fm
    (hsession ▸ FileManager.wf_run cs0 (FileManager.wf_ctor dirOf)) fs p hparent

/-- Witness of C19: the directory part `nodir` of `nodir/a.c` does not exist; `getFile`
answers absent after the single directory probe. -/
theorem getFile_parent_failure_witness :
    (FileManager.ctor.getDirectory diskA (parentOf pathNoDir)).1 = none ∧
    (FileManager.ctor.getFile parentOf diskA pathNoDir).1 = none ∧
    (FileManager.ctor.getFile parentOf diskA pathNoDir).2.Probes
      = [Probe.directory (parentOf pathNoDir)] ∧
    (FileManager.ctor.getFile parentOf diskA pathNoDir).2.Files = [] ∧
    (FileManager.ctor.getFile parentOf diskA pathNoDir).2.NextFileUID = 0 :=
  ⟨by decide,
    (getFile_parent_failure parentOf [] FileManager.ctor rfl diskA pathNoDir (by decide)).1,
    by decide, by decide, by decide⟩

/-! ## Keyword registration: writes through record pointers -/

theorem length_updateAt {α : Type} (l : List α) (i : Nat) (f : α → α) :
    (updateAt l i f).length = l.length := by
  induction l generalizing i with
  | nil => rfl
  | cons x l ih => cases i <;> simp [updateAt, ih]

theorem updateAt_updateAt_same {α : Type} (l : List α) (i : Nat) (f g : α → α) :
    updateAt (updateAt l i f) i g = updateAt l i (fun x => g (f x)) := by
  induction l generalizing i with
  | nil => rfl
  | cons x l ih => cases i <;> simp [updateAt, ih]

theorem updateAt_comm {α : Type} (l : List α) {i j : Nat} (f g : α → α) (h : i ≠ j) :
    updateAt (updateAt l i f) j g = updateAt (updateAt l j g) i f := by
  induction l generalizing i j with
  | nil => rfl
  | cons x l ih =>
    cases i with
    | zero =>
      cases j with
      | zero => exact absurd rfl h
      | succ j => simp [updateAt]
    | succ i =>
      cases j with
      | zero => simp [updateAt]
      | succ j =>
        have := @ih i j (by omega)
        simp [updateAt, this]

theorem updateAt_append_left {α : Type} {l : List α} (t : List α) {i : Nat} (f : α → α)
    (h : i < l.length) : updateAt (l ++ t) i f = updateAt l i f ++ t := by
  induction l generalizing i with
  | nil => simp at h
  | cons x l ih =>
    cases i with
    | zero => simp [updateAt]
    | succ i =>
      have := @ih i (by simpa using h)
      simp [updateAt, this]

namespace Session

variable {σ : Type}

theorem setTokenID_same (w : Session σ) (II : Ref) (k k2 : Nat) :
    (w.setTokenID II k).setTokenID II k2 = w.setTokenID II k2 := by
  cases II <;> simp [setTokenID, updateAt_updateAt_same, IdentifierInfo.setTokenID]

theorem setTokenID_comm (w : Session σ) {II II2 : Ref} (k k2 : Nat) (h : II ≠ II2) :
    (w.setTokenID II k).setTokenID II2 k2 = (w.setTokenID II2 k2).setTokenID II k := by
  cases II with
  | arena i =>
    cases II2 with
    | arena j =>
      have hij : i ≠ j := fun e => h (by rw [e])
      simp [setTokenID, updateAt_comm _ _ _ hij]
    | external j => simp [setTokenID]
  | external i =>
    cases II2 with
    | arena j => simp [setTokenID]
    | external j =>
      have hij : i ≠ j := fun e => h (by rw [e])
      simp [setTokenID, updateAt_comm _ _ _ hij]

/-- A write through a record pointer leaves the hash table, the external lookup and the
sizes of the two record memories as they are. -/
theorem setTokenID_frame (w : Session σ) (II : Ref) (k : Nat) :
    (w.setTokenID II k).HashTable = w.HashTable ∧
    (w.setTokenID II k).ExternalLookup = w.ExternalLookup ∧
    (w.setTokenID II k).Allocator.length = w.Allocator.length ∧
    (w.setTokenID II k).ExternalRecords.length = w.ExternalRecords.length := by
  cases II <;> simp [setTokenID, length_updateAt]

theorem find_setTokenID (w : Session σ) (II : Ref) (k : Nat) (Name : Spelling) :
    (w.setTokenID II k).find Name = w.find Name := by
  simp only [find, (setTokenID_frame w II k).1]

theorem deref_isSome_iff (w : Session σ) (II : Ref) :
    (w.deref II).isSome = true ↔
      match II with
      | .arena i => i < w.Allocator.length
      | .external i => i < w.ExternalRecords.length := by
  cases II with
  | arena i =>
    simp only [deref]
    constructor
    · intro h
      by_contra hc
      rw [List.getElem?_eq_none (by omega)] at h
      simp at h
    · intro h
      rw [List.getElem?_eq_getElem h]
      rfl
  | external i =>
    simp only [deref]
    constructor
    · intro h
      by_contra hc
      rw [List.getElem?_eq_none (by omega)] at h
      simp at h
    · intro h
      rw [List.getElem?_eq_getElem h]
      rfl

theorem deref_isSome_setTokenID (w : Session σ) (II : Ref) (k : Nat) (r : Ref) :
    ((w.setTokenID II k).deref r).isSome = true ↔ (w.deref r).isSome = true := by
  rw [deref_isSome_iff, deref_isSome_iff]
  obtain ⟨-, -, h3, h4⟩ := setTokenID_frame w II k
  cases r <;> simp [h3, h4]

theorem valid_setTokenID {w : Session σ} (II : Ref) (k : Nat) (h : w.Valid) :
    (w.setTokenID II k).Valid := by
  intro e he
  rw [(setTokenID_frame w II k).1] at he
  have := h e he
  cases hv : e.Value with
  | none => simp [hv] at this
  | some r =>
    simp only [hv, Option.some_bind] at this ⊢
    exact (deref_isSome_setTokenID w II k r).mpr this

/-- A write to an existing record commutes with `get`. -/
theorem get_setTokenID {w : Session σ} {II : Ref} (k : Nat) (Name : Spelling)
    (h : (w.deref II).isSome = true) :
    (w.setTokenID II k).get Name = ((w.get Name).1, (w.get Name).2.setTokenID II k) := by
  rw [deref_isSome_iff] at h
  cases hf : w.find Name with
  | some r =>
    rw [get_of_find hf, get_of_find ((find_setTokenID w II k Name).trans hf)]
  | none =>
    have hf2 := (find_setTokenID w II k Name).trans hf
    obtain ⟨h1, h2, h3, -⟩ := setTokenID_frame w II k
    cases hL : w.ExternalLookup with
    | none =>
      rw [get_of_no_external hf hL, get_of_no_external hf2 (h2.trans hL)]
      cases II with
      | arena i =>
        simp only at h
        simp [setTokenID, length_updateAt, updateAt_append_left _ _ h]
      | external i => simp [setTokenID]
    | some L =>
      have hX : (w.setTokenID II k).External = w.External := by cases II <;> rfl
      cases hA : (L.get w.External Name).1 with
      | some r =>
        rw [get_of_external_hit hf hL hA,
          get_of_external_hit hf2 (h2.trans hL) (by rw [hX]; exact hA)]
        cases II <;> simp [setTokenID]
      | none =>
        rw [get_of_external_miss hf hL hA,
          get_of_external_miss hf2 (h2.trans hL) (by rw [hX]; exact hA)]
        cases II with
        | arena i =>
          simp only at h
          simp [setTokenID, length_updateAt, updateAt_append_left _ _ h]
        | external i => simp [setTokenID]

/-- A record that exists still exists after `get`. -/
theorem deref_isSome_get {w : Session σ} {II : Ref} (Name : Spelling)
    (h : (w.deref II).isSome = true) : ((w.get Name).2.deref II).isSome = true := by
  cases hf : w.find Name with
  | some r => rw [get_of_find hf]; exact h
  | none =>
    cases hL : w.ExternalLookup with
    | none =>
      rw [get_of_no_external hf hL]
      rw [deref_isSome_iff] at h ⊢
      cases II <;> simp at h ⊢ <;> omega
    | some L =>
      cases hA : (L.get w.External Name).1 with
      | some r => rw [get_of_external_hit hf hL hA]; exact h
      | none =>
        rw [get_of_external_miss hf hL hA]
        rw [deref_isSome_iff] at h ⊢
        cases II <;> simp at h ⊢ <;> omega

theorem getAll_setTokenID (Names : List Spelling) {w : Session σ} {II : Ref} (k : Nat)
    (h : (w.deref II).isSome = true) :
    (w.setTokenID II k).getAll Names = (w.getAll Names).setTokenID II k := by
  induction Names generalizing w with
  | nil => rfl
  | cons Name Names ih =>
    simp only [getAll, List.foldl_cons]
    rw [get_setTokenID k Name h]
    exact ih (deref_isSome_get Name h)

theorem find_getAll (Names : List Spelling) {w : Session σ} {Name : Spelling} {II : Ref}
    (h : w.find Name = some II) : (w.getAll Names).find Name = some II := by
  induction Names generalizing w with
  | nil => exact h
  | cons s Names ih =>
    simp only [getAll, List.foldl_cons]
    refine ih ?_
    exact @find_call σ w (Call.get s) (w.get s) Name II rfl h

/-- After interning a list of spellings, each of them is bound. -/
theorem bound_getAll (Names : List Spelling) (w : Session σ) :
    ∀ Name ∈ Names, ∃ II, (w.getAll Names).find Name = some II := by
  induction Names generalizing w with
  | nil => intro Name h; simp at h
  | cons s Names ih =>
    intro Name hmem
    rw [List.mem_cons] at hmem
    simp only [getAll, List.foldl_cons]
    rcases hmem with rfl | hmem
    · refine ⟨(w.get Name).1, ?_⟩
      refine find_getAll Names ?_
      simpa using find_get w Name Name
    · exact ih (w.get s).2 Name hmem

theorem keywordWrites_setTokenID (w : Session σ) (II : Ref) (k : Nat) (ks : List Keyword) :
    (w.setTokenID II k).keywordWrites ks = w.keywordWrites ks := by
  simp only [keywordWrites, find_setTokenID]

theorem find_setAll (ws : List (Ref × Nat)) (w : Session σ) (Name : Spelling) :
    (w.setAll ws).find Name = w.find Name := by
  induction ws generalizing w with
  | nil => rfl
  | cons a ws ih =>
    simp only [setAll, List.foldl_cons]
    exact (ih (w.setTokenID a.1 a.2)).trans (find_setTokenID w a.1 a.2 Name)

theorem keywordWrites_setAll (ws : List (Ref × Nat)) (w : Session σ) (ks : List Keyword) :
    (w.setAll ws).keywordWrites ks = w.keywordWrites ks := by
  simp only [keywordWrites, find_setAll]

/-- A write is absorbed by a later write to the same record, whatever is written in
between. -/
theorem setAll_absorb (ws : List (Ref × Nat)) (w : Session σ) (a : Ref × Nat) (k : Nat) :
    ((w.setTokenID a.1 k).setAll ws).setTokenID a.1 a.2 = (w.setAll ws).setTokenID a.1 a.2 := by
  induction ws generalizing w with
  | nil => exact setTokenID_same w a.1 k a.2
  | cons b ws ih =>
    simp only [setAll, List.foldl_cons]
    by_cases hb : a.1 = b.1
    · rw [hb, setTokenID_same]
    · rw [setTokenID_comm w k b.2 hb]
      exact ih (w.setTokenID b.1 b.2)

/-- A list of `setTokenID` calls applied twice gives what it gives applied once. -/
theorem setAll_idempotent (ws : List (Ref × Nat)) (w : Session σ) :
    (w.setAll ws).setAll ws = w.setAll ws := by
  induction ws using List.reverseRecOn generalizing w with
  | nil => rfl
  | append_singleton ws a ih =>
    have hsnoc : ∀ x : Session σ, x.setAll (ws ++ [a]) = (x.setAll ws).setTokenID a.1 a.2 := by
      intro x
      simp [setAll, List.foldl_append]
    rw [hsnoc, hsnoc]
    have := setAll_absorb ws (w.setAll ws) a a.2
    rw [this, ih]

/-- The registration of a list of keywords, all active, one after the other. -/
theorem foldl_AddKeyword_filter (LangOpts : LangOptions) (ks : List Keyword) (w : Session σ) :
    ks.foldl (AddKeyword LangOpts) w =
      (ks.filter (fun kw => kw.Enabled LangOpts)).foldl
        (fun w1 kw => (w1.get kw.Name).2.setTokenID (w1.get kw.Name).1 kw.TokenKind) w := by
  induction ks generalizing w with
  | nil => rfl
  | cons kw ks ih =>
    by_cases hk : kw.Enabled LangOpts = true
    · simp [List.filter, hk, AddKeyword, ih]
    · simp [List.filter, hk, AddKeyword, ih]

/-- On a session in which the keywords are bound, registering them only writes token
kinds. -/
theorem register_of_bound (ks : List Keyword) (w : Session σ)
    (h : ∀ kw ∈ ks, ∃ II, w.find kw.Name = some II) :
    ks.foldl (fun w1 kw => (w1.get kw.Name).2.setTokenID (w1.get kw.Name).1 kw.TokenKind) w
      = w.setAll (w.keywordWrites ks) := by
  induction ks generalizing w with
  | nil => rfl
  | cons kw ks ih =>
    obtain ⟨II, hII⟩ := h kw (List.mem_cons_self _ _)
    have hrest : ∀ kw2 ∈ ks, ∃ r, (w.setTokenID II kw.TokenKind).find kw2.Name = some r := by
      intro kw2 hk
      rw [find_setTokenID]
      exact h kw2 (List.mem_cons_of_mem _ hk)
    simp only [List.foldl_cons, get_of_find hII]
    rw [ih _ hrest, keywordWrites_setTokenID]
    simp [keywordWrites, hII, setAll]

end Session

namespace Session

variable {σ : Type}

theorem updateAt_of_le {α : Type} {l : List α} {i : Nat} (f : α → α) (h : l.length ≤ i) :
    updateAt l i f = l := by
  induction l generalizing i with
  | nil => rfl
  | cons x l ih =>
    cases i with
    | zero => simp at h
    | succ i =>
      have := @ih i (by simpa using h)
      simp [updateAt, this]

/-- A write through a pointer to no existing record changes nothing. -/
theorem setTokenID_of_not_deref {w : Session σ} {II : Ref} (k : Nat)
    (h : ¬ (w.deref II).isSome = true) : w.setTokenID II k = w := by
  rw [deref_isSome_iff] at h
  cases II with
  | arena i =>
    simp only [Nat.not_lt] at h
    simp [setTokenID, updateAt_of_le _ h]
  | external i =>
    simp only [Nat.not_lt] at h
    simp [setTokenID, updateAt_of_le _ h]

/-- A write is absorbed by a list of writes that writes to the same record. -/
theorem setAll_absorb_mem (ws : List (Ref × Nat)) (w : Session σ) (II : Ref) (k : Nat)
    (h : ∃ a ∈ ws, a.1 = II) : (w.setTokenID II k).setAll ws = w.setAll ws := by
  induction ws generalizing w with
  | nil =>
    obtain ⟨a, ha, -⟩ := h
    cases ha
  | cons b ws ih =>
    simp only [setAll, List.foldl_cons]
    by_cases hb : II = b.1
    · rw [hb, setTokenID_same]
    · rw [setTokenID_comm w k b.2 hb]
      refine ih (w.setTokenID b.1 b.2) ?_
      obtain ⟨a, ha, ha1⟩ := h
      rw [List.mem_cons] at ha
      rcases ha with rfl | ha
      · exact absurd ha1.symm hb
      · exact ⟨a, ha, ha1⟩

/-- The allocator after `get`: unchanged, or one record longer, the new record being the
answer; the memory of external records is unchanged. -/
theorem allocator_get (w : Session σ) (Name : Spelling) :
    ((w.get Name).2.Allocator = w.Allocator ∨
      ((w.get Name).2.Allocator.length = w.Allocator.length + 1 ∧
        (w.get Name).1 = Ref.arena w.Allocator.length)) ∧
    (w.get Name).2.ExternalRecords = w.ExternalRecords := by
  cases hf : w.find Name with
  | some r => rw [get_of_find hf]; exact ⟨Or.inl rfl, rfl⟩
  | none =>
    cases hL : w.ExternalLookup with
    | none =>
      rw [get_of_no_external hf hL]
      exact ⟨Or.inr ⟨by simp, rfl⟩, rfl⟩
    | some L =>
      cases hA : (L.get w.External Name).1 with
      | some r => rw [get_of_external_hit hf hL hA]; exact ⟨Or.inl rfl, rfl⟩
      | none =>
        rw [get_of_external_miss hf hL hA]
        exact ⟨Or.inr ⟨by simp, rfl⟩, rfl⟩

theorem externalRecords_getAll (Names : List Spelling) (w : Session σ) :
    (w.getAll Names).ExternalRecords = w.ExternalRecords := by
  induction Names generalizing w with
  | nil => rfl
  | cons s Names ih =>
    simp only [getAll, List.foldl_cons]
    exact (ih (w.get s).2).trans (allocator_get w s).2

/-- Every record allocated while a list of spellings is interned is bound, at the end, to
one of these spellings. -/
theorem allocated_bound (Names : List Spelling) (w : Session σ) (m : Nat)
    (h1 : w.Allocator.length ≤ m) (h2 : m < (w.getAll Names).Allocator.length) :
    ∃ s ∈ Names, (w.getAll Names).find s = some (Ref.arena m) := by
  induction Names generalizing w with
  | nil =>
    simp only [getAll, List.foldl_nil] at h2
    omega
  | cons s Names ih =>
    simp only [getAll, List.foldl_cons] at h2 ⊢
    by_cases hm : (w.get s).2.Allocator.length ≤ m
    · obtain ⟨t, ht, hft⟩ := ih (w.get s).2 hm h2
      exact ⟨t, List.mem_cons_of_mem _ ht, hft⟩
    · have hfind : (w.get s).2.find s = some (w.get s).1 := by
        simpa using find_get w s s
      rcases (allocator_get w s).1 with heq | ⟨hlen, hr⟩
      · rw [heq] at hm
        omega
      · have hmeq : m = w.Allocator.length := by omega
        rw [hr, ← hmeq] at hfind
        exact ⟨s, List.mem_cons_self _ _, find_getAll Names hfind⟩

theorem mem_keywordWrites {w : Session σ} {ks : List Keyword} {kw : Keyword} {II : Ref}
    (hk : kw ∈ ks) (h : w.find kw.Name = some II) :
    (II, kw.TokenKind) ∈ w.keywordWrites ks := by
  simp only [keywordWrites, List.mem_filterMap]
  exact ⟨kw, hk, by simp [h]⟩

/-- Interning after a write, followed by the writes of the keywords, gives what the write
after interning gives: a write to a record that does not exist yet is made good by the write
of the keyword for which the record is allocated. -/
theorem getAll_setTokenID_setAll (ks : List Keyword) (w : Session σ) (II : Ref) (k : Nat) :
    ((w.setTokenID II k).getAll (ks.map (·.Name))).keywordWrites ks
      = (w.getAll (ks.map (·.Name))).keywordWrites ks ∧
    ((w.setTokenID II k).getAll (ks.map (·.Name))).setAll
        ((w.getAll (ks.map (·.Name))).keywordWrites ks)
      = ((w.getAll (ks.map (·.Name))).setTokenID II k).setAll
        ((w.getAll (ks.map (·.Name))).keywordWrites ks) := by
  by_cases hd : (w.deref II).isSome = true
  · rw [getAll_setTokenID _ _ hd, keywordWrites_setTokenID]
    exact ⟨rfl, rfl⟩
  · rw [setTokenID_of_not_deref k hd]
    refine ⟨rfl, ?_⟩
    by_cases hG : ((w.getAll (ks.map (·.Name))).deref II).isSome = true
    · have hd2 := hd
      rw [deref_isSome_iff] at hd2 hG
      cases II with
      | external i =>
        simp only at hd2 hG
        rw [externalRecords_getAll] at hG
        exact absurd hG hd2
      | arena m =>
        simp only [Nat.not_lt] at hd2
        simp only at hG
        obtain ⟨s, hs, hfs⟩ := allocated_bound (ks.map (·.Name)) w m hd2 hG
        obtain ⟨kw, hkw, rfl⟩ := List.mem_map.mp hs
        exact (setAll_absorb_mem _ _ _ k ⟨_, mem_keywordWrites hkw hfs, rfl⟩).symm
    · rw [setTokenID_of_not_deref k hG]

/-- Registering keywords amounts to interning all of them and then writing all the token
kinds, on every session. -/
theorem register_eq_all (ks : List Keyword) (w : Session σ) :
    ks.foldl (fun w1 kw => (w1.get kw.Name).2.setTokenID (w1.get kw.Name).1 kw.TokenKind) w
      = (w.getAll (ks.map (·.Name))).setAll
          ((w.getAll (ks.map (·.Name))).keywordWrites ks) := by
  induction ks generalizing w with
  | nil => rfl
  | cons kw ks ih =>
    have hfind : (w.get kw.Name).2.find kw.Name = some (w.get kw.Name).1 := by
      simpa using find_get w kw.Name kw.Name
    have hG := find_getAll (ks.map (·.Name)) hfind
    obtain ⟨h1, h2⟩ := getAll_setTokenID_setAll ks (w.get kw.Name).2 (w.get kw.Name).1
      kw.TokenKind
    simp only [List.foldl_cons, List.map_cons]
    rw [ih, h1, h2]
    have hg : w.getAll (kw.Name :: ks.map (·.Name))
        = (w.get kw.Name).2.getAll (ks.map (·.Name)) := rfl
    rw [hg]
    simp [keywordWrites, hG, setAll]

end Session

/-- C20: for every identifier table state, every keyword list and every language
configuration, calling `AddKeywords(config)` twice in a row leaves the session (the bound
spellings, the record each is bound to, every field of every record, the external state and
the list of external queries) exactly as calling it once. -/
theorem AddKeywords_idempotent {σ : Type} (Keywords : List Keyword) (w : Session σ)
    (LangOpts : LangOptions) :
    (w.AddKeywords Keywords LangOpts).AddKeywords Keywords LangOpts
      = w.AddKeywords Keywords LangOpts := by
  simp only [Session.AddKeywords, Session.foldl_AddKeyword_filter]
  rw [Session.register_eq_all _ w]
  have hbound : ∀ kw ∈ Keywords.filter (fun kw => kw.Enabled LangOpts),
      ∃ II, ((w.getAll ((Keywords.filter (fun kw => kw.Enabled LangOpts)).map (·.Name))).setAll
        ((w.getAll ((Keywords.filter (fun kw => kw.Enabled LangOpts)).map
          (·.Name))).keywordWrites (Keywords.filter (fun kw => kw.Enabled LangOpts)))).find
            kw.Name = some II := by
    intro kw hk
    rw [Session.find_setAll]
    exact Session.bound_getAll _ w kw.Name (List.mem_map_of_mem _ hk)
  rw [Session.register_of_bound _ _ hbound, Session.keywordWrites_setAll,
    Session.setAll_idempotent]

/-- Instances of C20: on a table with `fooSource` as external lookup, the keyword list
registers `if` in a table record and `foo`, twice, in the external record, and a second
`AddKeywords` changes nothing; the same holds on a table whose lookup answers `foo` with a
record of the table itself, the one allocated for `if`, which ends with the kind of `foo`;
and with the keyword list reversed, where the lookup answers `foo` with a pointer to a record
that does not exist yet and that `if` allocates afterwards. -/
theorem AddKeywords_idempotent_witness :
    ((fooSession.AddKeywords sampleKeywords LangOptions.ctor).deref (Ref.external 0)).map
      (·.getTokenID) = some 13 ∧
    (fooSession.AddKeywords sampleKeywords LangOptions.ctor).find kwBool = none ∧
    (fooSession.AddKeywords sampleKeywords LangOptions.ctor).AddKeywords sampleKeywords
      LangOptions.ctor = fooSession.AddKeywords sampleKeywords LangOptions.ctor ∧
    (selfSession.AddKeywords sampleKeywords LangOptions.ctor).AddKeywords sampleKeywords
      LangOptions.ctor = selfSession.AddKeywords sampleKeywords LangOptions.ctor ∧
    ((selfSession.AddKeywords sampleKeywords LangOptions.ctor).Allocator.map
      (·.getTokenID)) = [4, 13] ∧
    (selfSession.get foo).1 = Ref.arena 1 ∧
    ((selfSession.get foo).2.deref (Ref.arena 1)).isSome = false ∧
    (selfSession.AddKeywords sampleKeywords.reverse LangOptions.ctor).AddKeywords
      sampleKeywords.reverse LangOptions.ctor
        = selfSession.AddKeywords sampleKeywords.reverse LangOptions.ctor ∧
    ((selfSession.AddKeywords sampleKeywords.reverse LangOptions.ctor).Allocator.map
      (·.getTokenID)) = [4, 10] :=
  ⟨by decide, by decide,
    AddKeywords_idempotent sampleKeywords fooSession LangOptions.ctor,
    AddKeywords_idempotent sampleKeywords selfSession LangOptions.ctor,
    by decide, by decide, by decide,
    AddKeywords_idempotent sampleKeywords.reverse selfSession LangOptions.ctor,
    by decide⟩

/-! ## Claims about `isStr` and the fields of the record -/

/-- The comparison of a key with the first bytes of a buffer that holds a literal of the
same length. -/
theorem memcmp_eq_zero_iff (s L t : List Byte) (h : s.length = L.length) :
    memcmp s (L ++ t) s.length = 0 ↔ s = L := by
  induction s generalizing L with
  | nil =>
    cases L with
    | nil => simp [memcmp]
    | cons b bs => simp at h
  | cons a as ih =>
    cases L with
    | nil => simp at h
    | cons b bs =>
      have hlen : as.length = bs.length := by simpa using h
      by_cases hab : a = b
      · subst hab
        simpa [memcmp] using ih bs hlen
      · by_cases hlt : a < b
        · simp [memcmp, hab, hlt]
        · simp [memcmp, hab, hlt]

/-- C21: for a record bound to a hash-table slot with spelling `s` and a string literal `L`
(the array `L` followed by its terminating NUL), `isStr` returns true if and only if `s` has
the length of `L` and the same bytes; it is false when `L` is a proper prefix or a proper
extension of `s`. -/
theorem isStr_iff_spelling (I : IdentifierInfo) (HashTable : List StringMapEntry) (e : Nat)
    (s : Spelling) (v : Option Ref) (L : List Byte) (hEntry : I.Entry = some e)
    (hslot : HashTable[e]? = some { Key := s, Value := v }) :
    (I.isStr HashTable (L ++ [0]) = true ↔ (s.length = L.length ∧ s = L)) ∧
    (L <+: s → L ≠ s → I.isStr HashTable (L ++ [0]) = false) ∧
    (s <+: L → s ≠ L → I.isStr HashTable (L ++ [0]) = false) := by
  have hname : I.getName HashTable = some s := by
    simp [IdentifierInfo.getName, hEntry, hslot]
  have hlen : I.getLength HashTable = s.length := by
    simp [IdentifierInfo.getLength, hEntry, hslot]
  have key : I.isStr HashTable (L ++ [0]) = true ↔ (s.length = L.length ∧ s = L) := by
    simp only [IdentifierInfo.isStr, hname, hlen, Option.getD_some, List.length_append,
      List.length_singleton, Nat.add_sub_cancel, Bool.and_eq_true, decide_eq_true_eq]
    constructor
    · rintro ⟨h1, h2⟩
      rw [← h1] at h2
      exact ⟨h1, (memcmp_eq_zero_iff s L [0] h1).mp h2⟩
    · rintro ⟨h1, h2⟩
      refine ⟨h1, ?_⟩
      rw [← h1]
      exact (memcmp_eq_zero_iff s L [0] h1).mpr h2
  refine ⟨key, ?_, ?_⟩
  · intro _ hne
    rw [Bool.eq_false_iff]
    intro h
    exact hne (key.mp h).2.symm
  · intro _ hne
    rw [Bool.eq_false_iff]
    intro h
    exact hne (key.mp h).2

/-- Witness of C21: the record interned for `foo` answers true for the literal `foo` and
false for `fo`, `fooo` and `Foo`. -/
theorem isStr_iff_spelling_witness :
    (emptySession.get foo).2.Allocator[0]? = some
      { IdentifierInfo.ctor 4 with Entry := some 0 } ∧
    (emptySession.get foo).2.HashTable[0]? = some { Key := foo, Value := some (Ref.arena 0) } ∧
    IdentifierInfo.isStr { IdentifierInfo.ctor 4 with Entry := some 0 }
      (emptySession.get foo).2.HashTable (foo ++ [0]) = true ∧
    IdentifierInfo.isStr { IdentifierInfo.ctor 4 with Entry := some 0 }
      (emptySession.get foo).2.HashTable (fo ++ [0]) = false ∧
    IdentifierInfo.isStr { IdentifierInfo.ctor 4 with Entry := some 0 }
      (emptySession.get foo).2.HashTable (fooo ++ [0]) = false ∧
    IdentifierInfo.isStr { IdentifierInfo.ctor 4 with Entry := some 0 }
      (emptySession.get foo).2.HashTable (fooUpper ++ [0]) = false :=
  ⟨by decide, by decide,
    (isStr_iff_spelling _ _ 0 foo (some (Ref.arena 0)) foo rfl (by decide)).1.mpr ⟨rfl, rfl⟩,
    (isStr_iff_spelling _ _ 0 foo (some (Ref.arena 0)) fo rfl (by decide)).2.1 (by decide)
      (by decide),
    (isStr_iff_spelling _ _ 0 foo (some (Ref.arena 0)) fooo rfl (by decide)).2.2 (by decide)
      (by decide),
    by decide⟩

/-- C22: each of the three flag setters leaves `TokenID`, `BuiltinID`, `FETokenInfo`, `Entry`
and the other two flags unchanged; `setTokenID`, `setBuiltinID` (for any argument, 1024 or
more included) and `setFETokenInfo` leave the four boolean bits and every field other than
their own unchanged. -/
theorem setter_field_independence (I : IdentifierInfo) (v : Bool) (ID : Nat) (T : VoidPtr) :
    ((I.setHasMacroDefinition v).TokenID = I.TokenID ∧
      (I.setHasMacroDefinition v).BuiltinID = I.BuiltinID ∧
      (I.setHasMacroDefinition v).FETokenInfo = I.FETokenInfo ∧
      (I.setHasMacroDefinition v).Entry = I.Entry ∧
      (I.setHasMacroDefinition v).IsExtension = I.IsExtension ∧
      (I.setHasMacroDefinition v).IsPoisoned = I.IsPoisoned) ∧
    ((I.setIsExtensionToken v).TokenID = I.TokenID ∧
      (I.setIsExtensionToken v).BuiltinID = I.BuiltinID ∧
      (I.setIsExtensionToken v).FETokenInfo = I.FETokenInfo ∧
      (I.setIsExtensionToken v).Entry = I.Entry ∧
      (I.setIsExtensionToken v).HasMacro = I.HasMacro ∧
      (I.setIsExtensionToken v).IsPoisoned = I.IsPoisoned) ∧
    ((I.setIsPoisoned v).TokenID = I.TokenID ∧
      (I.setIsPoisoned v).BuiltinID = I.BuiltinID ∧
      (I.setIsPoisoned v).FETokenInfo = I.FETokenInfo ∧
      (I.setIsPoisoned v).Entry = I.Entry ∧
      (I.setIsPoisoned v).HasMacro = I.HasMacro ∧
      (I.setIsPoisoned v).IsExtension = I.IsExtension) ∧
    ((I.setTokenID ID).BuiltinID = I.BuiltinID ∧
      (I.setTokenID ID).HasMacro = I.HasMacro ∧
      (I.setTokenID ID).IsExtension = I.IsExtension ∧
      (I.setTokenID ID).IsPoisoned = I.IsPoisoned ∧
      (I.setTokenID ID).NeedsHandleIdentifier = I.NeedsHandleIdentifier ∧
      (I.setTokenID ID).FETokenInfo = I.FETokenInfo ∧
      (I.setTokenID ID).Entry = I.Entry) ∧
    ((I.setBuiltinID ID).TokenID = I.TokenID ∧
      (I.setBuiltinID ID).HasMacro = I.HasMacro ∧
      (I.setBuiltinID ID).IsExtension = I.IsExtension ∧
      (I.setBuiltinID ID).IsPoisoned = I.IsPoisoned ∧
      (I.setBuiltinID ID).NeedsHandleIdentifier = I.NeedsHandleIdentifier ∧
      (I.setBuiltinID ID).FETokenInfo = I.FETokenInfo ∧
      (I.setBuiltinID ID).Entry = I.Entry) ∧
    ((I.setFETokenInfo T).TokenID = I.TokenID ∧
      (I.setFETokenInfo T).BuiltinID = I.BuiltinID ∧
      (I.setFETokenInfo T).HasMacro = I.HasMacro ∧
      (I.setFETokenInfo T).IsExtension = I.IsExtension ∧
      (I.setFETokenInfo T).IsPoisoned = I.IsPoisoned ∧
      (I.setFETokenInfo T).NeedsHandleIdentifier = I.NeedsHandleIdentifier ∧
      (I.setFETokenInfo T).Entry = I.Entry) := by
  refine ⟨?_, ?_, ?_, ⟨rfl, rfl, rfl, rfl, rfl, rfl, rfl⟩,
    ⟨rfl, rfl, rfl, rfl, rfl, rfl, rfl⟩, ⟨rfl, rfl, rfl, rfl, rfl, rfl, rfl⟩⟩
  · unfold IdentifierInfo.setHasMacroDefinition
    split
    · exact ⟨rfl, rfl, rfl, rfl, rfl, rfl⟩
    · cases v <;> exact ⟨rfl, rfl, rfl, rfl, rfl, rfl⟩
  · unfold IdentifierInfo.setIsExtensionToken
    cases v <;> exact ⟨rfl, rfl, rfl, rfl, rfl, rfl⟩
  · unfold IdentifierInfo.setIsPoisoned
    cases v <;> exact ⟨rfl, rfl, rfl, rfl, rfl, rfl⟩

/-! ## The external lookup is queried once per spelling -/

namespace Session

variable {σ : Type}

/-- A call either makes no query, or is a `get` of a spelling that is not bound and makes
the single query of that spelling. -/
theorem queries_call {w : Session σ} {c : Call} {res : Ref × Session σ}
    (hc : w.call c = .ok res) :
    res.2.Queries = w.Queries ∨
    ∃ Name, c = Call.get Name ∧ res.2.Queries = w.Queries ++ [Name] ∧ w.find Name = none := by
  cases c with
  | get Name =>
    simp only [call, Except.ok.injEq] at hc
    subst hc
    cases hf : w.find Name with
    | some II => rw [get_of_find hf]; exact Or.inl rfl
    | none =>
      cases hL : w.ExternalLookup with
      | none => rw [get_of_no_external hf hL]; exact Or.inl rfl
      | some L =>
        cases hA : (L.get w.External Name).1 with
        | some II =>
          rw [get_of_external_hit hf hL hA]
          exact Or.inr ⟨Name, rfl, rfl, hf⟩
        | none =>
          rw [get_of_external_miss hf hL hA]
          exact Or.inr ⟨Name, rfl, rfl, hf⟩
  | CreateIdentifierInfo Name =>
    simp only [call] at hc
    cases hf : w.find Name with
    | some r => rw [CreateIdentifierInfo_of_find hf] at hc; cases hc
    | none =>
      rw [CreateIdentifierInfo_of_not_find hf] at hc
      cases hc
      exact Or.inl rfl

/-- A spelling that is not bound after a call was not bound before it. -/
theorem find_none_of_call {w : Session σ} {c : Call} {res : Ref × Session σ} {Name : Spelling}
    (hc : w.call c = .ok res) (h : res.2.find Name = none) : w.find Name = none := by
  cases hf : w.find Name with
  | none => rfl
  | some II =>
    rw [find_call hc hf] at h
    cases h

/-- The queries made during a sequence of calls: no spelling twice, and only spellings that
were not bound at the start and are bound at the end. -/
theorem queries_run {cs : List Call} {w w2 : Session σ} (hrun : w.run cs = .ok w2) :
    ∃ qs, w2.Queries = w.Queries ++ qs ∧ qs.Nodup ∧
      ∀ t ∈ qs, w.find t = none ∧ (w2.find t).isSome = true := by
  induction cs generalizing w with
  | nil =>
    simp only [run, Except.ok.injEq] at hrun
    subst hrun
    exact ⟨[], by simp, List.nodup_nil, by simp⟩
  | cons c cs ih =>
    simp only [run] at hrun
    cases hc : w.call c with
    | error e => rw [hc] at hrun; cases hrun
    | ok res =>
      rw [hc] at hrun
      obtain ⟨qs, hq, hnd, hall⟩ := ih hrun
      rcases queries_call hc with h0 | ⟨Name, hget, h1, hf⟩
      · refine ⟨qs, by rw [hq, h0], hnd, ?_⟩
        intro t ht
        exact ⟨find_none_of_call hc (hall t ht).1, (hall t ht).2⟩
      · have hbound : res.2.find Name = some res.1 := by
          subst hget
          simp only [call, Except.ok.injEq] at hc
          subst hc
          simpa using find_get w Name Name
        refine ⟨Name :: qs, by rw [hq, h1]; simp, ?_, ?_⟩
        · rw [List.nodup_cons]
          refine ⟨?_, hnd⟩
          intro hmem
          rw [(hall Name hmem).1] at hbound
          cases hbound
        · intro t ht
          rw [List.mem_cons] at ht
          rcases ht with rfl | ht
          · refine ⟨hf, ?_⟩
            rw [find_run hrun hbound]
            rfl
          · exact ⟨find_none_of_call hc (hall t ht).1, (hall t ht).2⟩

end Session

/-- C23: along every sequence of calls that begins with `get(s)`, whatever the external
lookup, the queries made form a list without repetition, of spellings that were not bound
when the sequence began; `s` is queried by the first `get(s)` at most, and only if it was
not bound; afterwards `s` stays bound to the record the first `get(s)` returned and a later
`get(s)` makes no query. In particular, when the external lookup answered null the first
time, `s` stays bound to the record allocated then, whatever the lookup would answer
later. -/
theorem external_lookup_queried_once {σ : Type} (w w2 : Session σ) (Name : Spelling)
    (cs : List Call) (hrun : (w.get Name).2.run cs = .ok w2) :
    (∃ qs, w2.Queries = w.Queries ++ qs ∧ qs.Nodup ∧ ∀ t ∈ qs, w.find t = none) ∧
    ((w.get Name).2.Queries = w.Queries ∨
      ((w.get Name).2.Queries = w.Queries ++ [Name] ∧ w.find Name = none)) ∧
    (∃ qs, w2.Queries = (w.get Name).2.Queries ++ qs ∧ Name ∉ qs) ∧
    (w2.find Name = some (w.get Name).1 ∧ (w2.get Name).1 = (w.get Name).1 ∧
      (w2.get Name).2.Queries = w2.Queries) ∧
    (∀ L, w.find Name = none → w.ExternalLookup = some L →
      (L.get w.External Name).1 = none →
      (w.get Name).1 = Ref.arena w.Allocator.length ∧
      (w2.get Name).1 = Ref.arena w.Allocator.length) := by
  have hbound : (w.get Name).2.find Name = some (w.get Name).1 := by
    simpa using Session.find_get w Name Name
  have hbound2 := Session.find_run hrun hbound
  have hlater : (w2.get Name).1 = (w.get Name).1 ∧ (w2.get Name).2.Queries = w2.Queries := by
    rw [Session.get_of_find hbound2]
    exact ⟨rfl, rfl⟩
  have hall : w.run (Call.get Name :: cs) = .ok w2 := by
    simpa [Session.run, Session.call] using hrun
  refine ⟨?_, ?_, ?_, ⟨hbound2, hlater⟩, ?_⟩
  · obtain ⟨qs, hq, hnd, hq2⟩ := Session.queries_run hall
    exact ⟨qs, hq, hnd, fun t ht => (hq2 t ht).1⟩
  · rcases @Session.queries_call σ w (Call.get Name) (w.get Name) rfl with
      h0 | ⟨t, ht, h1, hf⟩
    · exact Or.inl h0
    · cases ht
      exact Or.inr ⟨h1, hf⟩
  · obtain ⟨qs, hq, -, hq2⟩ := Session.queries_run hrun
    refine ⟨qs, hq, ?_⟩
    intro hmem
    rw [(hq2 Name hmem).1] at hbound
    cases hbound
  · intro L hf hL hA
    have h1 : (w.get Name).1 = Ref.arena w.Allocator.length := by
      rw [Session.get_of_external_miss hf hL hA]
    exact ⟨h1, hlater.1.trans h1⟩

/-- Witness of C23: `lateSource` answers null for `foo` the first time and would return its
own record later; `foo` stays bound to the table's record 0, and after three more calls the
queries are `foo` and `bar`, once each. -/
theorem external_lookup_queried_once_witness :
    (lateSession.get foo).2.run [Call.get bar, Call.get foo, Call.get bar]
      = .ok ((lateSession.get foo).2.outcome [Call.get bar, Call.get foo, Call.get bar]) ∧
    (lateSource.get lateSession.External foo).1 = none ∧
    (lateSource.get
      ((lateSession.get foo).2.outcome [Call.get bar, Call.get foo, Call.get bar]).External
      foo).1 = some (Ref.external 0) ∧
    ((lateSession.get foo).2.outcome [Call.get bar, Call.get foo, Call.get bar]).Queries
      = [foo, bar] ∧
    (((lateSession.get foo).2.outcome [Call.get bar, Call.get foo, Call.get bar]).get foo).1
      = Ref.arena 0 :=
  ⟨rfl, by decide, by decide, by decide,
    ((external_lookup_queried_once lateSession _ foo
      [Call.get bar, Call.get foo, Call.get bar] rfl).2.2.2.2 lateSource (by decide) rfl
      (by decide)).2⟩

/-! ## Exact-byte keying -/

/-- On a table without external lookup whose slots hold pointers to existing records, `get`
returns one record for two different spellings exactly when the table binds both to that
record already. -/
theorem Session.get_eq_iff_shared {σ : Type} (w : Session σ) (s1 s2 : Spelling)
    (hL : w.ExternalLookup = none) (hv : w.Valid) (hs : s1 ≠ s2) :
    (w.get s1).1 = ((w.get s1).2.get s2).1 ↔
      ∃ r, w.find s1 = some r ∧ w.find s2 = some r := by
  have hfind : (w.get s1).2.find s1 = some (w.get s1).1 := by
    simpa using Session.find_get w s1 s1
  have hfind2 : (w.get s1).2.find s2 = w.find s2 := by
    rw [Session.find_get w s1 s2, if_neg (Ne.symm hs)]
  have hv1 : (w.get s1).2.Valid :=
    Session.valid_get hv (fun L II h _ => by rw [hL] at h; cases h)
  have hL1 : (w.get s1).2.ExternalLookup = none := (Session.externalLookup_get w s1).trans hL
  constructor
  · intro heq
    cases hf2 : (w.get s1).2.find s2 with
    | some r =>
      rw [Session.get_of_find hf2] at heq
      simp only at heq
      rw [← heq, hfind2] at hf2
      cases hf1 : w.find s1 with
      | some r0 =>
        rw [Session.get_of_find hf1] at hf2
        exact ⟨r0, rfl, hf2⟩
      | none =>
        rw [Session.get_of_no_external hf1 hL] at hf2
        have := Session.deref_isSome_of_find hv hf2
        rw [Session.deref_arena_length] at this
        simp at this
    | none =>
      rw [Session.get_of_no_external hf2 hL1] at heq
      simp only at heq
      have := Session.deref_isSome_of_find hv1 hfind
      rw [heq, Session.deref_arena_length] at this
      simp at this
  · rintro ⟨r, h1, h2⟩
    rw [Session.get_of_find h1]
    simp only
    rw [Session.get_of_find h2]

/-- C12, as stated, fails: the table of this counterexample is reached by `get("foo")` and
`get("bar")` under an external lookup that answers both with one record, followed by
`setExternalIdentifierLookup(nullptr)`. It has no external lookup configured, every slot
holds a pointer to an existing record, `foo` and `bar` are not byte-identical, and `get`
returns the same record for both. -/
theorem get_keying_shared_counterexample :
    sharedNoLookup.ExternalLookup = none ∧
    sharedNoLookup.Valid ∧
    foo ≠ bar ∧
    sharedNoLookup.find foo = some (Ref.external 0) ∧
    sharedNoLookup.find bar = some (Ref.external 0) ∧
    (sharedNoLookup.get foo).1 = ((sharedNoLookup.get foo).2.get bar).1 ∧
    ¬ ((sharedNoLookup.get foo).1 = ((sharedNoLookup.get foo).2.get bar).1 ↔ foo = bar) :=
  ⟨rfl, by decide, by decide, by decide, by decide, by decide, by decide⟩

/-- C12, amended: on every table with no external lookup configured whose slots hold
pointers to existing records, and for every two spellings `s1` and `s2` that are not
byte-identical, `get(s1)` and `get(s2)` return the same record if and only if the table
already binds `s1` and `s2` to one and the same record. Hence, when the table binds no two
spellings to one record, `get(s1)` and `get(s2)` return different records for spellings that
are not byte-identical, and the same record if and only if `s1` and `s2` have the same length
and the same bytes. No two spellings are bound to one record in any table built from an empty
table without external lookup by `get` and `CreateIdentifierInfo`; this property, the
existence of the bound records and the absence of a lookup are kept by `get` and by every
write of a token kind to a record, whatever the records hold. -/
theorem get_exact_byte_keying {σ : Type} (w : Session σ) (s1 s2 : Spelling)
    (hL : w.ExternalLookup = none) (hv : w.Valid) :
    (s1 ≠ s2 → ((w.get s1).1 = ((w.get s1).2.get s2).1 ↔
      ∃ r, w.find s1 = some r ∧ w.find s2 = some r)) ∧
    (w.Injective →
      (s1 ≠ s2 → (w.get s1).1 ≠ ((w.get s1).2.get s2).1) ∧
      ((w.get s1).1 = ((w.get s1).2.get s2).1 ↔ s1 = s2) ∧
      ((w.get s1).1 = ((w.get s1).2.get s2).1 ↔
        (s1.length = s2.length ∧ ∀ i : Nat, s1[i]? = s2[i]?))) ∧
    (∀ (w0 : Session σ) (cs : List Call), w0.HashTable = [] → w0.ExternalLookup = none →
      w0.run cs = .ok w → w.Injective) ∧
    (w.Injective → ∀ s : Spelling, (w.get s).2.ExternalLookup = none ∧ (w.get s).2.Valid ∧
      (w.get s).2.Injective) ∧
    (∀ (II : Ref) (ID : Nat), (w.setTokenID II ID).ExternalLookup = none ∧
      (w.setTokenID II ID).Valid ∧ ((w.setTokenID II ID).Injective ↔ w.Injective)) := by
  refine ⟨Session.get_eq_iff_shared w s1 s2 hL hv,
    fun hinj => get_keying_of_injective w s1 s2 hL hv hinj, ?_, ?_, ?_⟩
  · intro w0 cs hempty hL0 hrun
    have hv0 : w0.Valid := by
      intro e he
      rw [hempty] at he
      cases he
    have hinj0 : w0.Injective := by
      intro s s2 r hs
      simp [Session.find, StringMap.lookup, hempty, StringMap.findSlot] at hs
    exact (Session.injective_run hv0 hinj0 hL0 hrun).2.1
  · intro hinj s
    exact ⟨(Session.externalLookup_get w s).trans hL,
      Session.valid_get hv (fun L II h _ => by rw [hL] at h; cases h),
      Session.injective_get hv hinj hL⟩
  · intro II ID
    refine ⟨(Session.setTokenID_frame w II ID).2.1.trans hL, Session.valid_setTokenID II ID hv,
      ?_⟩
    simp only [Session.Injective, Session.find_setTokenID]

/-- Witness of C12: on the table obtained from the empty one by interning `bar`, which has no
lookup, holds pointers to existing records and binds no two spellings to one record, `foo`
and `Foo` (letter case) and `fo` and `foo` (proper prefix) get different records; on the
table of the counterexample `foo` and `bar` get the same record, both being bound to it. -/
theorem get_exact_byte_keying_witness :
    (emptySession.get bar).2.ExternalLookup = none ∧
    (emptySession.get bar).2.Valid ∧
    (emptySession.get bar).2.Injective ∧
    ((emptySession.get bar).2.get foo).1
      ≠ (((emptySession.get bar).2.get foo).2.get fooUpper).1 ∧
    ((emptySession.get bar).2.get fo).1
      ≠ (((emptySession.get bar).2.get fo).2.get foo).1 ∧
    ((sharedNoLookup.get foo).1 = ((sharedNoLookup.get foo).2.get bar).1 ↔
      ∃ r, sharedNoLookup.find foo = some r ∧ sharedNoLookup.find bar = some r) :=
  ⟨rfl, by decide, Session.injective_of_distinctRecords (by decide),
    ((get_exact_byte_keying (emptySession.get bar).2 foo fooUpper rfl (by decide)).2.1
      (Session.injective_of_distinctRecords (by decide))).1 (by decide),
    ((get_exact_byte_keying (emptySession.get bar).2 fo foo rfl (by decide)).2.1
      (Session.injective_of_distinctRecords (by decide))).1 (by decide),
    (get_exact_byte_keying sharedNoLookup foo bar rfl (by decide)).1 (by decide)⟩

/-! ## The name of the returned record -/

theorem getElem?_updateAt {α : Type} (l : List α) (i j : Nat) (f : α → α) :
    (updateAt l i f)[j]? = (l[j]?).map (fun x => if j = i then f x else x) := by
  induction l generalizing i j with
  | nil => simp [updateAt]
  | cons x l ih =>
    cases i with
    | zero =>
      cases j with
      | zero => simp [updateAt]
      | succ j => simp [updateAt]
    | succ i =>
      cases j with
      | zero => simp [updateAt]
      | succ j => simp [updateAt, ih]

namespace StringMap

/-- Storing a record in a slot changes no key. -/
theorem key_setValue (H : List StringMapEntry) (i j : Nat) (II : Ref) :
    ((setValue H i II)[j]?).map (·.Key) = (H[j]?).map (·.Key) := by
  by_cases h : j = i
  · subst h
    cases he : H[j]? with
    | none =>
      have : (setValue H j II)[j]? = none := by
        rw [List.getElem?_eq_none_iff] at he ⊢
        rw [length_setValue]
        exact he
      rw [this]
    | some e => rw [getElem?_setValue_self II he]; rfl
  · rw [getElem?_setValue_ne H II h]

/-- The slots that exist keep their place and their key when a spelling is bound. -/
theorem key_bindSlot (H : List StringMapEntry) (Name : Spelling) (II : Ref) {j : Nat}
    {e : StringMapEntry} (h : H[j]? = some e) :
    ((setValue (GetOrCreateValue H Name).2 (GetOrCreateValue H Name).1 II)[j]?).map (·.Key)
      = some e.Key := by
  rw [key_setValue]
  unfold GetOrCreateValue
  cases hf : findSlot H Name with
  | some i => simp [h]
  | none =>
    have hj : j < H.length := (List.getElem?_eq_some_iff.mp h).1
    simp [List.getElem?_append_left hj, h]

end StringMap

namespace Session

variable {σ : Type}

/-- A name is kept when the slots keep their keys and the record stays in place with its
back-reference. -/
theorem namedAs_mono {w w1 : Session σ} {II : Ref} {Name : Spelling}
    (hk : ∀ (j : Nat) (e : StringMapEntry), w.HashTable[j]? = some e →
      (w1.HashTable[j]?).map (·.Key) = some e.Key)
    (hd : ∀ I, w.deref II = some I → ∃ I1, w1.deref II = some I1 ∧ I1.Entry = I.Entry)
    (h : w.NamedAs II Name) : w1.NamedAs II Name := by
  obtain ⟨I, hI, hn, -⟩ := h
  obtain ⟨I1, hI1, hE⟩ := hd I hI
  refine ⟨I1, hI1, ?_⟩
  unfold IdentifierInfo.getName at hn
  unfold IdentifierInfo.getName IdentifierInfo.getLength
  rw [hE]
  cases hEntry : I.Entry with
  | none => simp [hEntry] at hn
  | some i =>
    simp only [hEntry] at hn
    cases hH : w.HashTable[i]? with
    | none => simp [hH] at hn
    | some e =>
      simp only [hH, Option.map_some', Option.some.injEq] at hn
      have := hk i e hH
      cases hH1 : w1.HashTable[i]? with
      | none => simp [hH1] at this
      | some e1 =>
        simp only [hH1, Option.map_some', Option.some.injEq] at this
        simp [hH1, this, hn]

theorem keys_get (w : Session σ) (Name : Spelling) {j : Nat} {e : StringMapEntry}
    (h : w.HashTable[j]? = some e) :
    ((w.get Name).2.HashTable[j]?).map (·.Key) = some e.Key := by
  cases hf : w.find Name with
  | some r => rw [get_of_find hf]; simp [h]
  | none =>
    cases hL : w.ExternalLookup with
    | none =>
      rw [get_of_no_external hf hL]
      exact StringMap.key_bindSlot _ _ _ h
    | some L =>
      cases hA : (L.get w.External Name).1 with
      | some r =>
        rw [get_of_external_hit hf hL hA]
        exact StringMap.key_bindSlot _ _ _ h
      | none =>
        rw [get_of_external_miss hf hL hA]
        exact StringMap.key_bindSlot _ _ _ h

theorem deref_get (w : Session σ) (Name : Spelling) {II : Ref} {I : IdentifierInfo}
    (h : w.deref II = some I) : (w.get Name).2.deref II = some I := by
  have hlt : ∀ i : Nat, w.Allocator[i]? = some I → i < w.Allocator.length :=
    fun i hi => (List.getElem?_eq_some_iff.mp hi).1
  cases hf : w.find Name with
  | some r => rw [get_of_find hf]; exact h
  | none =>
    cases hL : w.ExternalLookup with
    | none =>
      rw [get_of_no_external hf hL]
      cases II with
      | arena i =>
        simp only [deref] at h ⊢
        rw [List.getElem?_append_left (hlt i h)]
        exact h
      | external i => exact h
    | some L =>
      cases hA : (L.get w.External Name).1 with
      | some r => rw [get_of_external_hit hf hL hA]; cases II <;> exact h
      | none =>
        rw [get_of_external_miss hf hL hA]
        cases II with
        | arena i =>
          simp only [deref] at h ⊢
          rw [List.getElem?_append_left (hlt i h)]
          exact h
        | external i => exact h

theorem namedAs_call {w : Session σ} {c : Call} {res : Ref × Session σ} {II : Ref}
    {Name : Spelling} (hc : w.call c = .ok res) (h : w.NamedAs II Name) :
    res.2.NamedAs II Name := by
  cases c with
  | get Other =>
    simp only [call, Except.ok.injEq] at hc
    subst hc
    exact namedAs_mono (fun j e he => keys_get w Other he)
      (fun I hI => ⟨I, deref_get w Other hI, rfl⟩) h
  | CreateIdentifierInfo Other =>
    simp only [call] at hc
    cases hf : w.find Other with
    | some r => rw [CreateIdentifierInfo_of_find hf] at hc; cases hc
    | none =>
      rw [CreateIdentifierInfo_of_not_find hf] at hc
      cases hc
      refine namedAs_mono (fun j e he => StringMap.key_bindSlot _ _ _ he) ?_ h
      intro I hI
      refine ⟨I, ?_, rfl⟩
      cases II with
      | arena i =>
        simp only [deref] at hI ⊢
        rw [List.getElem?_append_left (List.getElem?_eq_some_iff.mp hI).1]
        exact hI
      | external i => exact hI

theorem namedAs_run {cs : List Call} {w w2 : Session σ} {II : Ref} {Name : Spelling}
    (hrun : w.run cs = .ok w2) (h : w.NamedAs II Name) : w2.NamedAs II Name := by
  induction cs generalizing w with
  | nil =>
    simp only [run, Except.ok.injEq] at hrun
    subst hrun
    exact h
  | cons c cs ih =>
    simp only [run] at hrun
    cases hc : w.call c with
    | error e => rw [hc] at hrun; cases hrun
    | ok res =>
      rw [hc] at hrun
      exact ih hrun (namedAs_call hc h)

theorem namedAs_setTokenID {w : Session σ} {II : Ref} {Name : Spelling} (R : Ref) (ID : Nat)
    (h : w.NamedAs II Name) : (w.setTokenID R ID).NamedAs II Name := by
  refine namedAs_mono ?_ ?_ h
  · intro j e he
    rw [(setTokenID_frame w R ID).1, he]
    rfl
  · intro I hI
    cases R with
    | arena r =>
      cases II with
      | arena i =>
        simp only [deref, setTokenID, getElem?_updateAt] at hI ⊢
        rw [hI]
        by_cases hir : i = r
        · exact ⟨I.setTokenID ID, by simp [hir], rfl⟩
        · exact ⟨I, by simp [hir], rfl⟩
      | external i => exact ⟨I, hI, rfl⟩
    | external r =>
      cases II with
      | arena i => exact ⟨I, hI, rfl⟩
      | external i =>
        simp only [deref, setTokenID, getElem?_updateAt] at hI ⊢
        rw [hI]
        by_cases hir : i = r
        · exact ⟨I.setTokenID ID, by simp [hir], rfl⟩
        · exact ⟨I, by simp [hir], rfl⟩

end Session

/-- C3, amended: for every table, with or without an external lookup, and every spelling
`s`. When `get(s)` allocates (`s` is not bound and no lookup is configured or the lookup
answers null), the record it returns and binds to `s` has `getName()` equal to `s` and
`getLength()` equal to the byte length of `s`; so has the record a successful
`CreateIdentifierInfo(s)` returns and binds. When `s` is bound, `get(s)` returns the bound
record and leaves the table as it is, so the record has name `s` and the length of `s` after
the call exactly when it had them before. When `s` is bound to a record with name `s` and the
length of `s`, every `get(s)` after any sequence of `get` and `CreateIdentifierInfo` calls
that returns gives that record, still with name `s` and the length of `s`; a write of a token
kind to any record and a change of the external lookup keep the binding and the name as
well. When `get(s)` takes the external-hit path, it returns the record of the lookup as that
record is, and a record whose `Entry` is null has the null name and length 0. -/
theorem get_name_and_length {σ : Type} (w : Session σ) (Name : Spelling) :
    (w.find Name = none →
      (∀ L, w.ExternalLookup = some L → (L.get w.External Name).1 = none) →
        (w.get Name).2.find Name = some (w.get Name).1 ∧
        (w.get Name).2.NamedAs (w.get Name).1 Name) ∧
    (∀ res, w.CreateIdentifierInfo Name = .ok res →
      res.2.find Name = some res.1 ∧ res.2.NamedAs res.1 Name) ∧
    (∀ II, w.find Name = some II →
      w.get Name = (II, w) ∧ ((w.get Name).2.NamedAs (w.get Name).1 Name ↔ w.NamedAs II Name)) ∧
    (∀ (II : Ref) (cs : List Call) (w2 : Session σ), w.find Name = some II →
      w.NamedAs II Name → w.run cs = .ok w2 →
        (w2.get Name).1 = II ∧ (w2.get Name).2.NamedAs (w2.get Name).1 Name) ∧
    (∀ (II R : Ref) (ID : Nat) (IILookup : Option (IdentifierInfoLookup σ)),
      w.find Name = some II → w.NamedAs II Name →
        (w.setTokenID R ID).find Name = some II ∧ (w.setTokenID R ID).NamedAs II Name ∧
        (w.setExternalIdentifierLookup IILookup).find Name = some II ∧
        (w.setExternalIdentifierLookup IILookup).NamedAs II Name) ∧
    (∀ L II, w.find Name = none → w.ExternalLookup = some L →
      (L.get w.External Name).1 = some II →
        (w.get Name).1 = II ∧ (w.get Name).2.deref II = w.deref II ∧
        ∀ I, w.deref II = some I → I.Entry = none →
          I.getName (w.get Name).2.HashTable = none ∧
          I.getLength (w.get Name).2.HashTable = 0) := by
  refine ⟨?_, ?_, ?_, ?_, ?_, ?_⟩
  · intro hf hext
    refine ⟨by simpa using Session.find_get w Name Name, ?_⟩
    obtain ⟨h1, h2, h3, -⟩ := Session.get_of_fresh hf hext
    refine ⟨{ IdentifierInfo.ctor w.tok_identifier with
      Entry := some (StringMap.GetOrCreateValue w.HashTable Name).1 }, ?_, ?_⟩
    · simp [h1, Session.deref, h3]
    · rw [h2]
      exact Session.getName_bindSlot _ _ _ _ rfl
  · intro res hc
    refine ⟨by simpa using Session.find_CreateIdentifierInfo hc Name, ?_⟩
    cases hf : w.find Name with
    | some r => rw [Session.CreateIdentifierInfo_of_find hf] at hc; cases hc
    | none =>
      rw [Session.CreateIdentifierInfo_of_not_find hf] at hc
      cases hc
      refine ⟨{ IdentifierInfo.ctor w.tok_identifier with
        Entry := some (StringMap.GetOrCreateValue w.HashTable Name).1 }, ?_, ?_⟩
      · simp [Session.deref]
      · exact Session.getName_bindSlot _ _ _ _ rfl
  · intro II hf
    rw [Session.get_of_find hf]
    exact ⟨rfl, Iff.rfl⟩
  · intro II cs w2 hf hn hrun
    rw [Session.get_of_find (Session.find_run hrun hf)]
    exact ⟨rfl, Session.namedAs_run hrun hn⟩
  · intro II R ID IILookup hf hn
    exact ⟨(Session.find_setTokenID w R ID Name).trans hf, Session.namedAs_setTokenID R ID hn,
      hf, hn⟩
  · intro L II hf hL hA
    rw [Session.get_of_external_hit hf hL hA]
    refine ⟨rfl, by cases II <;> rfl, ?_⟩
    intro I _ hE
    simp [IdentifierInfo.getName, IdentifierInfo.getLength, hE]

/-- Witness of the amended C3: `get(foo)` allocates on a table without external lookup
where `bar` is interned, and on `fooSession` `get(bar)` allocates after `get(foo)` took the
external-hit path: the returned records have the name of the spelling, and the length 3. After
`get(bar)` and further calls `get(bar)` still returns the record named `bar`. On `fooSession`
`get(foo)` returns the external record, whose name is null and whose length is 0. -/
theorem get_name_and_length_witness :
    ((emptySession.get bar).2.get foo).2.NamedAs ((emptySession.get bar).2.get foo).1 foo ∧
    foo.length = 3 ∧
    ((fooSession.get foo).2.get bar).2.NamedAs ((fooSession.get foo).2.get bar).1 bar ∧
    ((((fooSession.get foo).2.get bar).2.outcome [Call.get foo, Call.get fooUpper]).get bar).1
      = Ref.arena 0 ∧
    (((fooSession.get foo).2.get bar).2.outcome [Call.get foo, Call.get fooUpper]).NamedAs
      (Ref.arena 0) bar ∧
    (fooSession.get foo).1 = Ref.external 0 ∧
    externalRecord.getName (fooSession.get foo).2.HashTable = none ∧
    externalRecord.getLength (fooSession.get foo).2.HashTable = 0 :=
  ⟨((get_name_and_length (emptySession.get bar).2 foo).1 (by decide)
      (by intro L hL; cases hL)).2,
    by decide,
    ((get_name_and_length (fooSession.get foo).2 bar).1 (by decide)
      (by intro L hL; cases hL; decide)).2,
    ((get_name_and_length ((fooSession.get foo).2.get bar).2 bar).2.2.2.1 (Ref.arena 0)
      [Call.get foo, Call.get fooUpper] _ (by decide)
      ((get_name_and_length (fooSession.get foo).2 bar).1 (by decide)
        (by intro L hL; cases hL; decide)).2 rfl).1,
    ((get_name_and_length ((fooSession.get foo).2.get bar).2 bar).2.2.2.1 (Ref.arena 0)
      [Call.get foo, Call.get fooUpper] _ (by decide)
      ((get_name_and_length (fooSession.get foo).2 bar).1 (by decide)
        (by intro L hL; cases hL; decide)).2 rfl).2,
    ((get_name_and_length fooSession foo).2.2.2.2.2 fooSource (Ref.external 0) (by decide) rfl
      (by decide)).1,
    (((get_name_and_length fooSession foo).2.2.2.2.2 fooSource (Ref.external 0) (by decide) rfl
      (by decide)).2.2 externalRecord (by decide) rfl).1,
    (((get_name_and_length fooSession foo).2.2.2.2.2 fooSource (Ref.external 0) (by decide) rfl
      (by decide)).2.2 externalRecord (by decide) rfl).2⟩

end Clang
